import Mathlib

/-!
# Prototipo_AgenteConversacional: intent analysis, quote extraction and quote orders

A shallow embedding of `server/utils/intentAnalyzer.js`, `server/services/chatService.js`,
`server/services/dbService.js` and `server/services/geminiService.js`.

Conventions of the embedding

* Text is `String`; the regular expressions work on its list of characters.  The
  source strings are sequences of UTF-16 code units; every pattern of the source
  mentions only characters of the Basic Multilingual Plane and has no `.` and no
  negated class, so a character outside the plane matches nothing in either view.
* A regular expression literal of the source is a value of `Regex`; all literals of
  the source carry the `i` flag and none carries `u`, and `matchAll` implements
  that matching discipline: backtracking, alternatives tried left to right,
  greedy quantifiers longest first, lazy quantifiers shortest first.
* A call that may throw returns `Except String _`, the string being the
  `message` of the thrown `Error`; a function that awaits collaborators takes the
  state of the world and returns the new state with its result.
* A Number that is a price or an amount is carried as the rational value it holds.
  The operations `+`, `*` and `-` of the source on Numbers round their result: they
  are parameters of the embedding (`Env.add`, `Env.mul`, `Env.sub`), of which no
  law is assumed, applied operation by operation in the order of the source.  The
  examples run on `binary64`, the rounding of the Number format.  Prices and
  amounts are finite Numbers: a product or a sum that overflows the format is
  outside the embedding.  A Number that comes out of `parseInt` is a `Quantity`:
  an integer that a Number can hold, or `Infinity`.
* A loop of the source whose number of rounds is not given by a list takes a
  fuel; the fuel passed is shown never to run out.
-/

namespace Agente

/-! ## Characters -/

/-- The `Canonicalize` operation of a case-insensitive, non-unicode regular
expression, as the code of the canonical character: a lower-case letter of Basic
Latin (`a`..`z`) or Latin-1 (`à`..`þ` but `÷`) goes to its upper-case partner, 32
below.  Every other character is left where it is; for the characters whose
upper-case form the language computes otherwise (`ÿ`, `µ`, and letters above
U+00FF) that form is never a character of the patterns of this program, nor is it
shared with one: a character whose upper-case form is Basic Latin is left unchanged
by the rule of the language, and no character above U+00FF has its upper-case form
in U+00C0..U+00DE.  So comparing canonical forms against the characters of the
patterns of this program is exact for every input character. -/
def canonicalize (c : Char) : Nat :=
  if (97 ≤ c.toNat ∧ c.toNat ≤ 122) ∨ (224 ≤ c.toNat ∧ c.toNat ≤ 254 ∧ c.toNat ≠ 247) then
    c.toNat - 32
  else c.toNat

/-- A character `c` of the input is matched by a class `cs` under the `i` flag
when some member of the class has the same canonical form. -/
def charMatches (cs : List Char) (c : Char) : Bool :=
  cs.any (fun a => canonicalize a == canonicalize c)

/-- The class `\d`. -/
def digitClass : List Char := "0123456789".data

/-- The class `\s`: WhiteSpace and LineTerminator of the language.  It is also the
set of characters that `String.prototype.trim` removes. -/
def spaceClass : List Char :=
  "\t\n\u000b\u000c\r \u00a0\u1680\u2000\u2001\u2002\u2003\u2004\u2005\u2006\u2007\u2008\u2009\u200a\u2028\u2029\u202f\u205f\u3000\ufeff".data

/-- The range `a-z`. -/
def lowerClass : List Char := "abcdefghijklmnopqrstuvwxyz".data

/-! ## Regular expressions -/

/-- The regular expressions used by the source.  Quantifiers `*`, `+`, `+?` occur
in the source on character classes only. -/
inductive Regex where
  | eps
  | set (cs : List Char)
  | eos
  | seq (a b : Regex)
  | alt (a b : Regex)
  | opt (a : Regex)
  | star (cs : List Char)
  | plus (cs : List Char)
  | plusLazy (cs : List Char)
  | group (i : Nat) (a : Regex)

/-- A run of literal characters. -/
def litChars : List Char → Regex
  | [] => Regex.eps
  | c :: cs => Regex.seq (Regex.set [c]) (litChars cs)

/-- A literal piece of a pattern, such as `cotiza`. -/
def lit (s : String) : Regex := litChars s.data

/-- An alternation `a|b|c`. -/
def alts : List Regex → Regex
  | [] => Regex.eps
  | [a] => a
  | a :: b :: rest => Regex.alt a (alts (b :: rest))

/-- State of a match in progress: the input still to read and the captures made
so far (most recent first). -/
structure MState where
  rest : List Char
  caps : List (Nat × List Char)

/-- The text read between two states of one match. -/
def consumed (before after : List Char) : List Char :=
  before.take (before.length - after.length)

/-- The input positions (as remaining inputs) reachable from `s` by reading zero
or more characters of the class, fewest characters first. -/
def classRuns (cs : List Char) : List Char → List (List Char)
  | [] => [[]]
  | c :: s => (c :: s) :: (if charMatches cs c then classRuns cs s else [])

/-- The positions reachable by reading one or more characters of the class,
fewest characters first. -/
def classRuns1 (cs : List Char) : List Char → List (List Char)
  | [] => []
  | c :: s => if charMatches cs c then classRuns cs s else []

/-- All the ways the expression matches at the start of the state's input, in the
order in which the backtracking matcher of the language finds them. -/
def matchAll : Regex → MState → List MState
  | Regex.eps => fun st => [st]
  | Regex.set cs => fun st =>
      match st.rest with
      | [] => []
      | c :: s => if charMatches cs c then [{ st with rest := s }] else []
  | Regex.eos => fun st =>
      match st.rest with
      | [] => [st]
      | _ :: _ => []
  | Regex.seq a b => fun st => (matchAll a st).flatMap (matchAll b)
  | Regex.alt a b => fun st => matchAll a st ++ matchAll b st
  | Regex.opt a => fun st => matchAll a st ++ [st]
  | Regex.star cs => fun st =>
      (classRuns cs st.rest).reverse.map (fun s => { st with rest := s })
  | Regex.plus cs => fun st =>
      (classRuns1 cs st.rest).reverse.map (fun s => { st with rest := s })
  | Regex.plusLazy cs => fun st =>
      (classRuns1 cs st.rest).map (fun s => { st with rest := s })
  | Regex.group i a => fun st =>
      (matchAll a st).map
        (fun st' => { st' with caps := (i, consumed st.rest st'.rest) :: st'.caps })

/-- The result of a successful match: `text` is element 0 of the match array,
`caps` the capture groups, `rest` the input after the match (where `lastIndex`
points for a global expression). -/
structure RegExpMatch where
  text : List Char
  caps : List (Nat × List Char)
  rest : List Char

/-- Capture group `i` of a match (the empty text when the group took no part). -/
def RegExpMatch.cap (m : RegExpMatch) (i : Nat) : List Char :=
  match m.caps.lookup i with
  | some t => t
  | none => []

/-- The match that starts exactly at the start of `s`, if there is one. -/
def matchAt (r : Regex) (s : List Char) : Option RegExpMatch :=
  match matchAll r { rest := s, caps := [] } with
  | [] => none
  | st :: _ => some { text := consumed s st.rest, caps := st.caps, rest := st.rest }

/-- One call of `RegExp.prototype.exec` on the input that starts at `lastIndex`:
the leftmost match. -/
def exec (r : Regex) : List Char → Option RegExpMatch
  | [] => matchAt r []
  | c :: s =>
      match matchAt r (c :: s) with
      | some m => some m
      | none => exec r s

/-- `RegExp.prototype.test` of an expression without the `g` flag. -/
def test (r : Regex) (message : String) : Bool :=
  (exec r message.data).isSome

/-! ## intentAnalyzer.js: the pattern families -/

/-- The constant `QUOTE_PATTERNS`. -/
def QUOTE_PATTERNS : List Regex :=
  [ Regex.seq (lit "cotiza") (Regex.opt (Regex.group 1 (alts [lit "me", lit "r"]))),
    Regex.seq (lit "cu") (Regex.seq (Regex.set "aá".data) (Regex.seq (lit "nto ")
      (Regex.group 1 (alts [lit "cuesta",
        Regex.seq (lit "costar") (Regex.seq (Regex.set "ií".data) (lit "a"))])))),
    lit "precio de",
    lit "quiero comprar",
    Regex.seq (lit "necesito ") (Regex.plus digitClass),
    Regex.seq (lit "dame ") (Regex.plus digitClass),
    Regex.seq (Regex.plus digitClass) (Regex.seq (Regex.star spaceClass)
      (Regex.group 1 (alts [lit "piezas", lit "unidades", lit "licencias"]))) ]

/-- The constant `TECHNICAL_PATTERNS`. -/
def TECHNICAL_PATTERNS : List Regex :=
  [ lit "especificaciones",
    Regex.seq (lit "caracter") (Regex.seq (Regex.set "ií".data) (lit "sticas")),
    Regex.seq (lit "c") (Regex.seq (Regex.set "oó".data) (lit "mo funciona")),
    Regex.seq (lit "qu") (Regex.seq (Regex.set "eé".data) (Regex.seq (lit " ")
      (Regex.group 1 (alts [lit "es", lit "son"])))),
    Regex.seq (lit "para qu") (Regex.seq (Regex.set "eé".data) (lit " sirve")),
    Regex.seq (lit "compatib") (Regex.group 1 (alts [lit "le", lit "ilidad"])),
    lit "conectividad",
    lit "capacidad",
    lit "rendimiento" ]

/-- The constant `PRODUCT_SEARCH_PATTERNS`. -/
def PRODUCT_SEARCH_PATTERNS : List Regex :=
  [ Regex.seq (lit "necesito ") (Regex.group 1 (alts [lit "un", lit "una"])),
    Regex.seq (lit "busco ") (Regex.group 1 (alts [lit "un", lit "una"])),
    Regex.seq (lit "recomienda") (Regex.opt (Regex.group 1 (lit "me"))),
    Regex.seq (lit "qu") (Regex.seq (Regex.set "eé".data) (lit " productos")),
    Regex.seq (lit "tiene") (Regex.seq (Regex.opt (lit "s")) (Regex.seq (lit " ")
      (Regex.group 1 (alts [lit "algo", lit "alguno"])))),
    Regex.seq (lit "para ") (Regex.group 1 (alts [lit "uso", lit "exterior", lit "interior"])),
    Regex.group 1 (alts [lit "lector", lit "impresora", lit "tarjeta", lit "software",
      lit "torniquete"]) ]

/-- The four intents. -/
inductive Intent where
  | quote_request
  | technical_query
  | product_search
  | general_query
  deriving DecidableEq, Repr

/-- The object `{ intent, confidence }` returned by `analyzeIntent`. -/
structure IntentResult where
  intent : Intent
  confidence : ℚ
  deriving DecidableEq

/-- The function `analyzeIntent`.  The local `lowerMessage` of the source is never
read and is left out. -/
def analyzeIntent (message : String) : IntentResult :=
  let isQuote := QUOTE_PATTERNS.any (fun pattern => test pattern message)
  if isQuote then
    { intent := Intent.quote_request, confidence := 9 / 10 }
  else
    let isTechnical := TECHNICAL_PATTERNS.any (fun pattern => test pattern message)
    if isTechnical then
      { intent := Intent.technical_query, confidence := 85 / 100 }
    else
      let isProductSearch := PRODUCT_SEARCH_PATTERNS.any (fun pattern => test pattern message)
      if isProductSearch then
        { intent := Intent.product_search, confidence := 8 / 10 }
      else
        { intent := Intent.general_query, confidence := 5 / 10 }

/-! ## intentAnalyzer.js: extraction of quantities and product hints -/

/-- The value of `parseInt` on a run of decimal digits: a Number that is a
non-negative integer, or `Infinity`. -/
inductive Quantity where
  | fin (n : Nat)
  | infinity
  deriving DecidableEq, Repr

/-- The number of low bits that a Number drops from the integer `n`: the greatest
`e` up to `bound` for which `n / 2 ^ e` still has 53 bits, 0 when there is none. -/
def droppedBits (n : Nat) : Nat → Nat
  | 0 => 0
  | e + 1 => if 2 ^ 52 ≤ n >>> (e + 1) then e + 1 else droppedBits n e

/-- The significand of `n` once its `e` low bits are dropped, rounded to the
nearest, ties to even. -/
def roundedSignificand (n e : Nat) : Nat :=
  let q := n >>> e
  let r := n - (q <<< e)
  let half := 1 <<< (e - 1)
  if half < r ∨ (r = half ∧ q % 2 = 1) then q + 1 else q

/-- The Number value of a non-negative integer `n` that has at most `bound` bits:
the integer itself below `2 ^ 53`, above it the nearest value with a 53-bit
significand (ties to even), and `Infinity` when that value reaches `2 ^ 1024`. -/
def toNumber (n bound : Nat) : Quantity :=
  if n < 2 ^ 53 then Quantity.fin n
  else
    let e := droppedBits n bound
    let value := roundedSignificand n e <<< e
    if value < 1 <<< 1024 then Quantity.fin value else Quantity.infinity

/-- A decimal digit `0`..`9`. -/
def isDigit (c : Char) : Bool := decide (48 ≤ c.toNat ∧ c.toNat ≤ 57)

/-- The integer written by a run of decimal digits. -/
def decimalValue (ds : List Char) : Nat :=
  ds.foldl (fun acc d => 10 * acc + (d.toNat - 48)) 0

/-- The built-in `parseInt` on a text that starts with its digits, as capture 1
of `quantityPattern` does (no leading white space, sign or radix prefix): the value
of the leading digit run, `none` standing for `NaN` when there is no digit.  All
the digits are significant, as in the engines that run this program.  A run of
`k` digits writes an integer of at most `4 * k` bits, which makes `4 * k` a bound
large enough for `toNumber` (`toNumber_bound`). -/
def parseInt (s : List Char) : Option Quantity :=
  match s.takeWhile isDigit with
  | [] => none
  | d :: ds => some (toNumber (decimalValue (d :: ds)) (4 * (d :: ds).length))

/-- The comparison `quantity > 0` on a Number produced by `parseInt`. -/
def Quantity.isPositive : Quantity → Bool
  | Quantity.fin n => decide (0 < n)
  | Quantity.infinity => true

/-- A character removed by `trim`. -/
def isWhiteSpace (c : Char) : Bool := spaceClass.contains c

/-- The method `String.prototype.trim`. -/
def trim (s : List Char) : List Char :=
  ((s.dropWhile isWhiteSpace).reverse.dropWhile isWhiteSpace).reverse

/-- The class `[a-záéíóúñ\s]`. -/
def wordClass : List Char := lowerClass ++ "áéíóúñ".data ++ spaceClass

/-- The local `quantityPattern`: `/(\d+)\s+([a-záéíóúñ\s]+?)(?:\s|$|,|\.)/gi`. -/
def quantityPattern : Regex :=
  Regex.seq (Regex.group 1 (Regex.plus digitClass))
    (Regex.seq (Regex.plus spaceClass)
      (Regex.seq (Regex.group 2 (Regex.plusLazy wordClass))
        (alts [Regex.set spaceClass, Regex.eos, lit ",", lit "."])))

/-- The words of the local `productPattern`. -/
def productWords : List String :=
  ["lector", "impresora", "tarjeta", "software", "torniquete", "biométrico", "credencial"]

/-- The local `productPattern`:
`/(lector|impresora|tarjeta|software|torniquete|biométrico|credencial)/gi`. -/
def productPattern : Regex :=
  Regex.group 1 (alts (productWords.map lit))

/-- An element `{ productHint, quantity }` of the array returned by
`extractQuoteInfo`. -/
structure QuoteLineCandidate where
  productHint : String
  quantity : Quantity
  deriving DecidableEq, Repr

/-- The loop `while ((match = quantityPattern.exec(message)) !== null)`: `input`
is the message from `lastIndex` on, `items` the array built so far.  Each round
reads at least one character, so `fuel` larger than the length of `input` is never
used up (`scanQuantities_fuel`). -/
def scanQuantities : Nat → List Char → List QuoteLineCandidate → List QuoteLineCandidate
  | 0, _, items => items
  | fuel + 1, input, items =>
      match exec quantityPattern input with
      | none => items
      | some m =>
          let productHint := trim (m.cap 2)
          match parseInt (m.cap 1) with
          | none => scanQuantities fuel m.rest items
          | some quantity =>
              if quantity.isPositive && decide (productHint.length > 2) then
                scanQuantities fuel m.rest
                  (items ++ [{ productHint := String.mk productHint, quantity := quantity }])
              else
                scanQuantities fuel m.rest items

/-- The method `String.prototype.match` with an expression that has the `g`
flag: the texts of all successive matches (the empty list stands for `null`).
After an empty match the scan resumes one character further.  Each round moves
on by at least one character, so `fuel` larger than the length of `input` is never
used up (`matchGlobal_fuel`). -/
def matchGlobal (r : Regex) : Nat → List Char → List (List Char)
  | 0, _ => []
  | fuel + 1, input =>
      match exec r input with
      | none => []
      | some m =>
          m.text ::
            (match m.text, m.rest with
             | _ :: _, rest => matchGlobal r fuel rest
             | [], _ :: rest => matchGlobal r fuel rest
             | [], [] => [])

/-- The function `extractQuoteInfo`. -/
def extractQuoteInfo (message : String) : List QuoteLineCandidate :=
  let items := scanQuantities (message.data.length + 1) message.data []
  if items.length = 0 then
    match matchGlobal productPattern (message.data.length + 1) message.data with
    | [] => items
    | first :: _ => items ++ [{ productHint := String.mk first, quantity := Quantity.fin 1 }]
  else
    items

/-! ## The collaborators: providers and store -/

/-- Modelled from the spec: the free-form specification map of a product holds,
under each key, a scalar (kept as the text it is rendered to) or a list of
scalars. -/
inductive SpecValue where
  | scalar (text : String)
  | list (items : List String)
  deriving DecidableEq, Repr

/-- Modelled from the spec: a row of the table `productos` as the similarity query
returns it (the table is declared outside the source): the columns selected by
`searchProductsBySimilarity`, the stock an integer, the price a decimal. -/
structure Product where
  id : Nat
  sku : String
  nombre : String
  marca : String
  descripcion : String
  precio_lista : ℚ
  stock_actual : Int
  especificaciones_tecnicas : Option (List (String × SpecValue))
  distancia : ℚ
  deriving DecidableEq, Repr

/-- Modelled from the spec: a row of the table `ordenes` (declared outside the
source), with the columns that `createQuoteOrder` writes and reads back; the
creation time stamp is left out. -/
structure Orden where
  id : Nat
  usuario_id : String
  monto_total : ℚ
  estado : String
  deriving DecidableEq, Repr

/-- Modelled from the spec: a row of the table `detalles_orden` (declared outside
the source). -/
structure DetalleOrden where
  orden_id : Nat
  producto_id : Nat
  cantidad : Nat
  precio_unitario : ℚ
  deriving DecidableEq, Repr

/-- Modelled from the spec: the part of the store that the chat path writes. -/
structure Db where
  ordenes : List Orden
  detalles_orden : List DetalleOrden
  deriving DecidableEq, Repr

/-- An element `{ productId, quantity, unitPrice }` of the array passed to
`createQuoteOrder`. -/
structure OrderItem where
  productId : Nat
  quantity : Nat
  unitPrice : ℚ
  deriving DecidableEq, Repr

/-- The two statements that `createQuoteOrder` sends to the store. -/
inductive Statement where
  | insertOrden (usuario_id : String) (monto_total : ℚ)
  | insertDetalle (row : DetalleOrden)
  deriving DecidableEq, Repr

/-- The field `embedding` of the result of `embedContent`; `values` may be
absent. -/
structure ContentEmbedding where
  values : Option (List ℚ)
  deriving DecidableEq, Repr

/-- The result of `embeddingModel.embedContent`; `embedding` may be absent. -/
structure EmbedContentResult where
  embedding : Option ContentEmbedding
  deriving DecidableEq, Repr

/-- The collaborators that lie outside the source, taken as parameters: the two
model providers, the store (each `sql` call sends one statement, which either
fails and changes nothing or takes effect), the arithmetic and the rendering of
Numbers, and the deployment setting.  A Number is carried as the value it holds;
the operations `+`, `*` and `-` of the language round their result, so they are
taken as the engine gives them and no law of exact arithmetic is assumed of them. -/
structure Env where
  /-- The call `embeddingModel.embedContent(text)`. -/
  embedContent : String → Except String EmbedContentResult
  /-- The call `chatModel.generateContent(prompt)` followed by `response.text()`. -/
  generateContent : String → Except String String
  /-- The `SELECT` of `searchProductsBySimilarity`, for a query vector and a limit. -/
  similarityQuery : List ℚ → Nat → Except String (List Product)
  /-- The error, if any, with which the store rejects a statement in a state. -/
  sqlFailure : Db → Statement → Option String
  /-- The identifier the store gives to a new row of `ordenes`. -/
  freshOrderId : Db → Nat
  /-- The operation `a + b` on Numbers. -/
  add : ℚ → ℚ → ℚ
  /-- The operation `a * b` on Numbers. -/
  mul : ℚ → ℚ → ℚ
  /-- The operation `a - b` on Numbers. -/
  sub : ℚ → ℚ → ℚ
  /-- The text of a Number inside a template literal. -/
  showNumber : ℚ → String
  /-- The method `Number.prototype.toFixed(2)`. -/
  toFixed2 : ℚ → String
  /-- The value of `parseInt(process.env.MAX_PRODUCTS_SEARCH || '5')`. -/
  maxResults : Nat

/-- A call that leaves the source, recorded in the order in which it is made. -/
inductive Call where
  | embedContent (text : String)
  | generateContent (prompt : String)
  | similarityQuery (embedding : List ℚ) (limit : Nat)
  | createQuoteOrder (userId : String) (items : List OrderItem)
  deriving DecidableEq, Repr

/-- The state threaded through a request: the store and the record of calls. -/
structure World where
  db : Db
  calls : List Call
  deriving DecidableEq, Repr

/-- Adds a call to the record. -/
def World.record (w : World) (c : Call) : World :=
  { w with calls := w.calls ++ [c] }

/-! ## geminiService.js -/

/-- The function `generateEmbedding`. -/
def generateEmbedding (env : Env) (text : String) (w : World) :
    World × Except String (List ℚ) :=
  let w1 := w.record (Call.embedContent text)
  match env.embedContent text with
  | Except.error msg => (w1, Except.error ("Error en Gemini API (embedding): " ++ msg))
  | Except.ok result =>
      match result.embedding with
      | none =>
          (w1, Except.error
            ("Error en Gemini API (embedding): " ++ "El embedding generado está vacío"))
      | some embedding =>
          match embedding.values with
          | none =>
              (w1, Except.error
                ("Error en Gemini API (embedding): " ++ "El embedding generado está vacío"))
          | some values => (w1, Except.ok values)

/-- The function `generateResponse`. -/
def generateResponse (env : Env) (systemPrompt context userMessage : String) (w : World) :
    World × Except String String :=
  let fullPrompt := systemPrompt ++ "\n\nCONTEXTO DE PRODUCTOS:\n" ++ context ++
    "\n\nPREGUNTA DEL USUARIO:\n" ++ userMessage ++
    "\n\nINSTRUCCIONES:\n- Responde de manera profesional y técnica\n" ++
    "- Si recomiendas productos, menciona SKU, marca y características clave\n" ++
    "- Si no hay productos relevantes en el contexto, indícalo claramente\n" ++
    "- Mantén un tono B2B (mayorista)"
  let w1 := w.record (Call.generateContent fullPrompt)
  match env.generateContent fullPrompt with
  | Except.error msg => (w1, Except.error ("Error en Gemini API (generación): " ++ msg))
  | Except.ok text =>
      if text.isEmpty then
        (w1, Except.error ("Error en Gemini API (generación): " ++ "La respuesta de Gemini está vacía"))
      else
        (w1, Except.ok text)

/-! ## dbService.js -/

/-- The function `searchProductsBySimilarity`. -/
def searchProductsBySimilarity (env : Env) (embedding : List ℚ) (limit : Nat) (w : World) :
    World × Except String (List Product) :=
  let w1 := w.record (Call.similarityQuery embedding limit)
  match env.similarityQuery embedding limit with
  | Except.error msg => (w1, Except.error ("Error al buscar productos: " ++ msg))
  | Except.ok result => (w1, Except.ok result)

/-- The amount `items.reduce((sum, item) => sum + item.quantity * item.unitPrice, 0)`,
computed with the operations of Numbers, from 0 and in the order of the items. -/
def sumItems (env : Env) (items : List OrderItem) : ℚ :=
  items.foldl (fun sum item => env.add sum (env.mul (item.quantity : ℚ) item.unitPrice)) 0

/-- The row of `detalles_orden` written for an item of an order. -/
def detalleOf (ordenId : Nat) (item : OrderItem) : DetalleOrden :=
  { orden_id := ordenId, producto_id := item.productId, cantidad := item.quantity,
    precio_unitario := item.unitPrice }

/-- The loop `for (const item of items)` of `createQuoteOrder`: one `INSERT` into
`detalles_orden` per item, stopping at the first one that fails. -/
def insertDetalles (env : Env) (ordenId : Nat) : List OrderItem → Db → Db × Except String Unit
  | [], db => (db, Except.ok ())
  | item :: rest, db =>
      match env.sqlFailure db (Statement.insertDetalle (detalleOf ordenId item)) with
      | some msg => (db, Except.error msg)
      | none =>
          insertDetalles env ordenId rest
            { db with detalles_orden := db.detalles_orden ++ [detalleOf ordenId item] }

/-- The object `{ ...order, items }` returned by `createQuoteOrder`. -/
structure CreatedOrder where
  order : Orden
  items : List OrderItem
  deriving DecidableEq, Repr

/-- The function `createQuoteOrder`.  Its `catch` logs and throws the error on. -/
def createQuoteOrder (env : Env) (userId : String) (items : List OrderItem) (w : World) :
    World × Except String CreatedOrder :=
  let w0 := w.record (Call.createQuoteOrder userId items)
  let montoTotal := sumItems env items
  match env.sqlFailure w0.db (Statement.insertOrden userId montoTotal) with
  | some msg => (w0, Except.error msg)
  | none =>
      let order : Orden :=
        { id := env.freshOrderId w0.db, usuario_id := userId, monto_total := montoTotal,
          estado := "cotizacion" }
      let db1 : Db := { w0.db with ordenes := w0.db.ordenes ++ [order] }
      match insertDetalles env order.id items db1 with
      | (db2, Except.error msg) => ({ w0 with db := db2 }, Except.error msg)
      | (db2, Except.ok _) => ({ w0 with db := db2 }, Except.ok { order := order, items := items })

/-! ## chatService.js -/

/-- The constant `SYSTEM_PROMPT`. -/
def SYSTEM_PROMPT : String :=
  "Eres un asistente virtual especializado en productos de control de acceso, biometría y seguridad para el sector B2B (mayorista).\n\n" ++
  "Tu empresa es similar a SIASA, un mayorista de tecnología que vende a integradores y distribuidores.\n\n" ++
  "DIRECTRICES:\n" ++
  "1. Usa un tono profesional y técnico, pero amigable\n" ++
  "2. Siempre menciona SKU, marca y características técnicas relevantes\n" ++
  "3. Si recomiendas productos, explica por qué son adecuados para la necesidad del cliente\n" ++
  "4. Si un producto no está en stock o no existe, sé honesto\n" ++
  "5. Para cotizaciones, proporciona información clara de precios y disponibilidad\n" ++
  "6. Recuerda que tus clientes son profesionales del sector (integradores, no usuarios finales)"

/-- One line of `specsText` in `buildContext`. -/
def specLine (entry : String × SpecValue) : String :=
  match entry.2 with
  | SpecValue.list items => "  - " ++ entry.1 ++ ": " ++ String.intercalate ", " items
  | SpecValue.scalar text => "  - " ++ entry.1 ++ ": " ++ text

/-- The block that `buildContext` writes for the product at position `index`. -/
def contextBlock (env : Env) (index : Nat) (p : Product) : String :=
  let specs := p.especificaciones_tecnicas.getD []
  let specsText := String.intercalate "\n" (specs.map specLine)
  "\nPRODUCTO " ++ toString (index + 1) ++ ":\n" ++
  "- SKU: " ++ p.sku ++ "\n" ++
  "- Nombre: " ++ p.nombre ++ "\n" ++
  "- Marca: " ++ p.marca ++ "\n" ++
  "- Descripción: " ++ p.descripcion ++ "\n" ++
  "- Precio: $" ++ env.showNumber p.precio_lista ++ "\n" ++
  "- Stock: " ++ toString p.stock_actual ++ " unidades\n" ++
  "- Especificaciones:\n" ++ specsText ++ "\n" ++
  "- Relevancia: " ++ env.toFixed2 (env.sub 1 p.distancia) ++ "\n"

/-- The blocks of the products from position `index` on. -/
def contextBlocks (env : Env) : Nat → List Product → List String
  | _, [] => []
  | index, p :: rest => contextBlock env index p :: contextBlocks env (index + 1) rest

/-- The function `buildContext`. -/
def buildContext (env : Env) (products : List Product) : String :=
  if products.length = 0 then
    "No se encontraron productos relevantes en el catálogo."
  else
    String.intercalate "\n---\n" (contextBlocks env 0 products)

/-- An element of the field `products` of a result. -/
structure ProductSummary where
  id : Nat
  sku : String
  nombre : String
  marca : String
  precio : ℚ
  stock : Int
  distancia : ℚ
  deriving DecidableEq, Repr

/-- An element of `quote.items`. -/
structure QuoteLine where
  sku : String
  nombre : String
  cantidad : Nat
  precioUnitario : ℚ
  subtotal : ℚ
  deriving DecidableEq, Repr

/-- The field `quote` of a result. -/
structure Quote where
  orderId : Nat
  items : List QuoteLine
  total : ℚ
  deriving DecidableEq, Repr

/-- The object `{ response, products?, quote? }` returned by `processMessage`. -/
structure ChatResult where
  response : String
  products : Option (List ProductSummary)
  quote : Option Quote
  deriving DecidableEq, Repr

/-- The function `handleRAGQuery`.  Its `catch` logs and throws the error on. -/
def handleRAGQuery (env : Env) (_userId : String) (message : String) (w : World) :
    World × Except String ChatResult :=
  match generateEmbedding env message w with
  | (w1, Except.error msg) => (w1, Except.error msg)
  | (w1, Except.ok queryEmbedding) =>
      match searchProductsBySimilarity env queryEmbedding env.maxResults w1 with
      | (w2, Except.error msg) => (w2, Except.error msg)
      | (w2, Except.ok similarProducts) =>
          let context := buildContext env similarProducts
          match generateResponse env SYSTEM_PROMPT context message w2 with
          | (w3, Except.error msg) => (w3, Except.error msg)
          | (w3, Except.ok response) =>
              (w3, Except.ok
                { response := response,
                  products := some (similarProducts.map (fun p =>
                    { id := p.id, sku := p.sku, nombre := p.nombre, marca := p.marca,
                      precio := p.precio_lista, stock := p.stock_actual,
                      distancia := p.distancia })),
                  quote := none })

/-- An element of the local array `quoteItems` of `handleQuoteRequest`. -/
structure QuoteItem where
  productId : Nat
  quantity : Nat
  unitPrice : ℚ
  product : Product
  deriving DecidableEq, Repr

/-- The text of a requested quantity inside a template literal. -/
def showQuantity (env : Env) : Quantity → String
  | Quantity.fin n => env.showNumber n
  | Quantity.infinity => "Infinity"

/-- The text added for a product whose stock is below the requested quantity. -/
def insufficientText (env : Env) (product : Product) (quantity : Quantity) : String :=
  "⚠️ **" ++ product.nombre ++ "** (SKU: " ++ product.sku ++ ")\n" ++
  "   Stock insuficiente. Disponible: " ++ toString product.stock_actual ++
  ", Solicitado: " ++ showQuantity env quantity ++ "\n\n"

/-- The text added for a line of the quote. -/
def lineText (env : Env) (product : Product) (quantity : Nat) : String :=
  "✓ **" ++ product.nombre ++ "** (SKU: " ++ product.sku ++ ")\n" ++
  "   Marca: " ++ product.marca ++ "\n" ++
  "   Cantidad: " ++ env.showNumber quantity ++ "\n" ++
  "   Precio unitario: $" ++ env.toFixed2 product.precio_lista ++ "\n" ++
  "   Subtotal: $" ++ env.toFixed2 (env.mul product.precio_lista quantity) ++ "\n\n"

/-- The loop `for (const item of items)` of `handleQuoteRequest`, with the local
variables `quoteItems` and `responseText` as accumulators.  The test
`product.stock_actual < item.quantity` holds for every stock when the quantity is
`Infinity`. -/
def resolveItems (env : Env) :
    List QuoteLineCandidate → List QuoteItem → String → World →
      World × Except String (List QuoteItem × String)
  | [], quoteItems, responseText, w => (w, Except.ok (quoteItems, responseText))
  | item :: rest, quoteItems, responseText, w =>
      match generateEmbedding env item.productHint w with
      | (w1, Except.error msg) => (w1, Except.error msg)
      | (w1, Except.ok embedding) =>
          match searchProductsBySimilarity env embedding 1 w1 with
          | (w2, Except.error msg) => (w2, Except.error msg)
          | (w2, Except.ok []) =>
              resolveItems env rest quoteItems
                (responseText ++ "❌ No encontré productos que coincidan con: \"" ++
                  item.productHint ++ "\"\n\n") w2
          | (w2, Except.ok (product :: _)) =>
              match item.quantity with
              | Quantity.infinity =>
                  resolveItems env rest quoteItems
                    (responseText ++ insufficientText env product item.quantity) w2
              | Quantity.fin quantity =>
                  if product.stock_actual < (quantity : Int) then
                    resolveItems env rest quoteItems
                      (responseText ++ insufficientText env product item.quantity) w2
                  else
                    resolveItems env rest
                      (quoteItems ++ [{ productId := product.id, quantity := quantity,
                                        unitPrice := product.precio_lista, product := product }])
                      (responseText ++ lineText env product quantity) w2

/-- The function `handleQuoteRequest`.  Its `catch` logs and throws the error on. -/
def handleQuoteRequest (env : Env) (userId : String) (message : String) (w : World) :
    World × Except String ChatResult :=
  let items := extractQuoteInfo message
  if items.length = 0 then
    (w, Except.ok
      { response := "No pude identificar qué productos deseas cotizar. Por favor, especifica el producto y la cantidad. Ejemplo: \"Cotízame 10 tarjetas HID ProxCard II\"",
        products := none, quote := none })
  else
    match resolveItems env items [] "📋 **COTIZACIÓN**\n\n" w with
    | (w1, Except.error msg) => (w1, Except.error msg)
    | (w1, Except.ok (quoteItems, responseText)) =>
        if quoteItems.length > 0 then
          let total : ℚ :=
            quoteItems.foldl
              (fun sum item => env.add sum (env.mul (item.quantity : ℚ) item.unitPrice)) 0
          let responseText1 := responseText ++ "**TOTAL: $" ++ env.toFixed2 total ++ "**\n\n"
          match createQuoteOrder env userId
              (quoteItems.map (fun item =>
                { productId := item.productId, quantity := item.quantity,
                  unitPrice := item.unitPrice })) w1 with
          | (w2, Except.error msg) => (w2, Except.error msg)
          | (w2, Except.ok order) =>
              (w2, Except.ok
                { response := responseText1 ++ "Cotización guardada con ID: " ++
                    toString order.order.id ++ "\n" ++
                    "Para proceder con el pedido, contacta a tu ejecutivo de cuenta.",
                  products := none,
                  quote := some
                    { orderId := order.order.id,
                      items := quoteItems.map (fun item =>
                        { sku := item.product.sku, nombre := item.product.nombre,
                          cantidad := item.quantity, precioUnitario := item.unitPrice,
                          subtotal := env.mul (item.quantity : ℚ) item.unitPrice }),
                      total := total } })
        else
          (w1, Except.ok
            { response := responseText ++
                "No se pudo generar la cotización. Por favor, verifica los productos solicitados.",
              products := none, quote := none })

/-- The function `processMessage`.  Its `catch` logs and throws the error on. -/
def processMessage (env : Env) (userId : String) (message : String) (w : World) :
    World × Except String ChatResult :=
  let intent := (analyzeIntent message).intent
  if intent = Intent.quote_request then
    handleQuoteRequest env userId message w
  else
    handleRAGQuery env userId message w

/-! ## Reading of the regular expressions, used to state the properties -/

/-- Declarative reading of an expression: `Reads r s s'` says that `r` can match
at the start of `s` and leave `s'` unread. -/
def Reads : Regex → List Char → List Char → Prop
  | Regex.eps, s, s' => s' = s
  | Regex.set cs, s, s' => ∃ c, s = c :: s' ∧ charMatches cs c = true
  | Regex.eos, s, s' => s = [] ∧ s' = []
  | Regex.seq a b, s, s' => ∃ m, Reads a s m ∧ Reads b m s'
  | Regex.alt a b, s, s' => Reads a s s' ∨ Reads b s s'
  | Regex.opt a, s, s' => Reads a s s' ∨ s' = s
  | Regex.star cs, s, s' => ∃ pre, s = pre ++ s' ∧ ∀ c ∈ pre, charMatches cs c = true
  | Regex.plus cs, s, s' =>
      ∃ pre, pre ≠ [] ∧ s = pre ++ s' ∧ ∀ c ∈ pre, charMatches cs c = true
  | Regex.plusLazy cs, s, s' =>
      ∃ pre, pre ≠ [] ∧ s = pre ++ s' ∧ ∀ c ∈ pre, charMatches cs c = true
  | Regex.group _ a, s, s' => Reads a s s'

/-- A pattern matches a message when it can be read at some position of it. -/
def Matches (r : Regex) (message : String) : Prop :=
  ∃ pre s s', message.data = pre ++ s ∧ Reads r s s'

/-- Two texts are equal up to the case of their letters. -/
def SameIgnoringCase (u w : List Char) : Prop :=
  List.Forall₂ (fun a b => canonicalize a = canonicalize b) u w

/-! ## Vocabulary of the record of calls -/

/-- The calls of `createQuoteOrder` in a record of calls, with their arguments. -/
def createQuoteOrderCalls (calls : List Call) : List (String × List OrderItem) :=
  calls.filterMap (fun c =>
    match c with
    | Call.createQuoteOrder userId items => some (userId, items)
    | _ => none)

/-- A step from `w` to `w'` that leaves the store as it was and adds no call of
`createQuoteOrder`. -/
def Quiet (w w' : World) : Prop :=
  w'.db = w.db ∧ createQuoteOrderCalls w'.calls = createQuoteOrderCalls w.calls

/-! ## Vocabulary of the resolution of candidates -/

/-- A state with an empty store and an empty record of calls. -/
def emptyWorld : World := { db := { ordenes := [], detalles_orden := [] }, calls := [] }

/-- The outcome of the top-1 search for a hint, `generateEmbedding` followed by
`searchProductsBySimilarity` with limit 1: an error, no product, or the product found.
The outcome of the two functions does not depend on the state they start from
(`generateEmbedding_snd`, `searchProductsBySimilarity_snd`). -/
def searchTop1 (env : Env) (hint : String) : Except String (Option Product) :=
  match (generateEmbedding env hint emptyWorld).2 with
  | Except.error msg => Except.error msg
  | Except.ok embedding =>
      match (searchProductsBySimilarity env embedding 1 emptyWorld).2 with
      | Except.error msg => Except.error msg
      | Except.ok products => Except.ok products.head?

/-- The stock is at least the requested quantity. -/
def stockCovers (stock : Int) : Quantity → Prop
  | Quantity.fin n => (n : Int) ≤ stock
  | Quantity.infinity => False

/-- The line that a candidate contributes to `quoteItems`, if it contributes one:
the top-1 search returned a product whose stock covers the quantity. -/
def candidateLine (env : Env) (c : QuoteLineCandidate) : Option QuoteItem :=
  match searchTop1 env c.productHint, c.quantity with
  | Except.ok (some product), Quantity.fin n =>
      if (n : Int) ≤ product.stock_actual then
        some { productId := product.id, quantity := n, unitPrice := product.precio_lista,
               product := product }
      else none
  | _, _ => none

/-- The item passed to `createQuoteOrder` for a line. -/
def orderItemOf (item : QuoteItem) : OrderItem :=
  { productId := item.productId, quantity := item.quantity, unitPrice := item.unitPrice }

/-- The element of `quote.items` for a line. -/
def quoteLineOf (env : Env) (item : QuoteItem) : QuoteLine :=
  { sku := item.product.sku, nombre := item.product.nombre, cantidad := item.quantity,
    precioUnitario := item.unitPrice,
    subtotal := env.mul (item.quantity : ℚ) item.unitPrice }

/-- The lines of the quote of a result (none when the result has no quote). -/
def quoteLines (result : ChatResult) : List QuoteLine :=
  match result.quote with
  | some q => q.items
  | none => []

/-- The amount of a list of lines: quantity times unit price, added up from 0 in the
order of the lines with the operations of Numbers, as `reduce` does. -/
def linesAmount (env : Env) (lines : List QuoteItem) : ℚ :=
  lines.foldl (fun sum item => env.add sum (env.mul (item.quantity : ℚ) item.unitPrice)) 0

/-- The header row that `createQuoteOrder` writes for a user and a list of items
in a store. -/
def headerOf (env : Env) (db : Db) (userId : String) (items : List OrderItem) : Orden :=
  { id := env.freshOrderId db, usuario_id := userId, monto_total := sumItems env items,
    estado := "cotizacion" }

/-- The lines of a quote request: those contributed by its candidates, in their
order. -/
def resolvedLines (env : Env) (message : String) : List QuoteItem :=
  (extractQuoteInfo message).filterMap (candidateLine env)

/-- Every top-1 search of a quote request succeeds (with or without a product). -/
def AllSearched (env : Env) (message : String) : Prop :=
  ∀ c ∈ extractQuoteInfo message, ∃ r, searchTop1 env c.productHint = Except.ok r

/-! ## Collaborators for the examples -/

/-- The product of the end-to-end example: SKU `HID-1326-LMSMV`, price 65.50,
stock 5000. -/
def proxCard : Product :=
  { id := 1, sku := "HID-1326-LMSMV", nombre := "HID ProxCard II", marca := "HID",
    descripcion := "Tarjeta de proximidad", precio_lista := 131 / 2, stock_actual := 5000,
    especificaciones_tecnicas := none, distancia := 1 / 10 }

/-- The scaling of a positive ratio `n / d` into the range of a 53-bit significand:
the result `(n', d', e)` has `n / d = (n' / d') * 2 ^ e`, with
`2 ^ 52 ≤ n' / d' < 2 ^ 53` when the fuel does not run out (one round per binary
place, so a fuel of `n + d + 53` is enough). -/
def normalizeRatio : Nat → Nat → Nat → Int → Nat × Nat × Int
  | 0, n, d, e => (n, d, e)
  | fuel + 1, n, d, e =>
      if 2 ^ 53 * d ≤ n then normalizeRatio fuel n (2 * d) (e + 1)
      else if n < 2 ^ 52 * d then normalizeRatio fuel (2 * n) d (e - 1)
      else (n, d, e)

/-- The integer nearest to `n / d`, the even one of the two when it lies half way. -/
def roundRatio (n d : Nat) : Nat :=
  if d < 2 * (n % d) ∨ (2 * (n % d) = d ∧ (n / d) % 2 = 1) then n / d + 1 else n / d

/-- The Number nearest to a rational, as the arithmetic of Numbers rounds an exact
result: a significand of 53 bits, ties to even, and below `2 ^ (-1022)` the fixed
step `2 ^ (-1074)` of the subnormal values.  A result of magnitude `2 ^ 1024` or
more, which the format turns into `Infinity`, has no value in this carrier: it is
left as the rounded value with its own exponent. -/
def binary64 (q : ℚ) : ℚ :=
  if q = 0 then 0
  else
    match normalizeRatio (q.num.natAbs + q.den + 53) q.num.natAbs q.den 0 with
    | (n, d, e) =>
        let value : ℚ :=
          if e < -1074 then mkRat (roundRatio n (d * 2 ^ (-1074 - e).toNat)) (2 ^ 1074)
          else if 0 ≤ e then mkRat (roundRatio n d * 2 ^ e.toNat) 1
          else mkRat (roundRatio n d) (2 ^ (-e).toNat)
        if q < 0 then -value else value

/-- Collaborators for the examples: every provider call succeeds, the catalog
holds `proxCard` alone, the store accepts every statement and numbers the orders
from 1; a Number is rendered as a fraction.  The arithmetic is that of Numbers: the
exact result of each operation, rounded by `binary64`. -/
def exampleEnv : Env :=
  { embedContent := fun _ => Except.ok { embedding := some { values := some [1] } },
    generateContent := fun _ => Except.ok "respuesta",
    similarityQuery := fun _ limit => Except.ok ([proxCard].take limit),
    sqlFailure := fun _ _ => none,
    freshOrderId := fun db => db.ordenes.length + 1,
    add := fun a b => binary64 (a + b),
    mul := fun a b => binary64 (a * b),
    sub := fun a b => binary64 (a - b),
    showNumber := fun q => toString q.num ++ "/" ++ toString q.den,
    toFixed2 := fun q => toString q.num ++ "/" ++ toString q.den,
    maxResults := 5 }

/-- The Number written `0.1`. -/
def oneTenth : ℚ := 3602879701896397 / 36028797018963968

/-- A product of the examples priced at the Number `0.1`, stock 5000. -/
def tagCard : Product :=
  { id := 2, sku := "TAG-01", nombre := "Etiqueta adhesiva", marca := "HID",
    descripcion := "Etiqueta", precio_lista := oneTenth, stock_actual := 5000,
    especificaciones_tecnicas := none, distancia := 1 / 8 }

/-- The collaborators of the examples with a catalog that holds `tagCard` alone. -/
def tagEnv : Env :=
  { exampleEnv with similarityQuery := fun _ limit => Except.ok ([tagCard].take limit) }

/-- The same collaborators with a store that rejects every detail row. -/
def rejectingEnv : Env :=
  { exampleEnv with
    sqlFailure := fun _ statement =>
      match statement with
      | Statement.insertDetalle _ => some "violates foreign key constraint"
      | Statement.insertOrden _ _ => none }

/-! ## Vocabulary of the extraction -/

/-- An occurrence of a word of the fallback vocabulary in a text, whatever the case
of its letters: the text is `pre ++ hint ++ post` and `hint` is the word. -/
def VocabularyAt (text pre hint post : List Char) : Prop :=
  text = pre ++ hint ++ post ∧ ∃ w ∈ productWords, SameIgnoringCase hint w.data

/-- A text without white space at its start and at its end. -/
def Trimmed (s : List Char) : Prop :=
  (∀ c, s.head? = some c → isWhiteSpace c = false) ∧
  (∀ c, s.getLast? = some c → isWhiteSpace c = false)

/-- A message whose quantity is written with 310 digits: `1` followed by 309
zeros, then ` tarjetas`. -/
def hugeQuantityMessage : String :=
  String.mk ("1".data ++ List.replicate 309 '0' ++ " tarjetas".data)

/-- The terminator `(?:\s|$|,|\.)` of `quantityPattern`. -/
def quantityTerminator : Regex :=
  alts [Regex.set spaceClass, Regex.eos, lit ",", lit "."]

/-! ## Vocabulary of the decision table of the intents -/

/-- A row of the decision table of the intents: a family of patterns, with the
intent and the confidence returned when one of its patterns matches. -/
structure IntentRule where
  patterns : List Regex
  intent : Intent
  confidence : ℚ

/-- The ordered decision table of the specification: quote patterns first (0.9),
then technical patterns (0.85), then product-search patterns (0.8). -/
def intentTable : List IntentRule :=
  [ { patterns := QUOTE_PATTERNS, intent := Intent.quote_request, confidence := 9 / 10 },
    { patterns := TECHNICAL_PATTERNS, intent := Intent.technical_query, confidence := 85 / 100 },
    { patterns := PRODUCT_SEARCH_PATTERNS, intent := Intent.product_search,
      confidence := 8 / 10 } ]

/-- The reading of a decision table: the result of the first row that has a
matching pattern, the result `otherwise` when no row has one. -/
def firstMatchingRule (table : List IntentRule) (otherwise : IntentResult) (message : String) :
    IntentResult :=
  match table.find? (fun rule => rule.patterns.any (fun pattern => test pattern message)) with
  | some rule => { intent := rule.intent, confidence := rule.confidence }
  | none => otherwise

/-- The confidence that the specification attaches to each intent. -/
def confidenceOf : Intent → ℚ
  | Intent.quote_request => 9 / 10
  | Intent.technical_query => 85 / 100
  | Intent.product_search => 8 / 10
  | Intent.general_query => 5 / 10

/-! ## Vocabulary of the quantity phrases of the quote patterns -/

/-- The unit words of the pattern `/\d+\s*(piezas|unidades|licencias)/i`. -/
def unitWords : List String := ["piezas", "unidades", "licencias"]

/-- A quantity phrase that `QUOTE_PATTERNS` knows, whatever the case of its
letters: `necesito` or `dame`, a blank and a digit; or a run of digits, optional
white space and one of the unit words. -/
def QuotedQuantity (phrase : List Char) : Prop :=
  (∃ verb d, (SameIgnoringCase verb "necesito ".data ∨ SameIgnoringCase verb "dame ".data) ∧
    isDigit d = true ∧ phrase = verb ++ [d]) ∨
  (∃ ds ws word, ds ≠ [] ∧ (∀ d ∈ ds, isDigit d = true) ∧
    (∀ c ∈ ws, isWhiteSpace c = true) ∧
    (∃ w ∈ unitWords, SameIgnoringCase word w.data) ∧ phrase = ds ++ ws ++ word)

/-- The collaborators of the examples with an embedding provider that delivers
`{ embedding: { values: [] } }`, an embedding whose list of values is empty. -/
def emptyVectorEnv : Env :=
  { exampleEnv with
    embedContent := fun _ => Except.ok { embedding := some { values := some [] } } }

/-- The collaborators of the examples with an embedding provider that fails on the
text "lectores" and answers every other text. -/
def failingEnv : Env :=
  { exampleEnv with
    embedContent := fun text =>
      if text = "lectores" then Except.error "503 Service Unavailable"
      else Except.ok { embedding := some { values := some [1] } } }

/-! ## Vocabulary of the fields of a result -/

/-- The element of the field `products` written for a retrieved product. -/
def summaryOf (p : Product) : ProductSummary :=
  { id := p.id, sku := p.sku, nombre := p.nombre, marca := p.marca, precio := p.precio_lista,
    stock := p.stock_actual, distancia := p.distancia }

/-- An order was built on the way from the state `w` to the state `w'`: after steps
that leave the store alone, `createQuoteOrder` was called for the user, ended in `w'`
and returned an order with the identifier `orderId`. -/
def OrderBuilt (env : Env) (userId : String) (w w' : World) (orderId : Nat) : Prop :=
  ∃ w1 items order, Quiet w w1 ∧
    createQuoteOrder env userId items w1 = (w', Except.ok order) ∧ order.order.id = orderId

/-! ## The similarity query on a table of products -/

/-- Modelled from the spec: a row of the table `productos` (declared outside the
source) with the columns that the statement of `searchProductsBySimilarity` reads:
the columns it selects, the flag `es_activo` and the `embedding`, a vector for every
product. -/
structure Producto where
  id : Nat
  sku : String
  nombre : String
  marca : String
  descripcion : String
  precio_lista : ℚ
  stock_actual : Int
  especificaciones_tecnicas : Option (List (String × SpecValue))
  es_activo : Bool
  embedding : List ℚ
  deriving DecidableEq, Repr

/-- The catalog behind the similarity query: the table `productos` and the operator
`<=>` of the store (the cosine distance between a stored vector and the query
vector), taken as it is. -/
structure Catalog where
  productos : List Producto
  distance : List ℚ → List ℚ → ℚ

/-- The `SELECT` list of the statement: the selected columns of a row and
`(embedding <=> query) AS distancia`. -/
def selectRow (catalog : Catalog) (query : List ℚ) (row : Producto) : Product :=
  { id := row.id, sku := row.sku, nombre := row.nombre, marca := row.marca,
    descripcion := row.descripcion, precio_lista := row.precio_lista,
    stock_actual := row.stock_actual,
    especificaciones_tecnicas := row.especificaciones_tecnicas,
    distancia := catalog.distance row.embedding query }

/-- The condition `WHERE es_activo = true AND stock_actual > 0`. -/
def isRetrievable (row : Producto) : Bool :=
  row.es_activo && decide (row.stock_actual > 0)

/-- The statement of `searchProductsBySimilarity` run on a catalog: the rows that
pass the `WHERE` condition, in the order of `ORDER BY embedding <=> query` (rows at
the same distance stay in the order of the table), cut by `LIMIT`. -/
def similaritySelect (catalog : Catalog) (query : List ℚ) (limit : Nat) : List Product :=
  ((((catalog.productos.filter isRetrievable).map (selectRow catalog query)).insertionSort
    (fun a b => a.distancia ≤ b.distancia)).take limit)

/-- A catalog for the examples: four rows, of which one is inactive and one has no
stock; the distance of a row is the gap between its first coordinate and that of the
query. -/
def exampleCatalog : Catalog :=
  { productos :=
      [ { id := 1, sku := "SUP-BS2-OEPW", nombre := "BioStation 2", marca := "Suprema",
          descripcion := "Terminal", precio_lista := 15500, stock_actual := 45,
          especificaciones_tecnicas := none, es_activo := true, embedding := [9] },
        { id := 2, sku := "HID-1326-LMSMV", nombre := "ProxCard II", marca := "HID Global",
          descripcion := "Tarjeta", precio_lista := 131 / 2, stock_actual := 5000,
          especificaciones_tecnicas := none, es_activo := false, embedding := [1] },
        { id := 3, sku := "FAR-DTC1250E", nombre := "Fargo DTC1250e", marca := "HID Fargo",
          descripcion := "Impresora", precio_lista := 28900, stock_actual := 0,
          especificaciones_tecnicas := none, es_activo := true, embedding := [2] },
        { id := 4, sku := "ZK-TS2000", nombre := "Torniquete TS2000", marca := "ZKTeco",
          descripcion := "Torniquete", precio_lista := 12400, stock_actual := 3,
          especificaciones_tecnicas := none, es_activo := true, embedding := [4] },
        { id := 5, sku := "SIA-CETNET-500", nombre := "CET.NET", marca := "SIASA",
          descripcion := "Software", precio_lista := 8500, stock_actual := 999,
          especificaciones_tecnicas := none, es_activo := true, embedding := [6] } ],
    distance := fun stored query => |stored.headD 0 - query.headD 0| }

/-- The collaborators of the examples with a store that runs the similarity
statement on a catalog. -/
def catalogEnv (catalog : Catalog) : Env :=
  { exampleEnv with
    similarityQuery := fun embedding limit =>
      Except.ok (similaritySelect catalog embedding limit) }

/-! ## Vocabulary of the context text -/

/-- The text `whole` starts with the text `part`. -/
def StartsWith (whole part : String) : Prop :=
  ∃ rest : String, whole = part ++ rest

/-- The text `part` occurs in the text `whole`. -/
def Occurs (part whole : String) : Prop :=
  ∃ pre post : String, whole = pre ++ (part ++ post)

/-- The collaborators of the examples with a catalog that has nothing near the
text "lectores": its embedding is `[0]`, for which the similarity query returns
no row. -/
def selectiveEnv : Env :=
  { exampleEnv with
    embedContent := fun text =>
      if text = "lectores" then Except.ok { embedding := some { values := some [0] } }
      else Except.ok { embedding := some { values := some [1] } },
    similarityQuery := fun embedding limit =>
      if embedding = [0] then Except.ok [] else Except.ok ([proxCard].take limit) }

/-! ## Vocabulary of the messages with two quantity phrases -/

/-- The letters of the class of `quantityPattern`: `a-z` and `áéíóúñ`. -/
def letterClass : List Char := lowerClass ++ "áéíóúñ".data

/-- A single lowercase word: one or more letters of the class of the pattern. -/
def IsWord (w : List Char) : Prop := w ≠ [] ∧ ∀ c ∈ w, c ∈ letterClass

/-- A numeral: one or more decimal digits. -/
def IsNumeral (q : List Char) : Prop := q ≠ [] ∧ ∀ d ∈ q, isDigit d = true

/-- The message `<q1> <w1>, <q2> <w2>`. -/
def twoPhrases (q1 w1 q2 w2 : List Char) : String :=
  String.mk (q1 ++ ' ' :: (w1 ++ ',' :: ' ' :: (q2 ++ ' ' :: w2)))

/-! ## Vocabulary of the hints of the primary pass -/

/-- The upper-case forms of the letters of the class of `quantityPattern`. -/
def upperLetterClass : List Char := "ABCDEFGHIJKLMNOPQRSTUVWXYZÁÉÍÓÚÑ".data

/-- A letter of the class `[a-záéíóúñ]`, in either case. -/
def IsClassLetter (c : Char) : Prop := c ∈ letterClass ∨ c ∈ upperLetterClass

/-- A single word: a text that is not empty, has no white space and is made of
letters of the class only. -/
def SingleWord (w : List Char) : Prop :=
  w ≠ [] ∧ ∀ x ∈ w, isWhiteSpace x = false ∧ IsClassLetter x

/-- What follows a hint in the input: the end of the input, or a white space, a
comma or a full stop. -/
def EndsWord (post : List Char) : Prop :=
  post = [] ∨ ∃ y rest, post = y :: rest ∧ (isWhiteSpace y = true ∨ y = ',' ∨ y = '.')

/-! # Properties -/

/-! ## The matcher agrees with the declarative reading -/

theorem mem_classRuns (cs : List Char) (s t : List Char) :
    t ∈ classRuns cs s ↔ ∃ pre, s = pre ++ t ∧ ∀ c ∈ pre, charMatches cs c = true := by
  induction s with
  | nil =>
      simp only [classRuns, List.mem_singleton]
      constructor
      · rintro rfl
        exact ⟨[], rfl, by simp⟩
      · rintro ⟨pre, h, _⟩
        have := List.append_eq_nil.mp h.symm
        exact this.2
  | cons c s ih =>
      simp only [classRuns, List.mem_cons]
      constructor
      · rintro (rfl | h)
        · exact ⟨[], rfl, by simp⟩
        · by_cases hc : charMatches cs c = true
          · rw [if_pos hc] at h
            obtain ⟨pre, hpre, hall⟩ := (ih).mp h
            refine ⟨c :: pre, by simp [hpre], ?_⟩
            intro x hx
            rcases List.mem_cons.mp hx with rfl | hx
            · exact hc
            · exact hall x hx
          · rw [if_neg hc] at h
            exact absurd h (List.not_mem_nil _)
      · rintro ⟨pre, hpre, hall⟩
        cases pre with
        | nil => left; simpa using hpre.symm
        | cons x pre =>
            right
            simp only [List.cons_append, List.cons.injEq] at hpre
            obtain ⟨rfl, hs⟩ := hpre
            have hc : charMatches cs c = true := hall c (List.mem_cons_self _ _)
            rw [if_pos hc]
            exact ih.mpr ⟨pre, hs, fun x hx => hall x (List.mem_cons_of_mem _ hx)⟩

theorem mem_classRuns1 (cs : List Char) (s t : List Char) :
    t ∈ classRuns1 cs s ↔
      ∃ pre, pre ≠ [] ∧ s = pre ++ t ∧ ∀ c ∈ pre, charMatches cs c = true := by
  cases s with
  | nil =>
      simp only [classRuns1, List.not_mem_nil, false_iff]
      rintro ⟨pre, hne, h, _⟩
      exact hne (List.append_eq_nil.mp h.symm).1
  | cons c s =>
      simp only [classRuns1]
      constructor
      · intro h
        by_cases hc : charMatches cs c = true
        · rw [if_pos hc] at h
          obtain ⟨pre, hpre, hall⟩ := (mem_classRuns cs s t).mp h
          refine ⟨c :: pre, by simp, by simp [hpre], ?_⟩
          intro x hx
          rcases List.mem_cons.mp hx with rfl | hx
          · exact hc
          · exact hall x hx
        · rw [if_neg hc] at h
          exact absurd h (List.not_mem_nil _)
      · rintro ⟨pre, hne, hpre, hall⟩
        cases pre with
        | nil => exact absurd rfl hne
        | cons x pre =>
            simp only [List.cons_append, List.cons.injEq] at hpre
            obtain ⟨rfl, hs⟩ := hpre
            have hc : charMatches cs c = true := hall c (List.mem_cons_self _ _)
            rw [if_pos hc]
            exact (mem_classRuns cs s t).mpr
              ⟨pre, hs, fun x hx => hall x (List.mem_cons_of_mem _ hx)⟩

/-- Soundness of the matcher: every way found is a reading. -/
theorem reads_of_mem_matchAll (r : Regex) :
    ∀ (st st' : MState), st' ∈ matchAll r st → Reads r st.rest st'.rest := by
  induction r with
  | eps =>
      intro st st' h
      simp only [matchAll, List.mem_singleton] at h
      subst h
      simp [Reads]
  | set cs =>
      intro st st' h
      obtain ⟨rest, caps⟩ := st
      cases rest with
      | nil => simp [matchAll] at h
      | cons c s =>
          by_cases hc : charMatches cs c = true
          · simp only [matchAll, if_pos hc, List.mem_singleton] at h
            subst h
            exact ⟨c, rfl, hc⟩
          · simp [matchAll, hc] at h
  | eos =>
      intro st st' h
      obtain ⟨rest, caps⟩ := st
      cases rest with
      | nil =>
          simp only [matchAll, List.mem_singleton] at h
          subst h
          exact ⟨rfl, rfl⟩
      | cons c s => simp [matchAll] at h
  | seq a b iha ihb =>
      intro st st' h
      simp only [matchAll, List.mem_flatMap] at h
      obtain ⟨m, hm, hm'⟩ := h
      exact ⟨m.rest, iha _ _ hm, ihb _ _ hm'⟩
  | alt a b iha ihb =>
      intro st st' h
      simp only [matchAll, List.mem_append] at h
      rcases h with h | h
      · exact Or.inl (iha _ _ h)
      · exact Or.inr (ihb _ _ h)
  | opt a iha =>
      intro st st' h
      simp only [matchAll, List.mem_append, List.mem_singleton] at h
      rcases h with h | h
      · exact Or.inl (iha _ _ h)
      · subst h
        exact Or.inr rfl
  | star cs =>
      intro st st' h
      simp only [matchAll, List.mem_map, List.mem_reverse] at h
      obtain ⟨t, ht, rfl⟩ := h
      exact (mem_classRuns cs _ _).mp ht
  | plus cs =>
      intro st st' h
      simp only [matchAll, List.mem_map, List.mem_reverse] at h
      obtain ⟨t, ht, rfl⟩ := h
      exact (mem_classRuns1 cs _ _).mp ht
  | plusLazy cs =>
      intro st st' h
      simp only [matchAll, List.mem_map] at h
      obtain ⟨t, ht, rfl⟩ := h
      exact (mem_classRuns1 cs _ _).mp ht
  | group i a iha =>
      intro st st' h
      simp only [matchAll, List.mem_map] at h
      obtain ⟨m, hm, heq⟩ := h
      rw [← heq]
      exact iha st m hm

/-- Completeness of the matcher: every reading is among the ways found. -/
theorem mem_matchAll_of_reads (r : Regex) :
    ∀ (st : MState) (s' : List Char), Reads r st.rest s' →
      ∃ st', st' ∈ matchAll r st ∧ st'.rest = s' := by
  induction r with
  | eps =>
      intro st s' h
      simp only [Reads] at h
      subst h
      exact ⟨st, by simp [matchAll], rfl⟩
  | set cs =>
      intro st s' h
      obtain ⟨c, hs, hc⟩ := h
      obtain ⟨rest, caps⟩ := st
      simp only at hs
      subst hs
      exact ⟨{ rest := s', caps := caps }, by simp [matchAll, hc], rfl⟩
  | eos =>
      intro st s' h
      obtain ⟨hs, hs'⟩ := h
      obtain ⟨rest, caps⟩ := st
      simp only at hs
      subst hs
      subst hs'
      exact ⟨{ rest := [], caps := caps }, by simp [matchAll], rfl⟩
  | seq a b iha ihb =>
      intro st s' h
      obtain ⟨m, hm, hm'⟩ := h
      obtain ⟨st1, hst1, rfl⟩ := iha st m hm
      obtain ⟨st2, hst2, rfl⟩ := ihb st1 s' hm'
      exact ⟨st2, by simp only [matchAll, List.mem_flatMap]; exact ⟨st1, hst1, hst2⟩, rfl⟩
  | alt a b iha ihb =>
      intro st s' h
      rcases h with h | h
      · obtain ⟨st1, hst1, rfl⟩ := iha st s' h
        exact ⟨st1, by simp only [matchAll, List.mem_append]; exact Or.inl hst1, rfl⟩
      · obtain ⟨st1, hst1, rfl⟩ := ihb st s' h
        exact ⟨st1, by simp only [matchAll, List.mem_append]; exact Or.inr hst1, rfl⟩
  | opt a iha =>
      intro st s' h
      rcases h with h | h
      · obtain ⟨st1, hst1, rfl⟩ := iha st s' h
        exact ⟨st1, by simp only [matchAll, List.mem_append]; exact Or.inl hst1, rfl⟩
      · subst h
        exact ⟨st, by simp [matchAll], rfl⟩
  | star cs =>
      intro st s' h
      refine ⟨{ st with rest := s' }, ?_, rfl⟩
      simp only [matchAll, List.mem_map, List.mem_reverse]
      exact ⟨s', (mem_classRuns cs _ _).mpr h, rfl⟩
  | plus cs =>
      intro st s' h
      refine ⟨{ st with rest := s' }, ?_, rfl⟩
      simp only [matchAll, List.mem_map, List.mem_reverse]
      exact ⟨s', (mem_classRuns1 cs _ _).mpr h, rfl⟩
  | plusLazy cs =>
      intro st s' h
      refine ⟨{ st with rest := s' }, ?_, rfl⟩
      simp only [matchAll, List.mem_map]
      exact ⟨s', (mem_classRuns1 cs _ _).mpr h, rfl⟩
  | group i a iha =>
      intro st s' h
      obtain ⟨st1, hst1, rfl⟩ := iha st s' h
      refine ⟨{ st1 with caps := (i, consumed st.rest st1.rest) :: st1.caps }, ?_, rfl⟩
      simp only [matchAll, List.mem_map]
      exact ⟨st1, hst1, rfl⟩

theorem matchAt_eq_none_iff (r : Regex) (s : List Char) :
    matchAt r s = none ↔ ∀ s', ¬ Reads r s s' := by
  unfold matchAt
  constructor
  · intro h s' hr
    obtain ⟨st', hst', _⟩ := mem_matchAll_of_reads r { rest := s, caps := [] } s' hr
    cases hm : matchAll r { rest := s, caps := [] } with
    | nil => rw [hm] at hst'; exact absurd hst' (List.not_mem_nil _)
    | cons a l => rw [hm] at h; simp at h
  · intro h
    cases hm : matchAll r { rest := s, caps := [] } with
    | nil => rfl
    | cons a l =>
        exfalso
        have ha : a ∈ matchAll r { rest := s, caps := [] } := by
          rw [hm]; exact List.mem_cons_self _ _
        exact h a.rest (reads_of_mem_matchAll r _ _ ha)

theorem matchAt_some (r : Regex) (s : List Char) (m : RegExpMatch) (h : matchAt r s = some m) :
    Reads r s m.rest ∧ m.text = consumed s m.rest := by
  unfold matchAt at h
  cases hm : matchAll r { rest := s, caps := [] } with
  | nil => rw [hm] at h; simp at h
  | cons a l =>
      rw [hm] at h
      simp only [Option.some.injEq] at h
      subst h
      have ha : a ∈ matchAll r { rest := s, caps := [] } := by
        rw [hm]; exact List.mem_cons_self _ _
      exact ⟨reads_of_mem_matchAll r _ _ ha, rfl⟩

/-- A call of `exec` fails exactly when the expression reads at no position. -/
theorem exec_eq_none_iff (r : Regex) (s : List Char) :
    exec r s = none ↔ ∀ pre t s', s = pre ++ t → ¬ Reads r t s' := by
  induction s with
  | nil =>
      simp only [exec]
      rw [matchAt_eq_none_iff]
      constructor
      · intro h pre t s' hs
        obtain ⟨_, rfl⟩ := List.append_eq_nil.mp hs.symm
        exact h s'
      · intro h s'
        exact h [] [] s' rfl
  | cons c s ih =>
      simp only [exec]
      cases hm : matchAt r (c :: s) with
      | some m =>
          simp only [false_iff, reduceCtorEq]
          intro h
          obtain ⟨hr, _⟩ := matchAt_some r _ m hm
          exact h [] (c :: s) m.rest rfl hr
      | none =>
          simp only
          rw [ih]
          constructor
          · intro h pre t s' hs
            cases pre with
            | nil =>
                simp only [List.nil_append] at hs
                subst hs
                exact (matchAt_eq_none_iff r _).mp hm s'
            | cons x pre =>
                simp only [List.cons_append, List.cons.injEq] at hs
                exact h pre t s' hs.2
          · intro h pre t s' hs
            exact h (c :: pre) t s' (by simp [hs])

/-- A successful call of `exec` returns the match at the leftmost position at
which the expression reads. -/
theorem exec_some (r : Regex) (s : List Char) (m : RegExpMatch) (h : exec r s = some m) :
    ∃ pre t, s = pre ++ t ∧ matchAt r t = some m ∧
      ∀ pre' t' s', s = pre' ++ t' → pre'.length < pre.length → ¬ Reads r t' s' := by
  induction s with
  | nil =>
      simp only [exec] at h
      exact ⟨[], [], rfl, h, fun _ _ _ _ hl => absurd hl (Nat.not_lt_zero _)⟩
  | cons c s ih =>
      simp only [exec] at h
      cases hm : matchAt r (c :: s) with
      | some m' =>
          rw [hm] at h
          simp only [Option.some.injEq] at h
          subst h
          exact ⟨[], c :: s, rfl, hm, fun _ _ _ _ hl => absurd hl (Nat.not_lt_zero _)⟩
      | none =>
          rw [hm] at h
          simp only at h
          obtain ⟨pre, t, hs, hmt, hleft⟩ := ih h
          refine ⟨c :: pre, t, by simp [hs], hmt, ?_⟩
          intro pre' t' s' hs' hl
          cases pre' with
          | nil =>
              simp only [List.nil_append] at hs'
              subst hs'
              exact (matchAt_eq_none_iff r _).mp hm s'
          | cons x pre' =>
              simp only [List.cons_append, List.cons.injEq] at hs'
              simp only [List.length_cons, Nat.add_lt_add_iff_right] at hl
              exact hleft pre' t' s' hs'.2 hl

/-- The method `test` answers whether the pattern matches the message. -/
theorem test_eq_true_iff (r : Regex) (message : String) :
    test r message = true ↔ Matches r message := by
  unfold test Matches
  cases h : exec r message.data with
  | none =>
      simp only [Option.isSome_none, Bool.false_eq_true, false_iff]
      rintro ⟨pre, t, s', hs, hr⟩
      exact (exec_eq_none_iff r _).mp h pre t s' hs hr
  | some m =>
      simp only [Option.isSome_some, true_iff]
      obtain ⟨pre, t, hs, hmt, _⟩ := exec_some r _ m h
      exact ⟨pre, t, m.rest, hs, (matchAt_some r t m hmt).1⟩

theorem any_test_eq_true_iff (ps : List Regex) (message : String) :
    ps.any (fun pattern => test pattern message) = true ↔ ∃ p ∈ ps, Matches p message := by
  simp only [List.any_eq_true, test_eq_true_iff]

/-! ## analyzeIntent -/

/-- C1: a message that matches at least one quote-request pattern and at least one
technical-query pattern is classified `quote_request`, never `technical_query`. -/
theorem analyzeIntent_quote_precedence (message : String)
    (hq : ∃ p ∈ QUOTE_PATTERNS, Matches p message)
    (_ht : ∃ p ∈ TECHNICAL_PATTERNS, Matches p message) :
    (analyzeIntent message).intent = Intent.quote_request ∧
      (analyzeIntent message).intent ≠ Intent.technical_query := by
  have h : QUOTE_PATTERNS.any (fun pattern => test pattern message) = true :=
    (any_test_eq_true_iff _ _).mpr hq
  have hi : (analyzeIntent message).intent = Intent.quote_request := by
    simp only [analyzeIntent, h, if_true]
  rw [hi]
  exact ⟨rfl, by decide⟩

/-- Witness of C1: `precio de` is a quote-request pattern and `capacidad` a
technical-query pattern of the message. -/
theorem analyzeIntent_quote_precedence_witness :
    (∃ p ∈ QUOTE_PATTERNS, Matches p "precio de un lector de alta capacidad") ∧
    (∃ p ∈ TECHNICAL_PATTERNS, Matches p "precio de un lector de alta capacidad") ∧
    (analyzeIntent "precio de un lector de alta capacidad").intent = Intent.quote_request ∧
    (analyzeIntent "precio de un lector de alta capacidad").intent ≠ Intent.technical_query :=
  have hq : ∃ p ∈ QUOTE_PATTERNS, Matches p "precio de un lector de alta capacidad" :=
    (any_test_eq_true_iff _ _).mp (by decide)
  have ht : ∃ p ∈ TECHNICAL_PATTERNS, Matches p "precio de un lector de alta capacidad" :=
    (any_test_eq_true_iff _ _).mp (by decide)
  ⟨hq, ht, analyzeIntent_quote_precedence "precio de un lector de alta capacidad" hq ht⟩

/-- C10: `analyzeIntent` returns `general_query`, with confidence 0.5, exactly when
no pattern of the quote-request, technical-query or product-search families
matches the message. -/
theorem analyzeIntent_general_iff (message : String) :
    (analyzeIntent message = { intent := Intent.general_query, confidence := 1 / 2 } ↔
      ∀ p ∈ QUOTE_PATTERNS ++ TECHNICAL_PATTERNS ++ PRODUCT_SEARCH_PATTERNS,
        ¬ Matches p message) ∧
    ((analyzeIntent message).intent = Intent.general_query ↔
      ∀ p ∈ QUOTE_PATTERNS ++ TECHNICAL_PATTERNS ++ PRODUCT_SEARCH_PATTERNS,
        ¬ Matches p message) := by
  have hnone : (∀ p ∈ QUOTE_PATTERNS ++ TECHNICAL_PATTERNS ++ PRODUCT_SEARCH_PATTERNS,
        ¬ Matches p message) ↔
      (¬ (QUOTE_PATTERNS.any (fun pattern => test pattern message) = true) ∧
       ¬ (TECHNICAL_PATTERNS.any (fun pattern => test pattern message) = true) ∧
       ¬ (PRODUCT_SEARCH_PATTERNS.any (fun pattern => test pattern message) = true)) := by
    rw [any_test_eq_true_iff, any_test_eq_true_iff, any_test_eq_true_iff]
    constructor
    · intro h
      refine ⟨?_, ?_, ?_⟩
      · rintro ⟨p, hp, hm⟩
        exact h p (by simp [hp]) hm
      · rintro ⟨p, hp, hm⟩
        exact h p (by simp [hp]) hm
      · rintro ⟨p, hp, hm⟩
        exact h p (by simp [hp]) hm
    · rintro ⟨h1, h2, h3⟩ p hp hm
      simp only [List.mem_append] at hp
      rcases hp with (hp | hp) | hp
      · exact h1 ⟨p, hp, hm⟩
      · exact h2 ⟨p, hp, hm⟩
      · exact h3 ⟨p, hp, hm⟩
  have half : (5 / 10 : ℚ) = 1 / 2 := by norm_num
  rw [hnone]
  unfold analyzeIntent
  by_cases h1 : QUOTE_PATTERNS.any (fun pattern => test pattern message) = true
  · simp [h1]
  · by_cases h2 : TECHNICAL_PATTERNS.any (fun pattern => test pattern message) = true
    · simp [h1, h2]
    · by_cases h3 : PRODUCT_SEARCH_PATTERNS.any (fun pattern => test pattern message) = true
      · simp [h1, h2, h3]
      · simp [h1, h2, h3, half]

/-! ## Records of calls -/

theorem createQuoteOrderCalls_append (xs ys : List Call) :
    createQuoteOrderCalls (xs ++ ys) = createQuoteOrderCalls xs ++ createQuoteOrderCalls ys := by
  simp [createQuoteOrderCalls, List.filterMap_append]

theorem quiet_refl (w : World) : Quiet w w := ⟨rfl, rfl⟩

theorem quiet_trans {w1 w2 w3 : World} (h12 : Quiet w1 w2) (h23 : Quiet w2 w3) : Quiet w1 w3 :=
  ⟨h23.1.trans h12.1, h23.2.trans h12.2⟩

theorem quiet_record (w : World) (c : Call)
    (hc : ∀ userId items, c ≠ Call.createQuoteOrder userId items) : Quiet w (w.record c) := by
  refine ⟨rfl, ?_⟩
  simp only [World.record, createQuoteOrderCalls_append]
  cases c with
  | createQuoteOrder userId items => exact absurd rfl (hc userId items)
  | embedContent text => simp [createQuoteOrderCalls]
  | generateContent prompt => simp [createQuoteOrderCalls]
  | similarityQuery embedding limit => simp [createQuoteOrderCalls]

theorem generateEmbedding_world (env : Env) (text : String) (w : World) :
    (generateEmbedding env text w).1 = w.record (Call.embedContent text) := by
  unfold generateEmbedding
  cases env.embedContent text with
  | error msg => rfl
  | ok result =>
      obtain ⟨embedding⟩ := result
      cases embedding with
      | none => rfl
      | some embedding =>
          obtain ⟨values⟩ := embedding
          cases values with
          | none => rfl
          | some values => rfl

theorem generateEmbedding_quiet (env : Env) (text : String) (w : World) :
    Quiet w (generateEmbedding env text w).1 := by
  rw [generateEmbedding_world]
  exact quiet_record w _ (by intro _ _ h; cases h)

theorem searchProductsBySimilarity_world (env : Env) (embedding : List ℚ) (limit : Nat)
    (w : World) :
    (searchProductsBySimilarity env embedding limit w).1 =
      w.record (Call.similarityQuery embedding limit) := by
  unfold searchProductsBySimilarity
  cases env.similarityQuery embedding limit with
  | error msg => rfl
  | ok result => rfl

theorem searchProductsBySimilarity_quiet (env : Env) (embedding : List ℚ) (limit : Nat)
    (w : World) : Quiet w (searchProductsBySimilarity env embedding limit w).1 := by
  rw [searchProductsBySimilarity_world]
  exact quiet_record w _ (by intro _ _ h; cases h)

theorem generateResponse_quiet (env : Env) (systemPrompt context userMessage : String)
    (w : World) : Quiet w (generateResponse env systemPrompt context userMessage w).1 := by
  unfold generateResponse
  simp only
  split
  · exact quiet_record w _ (by intro _ _ h; cases h)
  · split
    · exact quiet_record w _ (by intro _ _ h; cases h)
    · exact quiet_record w _ (by intro _ _ h; cases h)

/-- The retrieval path writes nothing to the store, never calls `createQuoteOrder`
and never returns a quote. -/
theorem handleRAGQuery_no_quote (env : Env) (userId message : String) (w : World) :
    Quiet w (handleRAGQuery env userId message w).1 ∧
    ∀ result, (handleRAGQuery env userId message w).2 = Except.ok result →
      result.quote = none := by
  unfold handleRAGQuery
  have q1 := generateEmbedding_quiet env message w
  split
  · next w1 msg heq =>
      rw [heq] at q1
      exact ⟨q1, by intro r h; cases h⟩
  · next w1 queryEmbedding heq =>
      rw [heq] at q1
      have q2 := searchProductsBySimilarity_quiet env queryEmbedding env.maxResults w1
      split
      · next w2 msg heq2 =>
          rw [heq2] at q2
          exact ⟨quiet_trans q1 q2, by intro r h; cases h⟩
      · next w2 similarProducts heq2 =>
          rw [heq2] at q2
          have q3 := generateResponse_quiet env SYSTEM_PROMPT
            (buildContext env similarProducts) message w2
          simp only
          split
          · next w3 msg heq3 =>
              rw [heq3] at q3
              exact ⟨quiet_trans q1 (quiet_trans q2 q3), by intro r h; cases h⟩
          · next w3 response heq3 =>
              rw [heq3] at q3
              refine ⟨quiet_trans q1 (quiet_trans q2 q3), ?_⟩
              intro r h
              simp only [Except.ok.injEq] at h
              rw [← h]

/-! ## The end-to-end example -/

/-- C7: on `10 tarjetas HID, 5 lectores biométricos` the extraction returns two
candidates whose hints are `tarjetas` and `lectores`, one word each, not
`tarjetas HID` and `lectores biométricos`. -/
theorem extractQuoteInfo_two_items :
    extractQuoteInfo "10 tarjetas HID, 5 lectores biométricos" =
      [{ productHint := "tarjetas", quantity := Quantity.fin 10 },
       { productHint := "lectores", quantity := Quantity.fin 5 }] := by
  decide

/-- C2: `Cotízame 10 tarjetas HID ProxCard II` does not take the quote path.  It
matches no quote-request pattern, since the `i` of `cotiza` does not match `í`; the
message is classified `product_search` and `processMessage` answers it through
`handleRAGQuery`: whatever the providers and the store do, no quote is returned,
`createQuoteOrder` is not called and the store is not written.  Against a provider
that succeeds and a catalog that returns the product `HID-1326-LMSMV` the result
carries the generated text and that product, and no quote. -/
theorem processMessage_cotizame (env : Env) (userId : String) (w : World) :
    (∀ p ∈ QUOTE_PATTERNS, ¬ Matches p "Cotízame 10 tarjetas HID ProxCard II") ∧
    (analyzeIntent "Cotízame 10 tarjetas HID ProxCard II").intent = Intent.product_search ∧
    processMessage env userId "Cotízame 10 tarjetas HID ProxCard II" w =
      handleRAGQuery env userId "Cotízame 10 tarjetas HID ProxCard II" w ∧
    (∀ result,
      (processMessage env userId "Cotízame 10 tarjetas HID ProxCard II" w).2 = Except.ok result →
        result.quote = none) ∧
    createQuoteOrderCalls
        (processMessage env userId "Cotízame 10 tarjetas HID ProxCard II" w).1.calls =
      createQuoteOrderCalls w.calls ∧
    (processMessage env userId "Cotízame 10 tarjetas HID ProxCard II" w).1.db = w.db ∧
    (∃ result,
      (processMessage exampleEnv "u1" "Cotízame 10 tarjetas HID ProxCard II" emptyWorld).2 =
        Except.ok result ∧
      result.response = "respuesta" ∧
      result.products = some [{ id := 1, sku := "HID-1326-LMSMV", nombre := "HID ProxCard II",
                                marca := "HID", precio := 131 / 2, stock := 5000,
                                distancia := 1 / 10 }] ∧
      result.quote = none ∧
      (processMessage exampleEnv "u1" "Cotízame 10 tarjetas HID ProxCard II" emptyWorld).1.db =
        emptyWorld.db) := by
  have hq : QUOTE_PATTERNS.any
      (fun pattern => test pattern "Cotízame 10 tarjetas HID ProxCard II") = false := by
    decide
  have hi : (analyzeIntent "Cotízame 10 tarjetas HID ProxCard II").intent =
      Intent.product_search := by decide
  have hp : processMessage env userId "Cotízame 10 tarjetas HID ProxCard II" w =
      handleRAGQuery env userId "Cotízame 10 tarjetas HID ProxCard II" w := by
    simp only [processMessage, hi]
    rfl
  obtain ⟨⟨hdb, hcalls⟩, hquote⟩ :=
    handleRAGQuery_no_quote env userId "Cotízame 10 tarjetas HID ProxCard II" w
  refine ⟨?_, hi, hp, ?_, ?_, ?_, ?_⟩
  · intro p hp' hm
    have := (any_test_eq_true_iff QUOTE_PATTERNS _).mpr ⟨p, hp', hm⟩
    rw [hq] at this
    exact absurd this (by decide)
  · rw [hp]; exact hquote
  · rw [hp]; exact hcalls
  · rw [hp]; exact hdb
  · have hp0 : processMessage exampleEnv "u1" "Cotízame 10 tarjetas HID ProxCard II" emptyWorld =
        handleRAGQuery exampleEnv "u1" "Cotízame 10 tarjetas HID ProxCard II" emptyWorld := by
      simp only [processMessage, hi]
      rfl
    rw [hp0]
    exact ⟨_, rfl, rfl, rfl, rfl, rfl⟩

/-! ## Resolution of the candidates -/

theorem generateEmbedding_snd (env : Env) (text : String) (w w' : World) :
    (generateEmbedding env text w).2 = (generateEmbedding env text w').2 := by
  unfold generateEmbedding
  cases env.embedContent text with
  | error msg => rfl
  | ok result =>
      obtain ⟨embedding⟩ := result
      cases embedding with
      | none => rfl
      | some embedding =>
          obtain ⟨values⟩ := embedding
          cases values with
          | none => rfl
          | some values => rfl

theorem searchProductsBySimilarity_snd (env : Env) (embedding : List ℚ) (limit : Nat)
    (w w' : World) :
    (searchProductsBySimilarity env embedding limit w).2 =
      (searchProductsBySimilarity env embedding limit w').2 := by
  unfold searchProductsBySimilarity
  cases env.similarityQuery embedding limit with
  | error msg => rfl
  | ok result => rfl

/-- A candidate contributes a line exactly when the top-1 search returned a
product whose stock covers the requested quantity. -/
theorem candidateLine_isSome_iff (env : Env) (c : QuoteLineCandidate) :
    (candidateLine env c).isSome = true ↔
      ∃ product, searchTop1 env c.productHint = Except.ok (some product) ∧
        stockCovers product.stock_actual c.quantity := by
  unfold candidateLine
  rcases hs : searchTop1 env c.productHint with msg | (_ | product)
  · simp
  · simp
  · cases hq : c.quantity with
    | infinity => simp [stockCovers]
    | fin n =>
        by_cases hn : (n : Int) ≤ product.stock_actual
        · simp [stockCovers, hn]
        · simp [stockCovers, hn]

/-- The loop of `handleQuoteRequest`: it is quiet; when it ends without error its
`quoteItems` are the lines of the candidates, in their order, and every search
succeeded; when every search succeeds it ends without error. -/
theorem resolveItems_spec (env : Env) :
    ∀ (items : List QuoteLineCandidate) (quoteItems : List QuoteItem) (responseText : String)
      (w : World),
      Quiet w (resolveItems env items quoteItems responseText w).1 ∧
      (∀ out text, (resolveItems env items quoteItems responseText w).2 = Except.ok (out, text) →
        out = quoteItems ++ items.filterMap (candidateLine env) ∧
        ∀ c ∈ items, ∃ r, searchTop1 env c.productHint = Except.ok r) ∧
      ((∀ c ∈ items, ∃ r, searchTop1 env c.productHint = Except.ok r) →
        ∃ text, (resolveItems env items quoteItems responseText w).2 =
          Except.ok (quoteItems ++ items.filterMap (candidateLine env), text)) := by
  intro items
  induction items with
  | nil =>
      intro quoteItems responseText w
      simp only [resolveItems, List.filterMap_nil, List.append_nil]
      refine ⟨quiet_refl w, ?_, ?_⟩
      · intro out text h
        simp only [Except.ok.injEq, Prod.mk.injEq] at h
        exact ⟨h.1.symm, by simp⟩
      · intro _
        exact ⟨responseText, rfl⟩
  | cons item rest ih =>
      intro quoteItems responseText w
      have q1 := generateEmbedding_quiet env item.productHint w
      have e1 := generateEmbedding_snd env item.productHint w emptyWorld
      rcases hg : generateEmbedding env item.productHint w with ⟨w1, msg | embedding⟩
      · -- the embedding call fails
        rw [hg] at q1 e1
        simp only at q1 e1
        have ht : searchTop1 env item.productHint = Except.error msg := by
          simp only [searchTop1, ← e1]
        simp only [resolveItems, hg]
        refine ⟨q1, ?_, ?_⟩
        · intro out text h
          cases h
        · intro hall
          obtain ⟨r, hr⟩ := hall item (List.mem_cons_self _ _)
          rw [ht] at hr
          cases hr
      · rw [hg] at q1 e1
        simp only at q1 e1
        have q2 := searchProductsBySimilarity_quiet env embedding 1 w1
        have e2 := searchProductsBySimilarity_snd env embedding 1 w1 emptyWorld
        rcases hs : searchProductsBySimilarity env embedding 1 w1 with ⟨w2, msg | products⟩
        · -- the search fails
          rw [hs] at q2 e2
          simp only at q2 e2
          have ht : searchTop1 env item.productHint = Except.error msg := by
            simp only [searchTop1, ← e1, ← e2]
          simp only [resolveItems, hg, hs]
          refine ⟨quiet_trans q1 q2, ?_, ?_⟩
          · intro out text h
            cases h
          · intro hall
            obtain ⟨r, hr⟩ := hall item (List.mem_cons_self _ _)
            rw [ht] at hr
            cases hr
        · rw [hs] at q2 e2
          simp only at q2 e2
          have ht : searchTop1 env item.productHint = Except.ok products.head? := by
            simp only [searchTop1, ← e1, ← e2]
          have q12 := quiet_trans q1 q2
          have hmem : ∀ (P : QuoteLineCandidate → Prop), P item → (∀ c ∈ rest, P c) →
              ∀ c ∈ item :: rest, P c := by
            intro P h0 h1 c hc
            rcases List.mem_cons.mp hc with rfl | hc
            · exact h0
            · exact h1 c hc
          cases products with
          | nil =>
              have hline : candidateLine env item = none := by
                simp [candidateLine, ht]
              simp only [resolveItems, hg, hs, List.filterMap_cons, hline]
              obtain ⟨hq, hok, hex⟩ := ih quoteItems
                (responseText ++ "❌ No encontré productos que coincidan con: \"" ++
                  item.productHint ++ "\"\n\n") w2
              refine ⟨quiet_trans q12 hq, ?_, ?_⟩
              · intro out text h
                obtain ⟨h1, h2⟩ := hok out text h
                exact ⟨h1, hmem _ ⟨_, ht⟩ h2⟩
              · intro hall
                exact hex (fun c hc => hall c (List.mem_cons_of_mem _ hc))
          | cons product more =>
              simp only [List.head?_cons] at ht
              cases hqty : item.quantity with
              | infinity =>
                  have hline : candidateLine env item = none := by
                    simp [candidateLine, ht, hqty]
                  simp only [resolveItems, hg, hs, hqty, List.filterMap_cons, hline]
                  obtain ⟨hq, hok, hex⟩ := ih quoteItems
                    (responseText ++ insufficientText env product Quantity.infinity) w2
                  refine ⟨quiet_trans q12 hq, ?_, ?_⟩
                  · intro out text h
                    obtain ⟨h1, h2⟩ := hok out text h
                    exact ⟨h1, hmem _ ⟨_, ht⟩ h2⟩
                  · intro hall
                    exact hex (fun c hc => hall c (List.mem_cons_of_mem _ hc))
              | fin n =>
                  by_cases hlt : product.stock_actual < (n : Int)
                  · have hline : candidateLine env item = none := by
                      simp [candidateLine, ht, hqty, not_le.mpr hlt]
                    simp only [resolveItems, hg, hs, hqty, hlt, if_true, List.filterMap_cons,
                      hline]
                    obtain ⟨hq, hok, hex⟩ := ih quoteItems
                      (responseText ++ insufficientText env product (Quantity.fin n)) w2
                    refine ⟨quiet_trans q12 hq, ?_, ?_⟩
                    · intro out text h
                      obtain ⟨h1, h2⟩ := hok out text h
                      exact ⟨h1, hmem _ ⟨_, ht⟩ h2⟩
                    · intro hall
                      exact hex (fun c hc => hall c (List.mem_cons_of_mem _ hc))
                  · have hline : candidateLine env item =
                        some { productId := product.id, quantity := n,
                               unitPrice := product.precio_lista, product := product } := by
                      simp [candidateLine, ht, hqty, not_lt.mp hlt]
                    simp only [resolveItems, hg, hs, hqty, hlt, if_false, List.filterMap_cons,
                      hline]
                    obtain ⟨hq, hok, hex⟩ := ih
                      (quoteItems ++ [{ productId := product.id, quantity := n,
                                        unitPrice := product.precio_lista, product := product }])
                      (responseText ++ lineText env product n) w2
                    refine ⟨quiet_trans q12 hq, ?_, ?_⟩
                    · intro out text h
                      obtain ⟨h1, h2⟩ := hok out text h
                      refine ⟨?_, hmem _ ⟨_, ht⟩ h2⟩
                      rw [h1]
                      simp
                    · intro hall
                      obtain ⟨text, htext⟩ :=
                        hex (fun c hc => hall c (List.mem_cons_of_mem _ hc))
                      refine ⟨text, ?_⟩
                      rw [htext]
                      simp

/-! ## createQuoteOrder -/

/-- The loop over the detail rows: it never touches `ordenes`; when it succeeds
all rows were added; when it fails at row `k` the rows before it were added and
stay. -/
theorem insertDetalles_spec (env : Env) (ordenId : Nat) :
    ∀ (items : List OrderItem) (db : Db),
      (insertDetalles env ordenId items db).1.ordenes = db.ordenes ∧
      ((insertDetalles env ordenId items db).2 = Except.ok () →
        (insertDetalles env ordenId items db).1.detalles_orden =
          db.detalles_orden ++ items.map (detalleOf ordenId)) ∧
      (∀ msg, (insertDetalles env ordenId items db).2 = Except.error msg →
        ∃ k, k < items.length ∧
          (insertDetalles env ordenId items db).1.detalles_orden =
            db.detalles_orden ++ (items.take k).map (detalleOf ordenId)) := by
  intro items
  induction items with
  | nil =>
      intro db
      simp only [insertDetalles, List.map_nil, List.append_nil, true_and]
      refine ⟨fun _ => trivial, ?_⟩
      intro msg h
      cases h
  | cons item rest ih =>
      intro db
      cases hf : env.sqlFailure db (Statement.insertDetalle (detalleOf ordenId item)) with
      | some msg =>
          have key : insertDetalles env ordenId (item :: rest) db = (db, Except.error msg) := by
            simp only [insertDetalles, hf]
          rw [key]
          refine ⟨rfl, ?_, ?_⟩
          · intro h
            cases h
          · intro msg' _
            exact ⟨0, by simp, by simp⟩
      | none =>
          simp only [insertDetalles, hf]
          obtain ⟨h1, h2, h3⟩ := ih
            { db with detalles_orden := db.detalles_orden ++ [detalleOf ordenId item] }
          refine ⟨h1, ?_, ?_⟩
          · intro h
            rw [h2 h]
            simp
          · intro msg h
            obtain ⟨k, hk, hrows⟩ := h3 msg h
            refine ⟨k + 1, by simp [hk], ?_⟩
            rw [hrows]
            simp

theorem createQuoteOrder_calls (env : Env) (userId : String) (items : List OrderItem)
    (w : World) :
    (createQuoteOrder env userId items w).1.calls =
      w.calls ++ [Call.createQuoteOrder userId items] := by
  unfold createQuoteOrder
  simp only [World.record]
  split
  · rfl
  · split <;> rfl

/-- A successful `createQuoteOrder` returns the header row it wrote, and the store
then holds that header and one detail row per item. -/
theorem createQuoteOrder_ok (env : Env) (userId : String) (items : List OrderItem)
    (w : World) (order : CreatedOrder)
    (h : (createQuoteOrder env userId items w).2 = Except.ok order) :
    order.order = headerOf env w.db userId items ∧ order.items = items ∧
    (createQuoteOrder env userId items w).1.db =
      { ordenes := w.db.ordenes ++ [headerOf env w.db userId items],
        detalles_orden := w.db.detalles_orden ++
          items.map (detalleOf (env.freshOrderId w.db)) } := by
  unfold createQuoteOrder at h ⊢
  simp only [World.record] at h ⊢
  cases hf : env.sqlFailure w.db (Statement.insertOrden userId (sumItems env items)) with
  | some msg =>
      rw [hf] at h
      cases h
  | none =>
      rw [hf] at h
      simp only at h ⊢
      obtain ⟨h1, h2, _⟩ := insertDetalles_spec env (env.freshOrderId w.db) items
        { ordenes := w.db.ordenes ++
            [{ id := env.freshOrderId w.db, usuario_id := userId,
               monto_total := sumItems env items, estado := "cotizacion" }],
          detalles_orden := w.db.detalles_orden }
      rcases hd : insertDetalles env (env.freshOrderId w.db) items
        { ordenes := w.db.ordenes ++
            [{ id := env.freshOrderId w.db, usuario_id := userId,
               monto_total := sumItems env items, estado := "cotizacion" }],
          detalles_orden := w.db.detalles_orden } with ⟨db2, msg | u⟩
      · rw [hd] at h
        cases h
      · rw [hd] at h h1 h2
        simp only [Except.ok.injEq] at h
        simp only at h1 h2
        subst h
        refine ⟨rfl, rfl, ?_⟩
        have h2' := h2 trivial
        obtain ⟨o, d⟩ := db2
        simp only at h1 h2'
        subst h1
        subst h2'
        rfl

/-- A `createQuoteOrder` that fails after its header statement was accepted leaves
the header row in the store, with the detail rows written before the failure. -/
theorem createQuoteOrder_error (env : Env) (userId : String) (items : List OrderItem)
    (w : World) (msg : String)
    (hh : env.sqlFailure w.db (Statement.insertOrden userId (sumItems env items)) = none)
    (h : (createQuoteOrder env userId items w).2 = Except.error msg) :
    ∃ k, k < items.length ∧
      (createQuoteOrder env userId items w).1.db =
        { ordenes := w.db.ordenes ++ [headerOf env w.db userId items],
          detalles_orden := w.db.detalles_orden ++
            (items.take k).map (detalleOf (env.freshOrderId w.db)) } := by
  unfold createQuoteOrder at h ⊢
  simp only [World.record, hh] at h ⊢
  obtain ⟨h1, _, h3⟩ := insertDetalles_spec env (env.freshOrderId w.db) items
    { ordenes := w.db.ordenes ++
        [{ id := env.freshOrderId w.db, usuario_id := userId,
           monto_total := sumItems env items, estado := "cotizacion" }],
      detalles_orden := w.db.detalles_orden }
  rcases hd : insertDetalles env (env.freshOrderId w.db) items
    { ordenes := w.db.ordenes ++
        [{ id := env.freshOrderId w.db, usuario_id := userId,
           monto_total := sumItems env items, estado := "cotizacion" }],
      detalles_orden := w.db.detalles_orden } with ⟨db2, msg' | u⟩
  · rw [hd] at h h1 h3
    simp only at h h1 h3
    obtain ⟨k, hk, hrows⟩ := h3 msg' rfl
    refine ⟨k, hk, ?_⟩
    obtain ⟨o, d⟩ := db2
    simp only at h1 hrows
    subst h1
    subst hrows
    rfl
  · rw [hd] at h
    cases h

/-! ## handleQuoteRequest -/

/-- The three outcomes of `handleQuoteRequest`: a search fails and the request
fails quietly; every search succeeds and no candidate gives a line, and the result
is a text alone; every search succeeds and there are lines, and `createQuoteOrder`
is called with them after a quiet run. -/
theorem handleQuoteRequest_spec (env : Env) (userId message : String) (w : World) :
    (¬ AllSearched env message →
      Quiet w (handleQuoteRequest env userId message w).1 ∧
      ∃ msg, (handleQuoteRequest env userId message w).2 = Except.error msg) ∧
    (AllSearched env message → resolvedLines env message = [] →
      Quiet w (handleQuoteRequest env userId message w).1 ∧
      ∃ response, (handleQuoteRequest env userId message w).2 =
        Except.ok { response := response, products := none, quote := none }) ∧
    (AllSearched env message → resolvedLines env message ≠ [] →
      ∃ w1, Quiet w w1 ∧
        (handleQuoteRequest env userId message w).1 =
          (createQuoteOrder env userId ((resolvedLines env message).map orderItemOf) w1).1 ∧
        (∀ msg, (createQuoteOrder env userId
            ((resolvedLines env message).map orderItemOf) w1).2 = Except.error msg →
          (handleQuoteRequest env userId message w).2 = Except.error msg) ∧
        (∀ order, (createQuoteOrder env userId
            ((resolvedLines env message).map orderItemOf) w1).2 = Except.ok order →
          ∃ response, (handleQuoteRequest env userId message w).2 =
            Except.ok { response := response, products := none,
                        quote := some { orderId := order.order.id,
                                        items := (resolvedLines env message).map (quoteLineOf env),
                                        total := linesAmount env (resolvedLines env message) } })) := by
  by_cases hlen : (extractQuoteInfo message).length = 0
  · -- nothing was extracted
    have hnil : extractQuoteInfo message = [] := List.length_eq_zero.mp hlen
    have hall : AllSearched env message := by
      intro c hc
      rw [hnil] at hc
      exact absurd hc (List.not_mem_nil _)
    have hlines : resolvedLines env message = [] := by
      simp [resolvedLines, hnil]
    simp only [handleQuoteRequest, hlen, if_true]
    refine ⟨fun h => absurd hall h, fun _ _ => ⟨quiet_refl w, _, rfl⟩, fun _ h => absurd hlines h⟩
  · obtain ⟨hq, hok, hex⟩ := resolveItems_spec env (extractQuoteInfo message) []
      "📋 **COTIZACIÓN**\n\n" w
    rcases hr : resolveItems env (extractQuoteInfo message) [] "📋 **COTIZACIÓN**\n\n" w with
      ⟨w1, msg | ⟨quoteItems, responseText⟩⟩
    · -- a search failed
      rw [hr] at hq hex
      simp only at hq hex
      have hnot : ¬ AllSearched env message := by
        intro hall
        obtain ⟨text, htext⟩ := hex hall
        cases htext
      simp only [handleQuoteRequest, hlen, if_false, hr]
      exact ⟨fun _ => ⟨hq, msg, rfl⟩, fun h => absurd h hnot, fun h => absurd h hnot⟩
    · rw [hr] at hq hok
      simp only at hq hok
      obtain ⟨hitems, hall⟩ := hok quoteItems responseText rfl
      simp only [List.nil_append] at hitems
      have hitems' : quoteItems = resolvedLines env message := hitems
      clear hitems hok hex
      subst hitems'
      by_cases hpos : (resolvedLines env message).length > 0
      · have hne : resolvedLines env message ≠ [] := by
          intro h0
          rw [h0] at hpos
          exact absurd hpos (by simp)
        simp only [handleQuoteRequest, hlen, if_false, hr, hpos, if_true]
        refine ⟨fun h => absurd hall h, fun _ h => absurd h hne, fun _ _ => ?_⟩
        refine ⟨w1, hq, ?_⟩
        have hmap : (resolvedLines env message).map (fun item =>
            ({ productId := item.productId, quantity := item.quantity,
               unitPrice := item.unitPrice } : OrderItem)) =
            (resolvedLines env message).map orderItemOf := rfl
        rw [hmap]
        rcases hc : createQuoteOrder env userId
            ((resolvedLines env message).map orderItemOf) w1 with ⟨w2, msg | order⟩
        · refine ⟨rfl, fun msg' h => ?_, fun order h => ?_⟩
          · simp only [Except.error.injEq] at h
            rw [h]
          · cases h
        · refine ⟨rfl, fun msg' h => ?_, fun order' h => ?_⟩
          · cases h
          · simp only [Except.ok.injEq] at h
            subst h
            refine ⟨responseText ++ "**TOTAL: $" ++
              env.toFixed2 (linesAmount env (resolvedLines env message)) ++ "**\n\n" ++
              "Cotización guardada con ID: " ++ toString order.order.id ++ "\n" ++
              "Para proceder con el pedido, contacta a tu ejecutivo de cuenta.", ?_⟩
            rfl
      · have hnil : resolvedLines env message = [] :=
          List.length_eq_zero.mp (Nat.eq_zero_of_not_pos hpos)
        simp only [handleQuoteRequest, hlen, if_false, hr, hpos]
        exact ⟨fun h => absurd hall h, fun _ _ => ⟨hq, _, rfl⟩, fun _ h => absurd hnil h⟩

/-- The lines of the quote of a successful `handleQuoteRequest` are those of the
candidates, and its total is their amount. -/
theorem handleQuoteRequest_ok (env : Env) (userId message : String) (w : World)
    (result : ChatResult)
    (h : (handleQuoteRequest env userId message w).2 = Except.ok result) :
    quoteLines result = (resolvedLines env message).map (quoteLineOf env) ∧
    (∀ q, result.quote = some q → q.total = linesAmount env (resolvedLines env message)) := by
  obtain ⟨h1, h2, h3⟩ := handleQuoteRequest_spec env userId message w
  by_cases hall : AllSearched env message
  · by_cases hl : resolvedLines env message = []
    · obtain ⟨_, response, hres⟩ := h2 hall hl
      rw [hres] at h
      simp only [Except.ok.injEq] at h
      subst h
      refine ⟨by simp [quoteLines, hl], ?_⟩
      intro q hq
      cases hq
    · obtain ⟨w1, _, _, herr, hok⟩ := h3 hall hl
      rcases hc : (createQuoteOrder env userId
          ((resolvedLines env message).map orderItemOf) w1).2 with msg | order
      · rw [herr msg hc] at h
        cases h
      · obtain ⟨response, hres⟩ := hok order hc
        rw [hres] at h
        simp only [Except.ok.injEq] at h
        subst h
        refine ⟨rfl, ?_⟩
        intro q hq
        simp only [Option.some.injEq] at hq
        subst hq
        rfl
  · obtain ⟨_, msg, hres⟩ := h1 hall
    rw [hres] at h
    cases h

/-- C3: in `handleQuoteRequest`, for every list of candidates and whatever the
store answers, a candidate contributes a line exactly when the top-1 search for its
hint returned a product whose stock is at least the requested quantity: the loop
ends with the lines of the candidates, in their order, and these are the lines and
the total of the quote; a candidate that asks for more than the stock gives no
line, one that asks for exactly the stock gives its line. -/
theorem handleQuoteRequest_lines (env : Env) :
    (∀ c, (candidateLine env c).isSome = true ↔
      ∃ product, searchTop1 env c.productHint = Except.ok (some product) ∧
        stockCovers product.stock_actual c.quantity) ∧
    (∀ items quoteItems responseText w out text,
      (resolveItems env items quoteItems responseText w).2 = Except.ok (out, text) →
        out = quoteItems ++ items.filterMap (candidateLine env)) ∧
    (∀ userId message w result,
      (handleQuoteRequest env userId message w).2 = Except.ok result →
        quoteLines result =
          ((extractQuoteInfo message).filterMap (candidateLine env)).map (quoteLineOf env) ∧
        (∀ q, result.quote = some q →
          q.total = linesAmount env ((extractQuoteInfo message).filterMap (candidateLine env)))) ∧
    (∀ c product n, searchTop1 env c.productHint = Except.ok (some product) →
      c.quantity = Quantity.fin n → product.stock_actual < (n : Int) →
        candidateLine env c = none) ∧
    (∀ c product n, searchTop1 env c.productHint = Except.ok (some product) →
      c.quantity = Quantity.fin n → product.stock_actual = (n : Int) →
        candidateLine env c = some { productId := product.id, quantity := n,
                                     unitPrice := product.precio_lista, product := product }) := by
  refine ⟨candidateLine_isSome_iff env, ?_, ?_, ?_, ?_⟩
  · intro items quoteItems responseText w out text h
    exact ((resolveItems_spec env items quoteItems responseText w).2.1 out text h).1
  · intro userId message w result h
    exact handleQuoteRequest_ok env userId message w result h
  · intro c product n hs hq hlt
    simp [candidateLine, hs, hq, not_le.mpr hlt]
  · intro c product n hs hq heq
    simp [candidateLine, hs, hq, heq]

/-- Witness of C3: three candidates against a catalog whose product has 5000 units
in stock; the ones asking for 10 and for exactly 5000 give a line, the one asking
for 5001 gives none. -/
theorem handleQuoteRequest_lines_witness :
    ∃ result,
      (handleQuoteRequest exampleEnv "u1" "cotiza 10 tarjetas, 5000 lectores, 5001 credenciales"
        emptyWorld).2 = Except.ok result ∧
      quoteLines result =
        ((extractQuoteInfo "cotiza 10 tarjetas, 5000 lectores, 5001 credenciales").filterMap
          (candidateLine exampleEnv)).map (quoteLineOf exampleEnv) ∧
      (extractQuoteInfo "cotiza 10 tarjetas, 5000 lectores, 5001 credenciales").filterMap
          (candidateLine exampleEnv) =
        [{ productId := 1, quantity := 10, unitPrice := 131 / 2, product := proxCard },
         { productId := 1, quantity := 5000, unitPrice := 131 / 2, product := proxCard }] :=
  ⟨_, rfl, ((handleQuoteRequest_lines exampleEnv).2.2.1 "u1"
    "cotiza 10 tarjetas, 5000 lectores, 5001 credenciales" emptyWorld _ rfl).1, rfl⟩

/-- C4: when a quote request builds an order, the total of the returned quote and
the `monto_total` of the header row written by `createQuoteOrder` are the same
Number.  That Number is the sum of quantity times unit price over the detail rows
written and over the lines of `quote.items`, and the sum of the `subtotal` fields of
`quote.items`, each subtotal being quantity times unit price.  Every sum is the one
the source computes: the products are added from 0, in the order of the lines, with
the operations of Numbers, so the equalities hold whatever those operations round. -/
theorem handleQuoteRequest_total (env : Env) (userId message : String) (w : World)
    (result : ChatResult) (q : Quote)
    (h : (handleQuoteRequest env userId message w).2 = Except.ok result)
    (hq : result.quote = some q) :
    ∃ orden rows,
      (handleQuoteRequest env userId message w).1.db =
        { ordenes := w.db.ordenes ++ [orden],
          detalles_orden := w.db.detalles_orden ++ rows } ∧
      orden.id = q.orderId ∧
      orden.monto_total = q.total ∧
      rows = (resolvedLines env message).map (fun item => detalleOf q.orderId (orderItemOf item)) ∧
      q.items = (resolvedLines env message).map (quoteLineOf env) ∧
      orden.monto_total =
        rows.foldl (fun sum row => env.add sum (env.mul (row.cantidad : ℚ) row.precio_unitario))
          0 ∧
      q.total =
        rows.foldl (fun sum row => env.add sum (env.mul (row.cantidad : ℚ) row.precio_unitario))
          0 ∧
      q.total =
        q.items.foldl
          (fun sum line => env.add sum (env.mul (line.cantidad : ℚ) line.precioUnitario)) 0 ∧
      q.total = q.items.foldl (fun sum line => env.add sum line.subtotal) 0 ∧
      (∀ line ∈ q.items, line.subtotal = env.mul (line.cantidad : ℚ) line.precioUnitario) := by
  obtain ⟨h1, h2, h3⟩ := handleQuoteRequest_spec env userId message w
  by_cases hall : AllSearched env message
  · by_cases hl : resolvedLines env message = []
    · obtain ⟨_, response, hres⟩ := h2 hall hl
      rw [hres] at h
      simp only [Except.ok.injEq] at h
      subst h
      cases hq
    · obtain ⟨w1, hquiet, hworld, herr, hok⟩ := h3 hall hl
      rcases hc : (createQuoteOrder env userId
          ((resolvedLines env message).map orderItemOf) w1).2 with msg | order
      · rw [herr msg hc] at h
        cases h
      · obtain ⟨response, hres⟩ := hok order hc
        rw [hres] at h
        simp only [Except.ok.injEq] at h
        subst h
        simp only [Option.some.injEq] at hq
        subst hq
        obtain ⟨horder, _, hdb⟩ := createQuoteOrder_ok env userId _ w1 order hc
        refine ⟨headerOf env w.db userId ((resolvedLines env message).map orderItemOf),
          (resolvedLines env message).map
            (fun item => detalleOf (env.freshOrderId w.db) (orderItemOf item)), ?_⟩
        have hid : order.order.id = env.freshOrderId w.db := by
          rw [horder, hquiet.1]
          rfl
        have hheader : (headerOf env w.db userId
            ((resolvedLines env message).map orderItemOf)).monto_total =
            linesAmount env (resolvedLines env message) := by
          simp only [headerOf, sumItems, linesAmount, List.foldl_map]
          rfl
        refine ⟨?_, ?_, hheader, ?_, rfl, ?_, ?_, ?_, ?_, ?_⟩
        · rw [hworld, hdb, hquiet.1]
          simp
        · simp only [hid]
          rfl
        · simp only [hid]
        · rw [hheader]
          simp only [linesAmount, List.foldl_map]
          rfl
        · simp only [linesAmount, List.foldl_map]
          rfl
        · simp only [linesAmount, List.foldl_map]
          rfl
        · simp only [linesAmount, List.foldl_map]
          rfl
        · intro line hline
          obtain ⟨item, _, rfl⟩ := List.mem_map.mp hline
          rfl
  · obtain ⟨_, msg, hres⟩ := h1 hall
    rw [hres] at h
    cases h

/-- Witness of C4: the request `cotiza 10 tarjetas` against the example catalog
builds an order of one line, 10 units at 65.50; and the request `cotiza 3 tarjetas`
against a catalog priced at the Number 0.1 builds an order whose total is, in the
quote and in the header row alike, the Number 0.30000000000000004 to which the
product of 3 and 0.1 rounds. -/
theorem handleQuoteRequest_total_witness :
    (∃ result q,
      (handleQuoteRequest exampleEnv "u1" "cotiza 10 tarjetas" emptyWorld).2 = Except.ok result ∧
      result.quote = some q ∧
      ∃ orden rows,
        (handleQuoteRequest exampleEnv "u1" "cotiza 10 tarjetas" emptyWorld).1.db =
          { ordenes := emptyWorld.db.ordenes ++ [orden],
            detalles_orden := emptyWorld.db.detalles_orden ++ rows } ∧
        orden.id = q.orderId ∧
        orden.monto_total = q.total ∧
        rows = (resolvedLines exampleEnv "cotiza 10 tarjetas").map
          (fun item => detalleOf q.orderId (orderItemOf item)) ∧
        q.items = (resolvedLines exampleEnv "cotiza 10 tarjetas").map (quoteLineOf exampleEnv) ∧
        orden.monto_total =
          rows.foldl
            (fun sum row =>
              exampleEnv.add sum (exampleEnv.mul (row.cantidad : ℚ) row.precio_unitario)) 0 ∧
        q.total =
          rows.foldl
            (fun sum row =>
              exampleEnv.add sum (exampleEnv.mul (row.cantidad : ℚ) row.precio_unitario)) 0 ∧
        q.total =
          q.items.foldl
            (fun sum line =>
              exampleEnv.add sum (exampleEnv.mul (line.cantidad : ℚ) line.precioUnitario)) 0 ∧
        q.total = q.items.foldl (fun sum line => exampleEnv.add sum line.subtotal) 0 ∧
        (∀ line ∈ q.items,
          line.subtotal = exampleEnv.mul (line.cantidad : ℚ) line.precioUnitario)) ∧
    (∃ result q,
      (handleQuoteRequest tagEnv "u1" "cotiza 3 tarjetas" emptyWorld).2 = Except.ok result ∧
      result.quote = some q ∧
      q.total = 1351079888211149 / 4503599627370496 ∧
      (handleQuoteRequest tagEnv "u1" "cotiza 3 tarjetas" emptyWorld).1.db.ordenes =
        [{ id := 1, usuario_id := "u1", monto_total := 1351079888211149 / 4503599627370496,
           estado := "cotizacion" }] ∧
      ∃ orden rows,
        (handleQuoteRequest tagEnv "u1" "cotiza 3 tarjetas" emptyWorld).1.db =
          { ordenes := emptyWorld.db.ordenes ++ [orden],
            detalles_orden := emptyWorld.db.detalles_orden ++ rows } ∧
        orden.id = q.orderId ∧
        orden.monto_total = q.total ∧
        rows = (resolvedLines tagEnv "cotiza 3 tarjetas").map
          (fun item => detalleOf q.orderId (orderItemOf item)) ∧
        q.items = (resolvedLines tagEnv "cotiza 3 tarjetas").map (quoteLineOf tagEnv) ∧
        orden.monto_total =
          rows.foldl
            (fun sum row => tagEnv.add sum (tagEnv.mul (row.cantidad : ℚ) row.precio_unitario))
            0 ∧
        q.total =
          rows.foldl
            (fun sum row => tagEnv.add sum (tagEnv.mul (row.cantidad : ℚ) row.precio_unitario))
            0 ∧
        q.total =
          q.items.foldl
            (fun sum line =>
              tagEnv.add sum (tagEnv.mul (line.cantidad : ℚ) line.precioUnitario)) 0 ∧
        q.total = q.items.foldl (fun sum line => tagEnv.add sum line.subtotal) 0 ∧
        (∀ line ∈ q.items,
          line.subtotal = tagEnv.mul (line.cantidad : ℚ) line.precioUnitario)) := by
  refine ⟨⟨_, _, rfl, rfl,
      handleQuoteRequest_total exampleEnv "u1" "cotiza 10 tarjetas" emptyWorld _ _ rfl rfl⟩,
    ⟨_, _, rfl, rfl, ?_, ?_,
      handleQuoteRequest_total tagEnv "u1" "cotiza 3 tarjetas" emptyWorld _ _ rfl rfl⟩⟩
  · decide!
  · decide!

/-- The amounts are sums of Numbers, not exact sums: 3 units at the Number 0.1 amount
to 0.30000000000000004, which is not three times the value of 0.1; and the
items 0.1, 0.2, 0.3 amount, added in their order, to 0.6000000000000001, while
added from the last one they give 0.6. -/
theorem sumItems_rounded :
    sumItems exampleEnv [{ productId := 2, quantity := 3, unitPrice := oneTenth }] =
      1351079888211149 / 4503599627370496 ∧
    sumItems exampleEnv [{ productId := 2, quantity := 3, unitPrice := oneTenth }] ≠
      3 * oneTenth ∧
    sumItems exampleEnv
        [{ productId := 2, quantity := 1, unitPrice := oneTenth },
         { productId := 3, quantity := 1, unitPrice := 3602879701896397 / 18014398509481984 },
         { productId := 4, quantity := 1, unitPrice := 5404319552844595 / 18014398509481984 }] =
      1351079888211149 / 2251799813685248 ∧
    exampleEnv.add oneTenth
        (exampleEnv.add (3602879701896397 / 18014398509481984)
          (exampleEnv.add (5404319552844595 / 18014398509481984) 0)) =
      5404319552844595 / 9007199254740992 := by
  refine ⟨?_, ?_, ?_, ?_⟩ <;> decide!

/-- C5: in a quote request whose searches all succeed, `createQuoteOrder` is
called exactly once, with the lines, when at least one candidate gives a line, and
is not called when none does; in that case the store is untouched and the result
carries the response text alone, without quote.  When a search fails the function
is not called either. -/
theorem handleQuoteRequest_createQuoteOrder_calls (env : Env) (userId message : String)
    (w : World) :
    (AllSearched env message → resolvedLines env message ≠ [] →
      createQuoteOrderCalls (handleQuoteRequest env userId message w).1.calls =
        createQuoteOrderCalls w.calls ++
          [(userId, (resolvedLines env message).map orderItemOf)]) ∧
    (AllSearched env message → resolvedLines env message = [] →
      createQuoteOrderCalls (handleQuoteRequest env userId message w).1.calls =
        createQuoteOrderCalls w.calls ∧
      (handleQuoteRequest env userId message w).1.db = w.db ∧
      ∃ response, (handleQuoteRequest env userId message w).2 =
        Except.ok { response := response, products := none, quote := none }) ∧
    (¬ AllSearched env message →
      createQuoteOrderCalls (handleQuoteRequest env userId message w).1.calls =
        createQuoteOrderCalls w.calls ∧
      ∃ msg, (handleQuoteRequest env userId message w).2 = Except.error msg) := by
  obtain ⟨h1, h2, h3⟩ := handleQuoteRequest_spec env userId message w
  refine ⟨?_, ?_, ?_⟩
  · intro hall hl
    obtain ⟨w1, hquiet, hworld, _, _⟩ := h3 hall hl
    rw [hworld, createQuoteOrder_calls, createQuoteOrderCalls_append, hquiet.2]
    simp [createQuoteOrderCalls]
  · intro hall hl
    obtain ⟨hquiet, hres⟩ := h2 hall hl
    exact ⟨hquiet.2, hquiet.1, hres⟩
  · intro hall
    obtain ⟨hquiet, hres⟩ := h1 hall
    exact ⟨hquiet.2, hres⟩

/-- Witness of C5: `cotiza 10 tarjetas` gives one line and one call of
`createQuoteOrder`; `cotiza 6000 tarjetas` exceeds the stock, gives no line, no
call and a result without quote. -/
theorem handleQuoteRequest_createQuoteOrder_calls_witness :
    (AllSearched exampleEnv "cotiza 10 tarjetas" ∧
      resolvedLines exampleEnv "cotiza 10 tarjetas" ≠ [] ∧
      createQuoteOrderCalls
          (handleQuoteRequest exampleEnv "u1" "cotiza 10 tarjetas" emptyWorld).1.calls =
        createQuoteOrderCalls emptyWorld.calls ++
          [("u1", (resolvedLines exampleEnv "cotiza 10 tarjetas").map orderItemOf)]) ∧
    (AllSearched exampleEnv "cotiza 6000 tarjetas" ∧
      resolvedLines exampleEnv "cotiza 6000 tarjetas" = [] ∧
      createQuoteOrderCalls
          (handleQuoteRequest exampleEnv "u1" "cotiza 6000 tarjetas" emptyWorld).1.calls =
        createQuoteOrderCalls emptyWorld.calls ∧
      (handleQuoteRequest exampleEnv "u1" "cotiza 6000 tarjetas" emptyWorld).1.db =
        emptyWorld.db ∧
      ∃ response, (handleQuoteRequest exampleEnv "u1" "cotiza 6000 tarjetas" emptyWorld).2 =
        Except.ok { response := response, products := none, quote := none }) :=
  have hall1 : AllSearched exampleEnv "cotiza 10 tarjetas" := fun _ _ => ⟨some proxCard, rfl⟩
  have hall2 : AllSearched exampleEnv "cotiza 6000 tarjetas" := fun _ _ => ⟨some proxCard, rfl⟩
  have hne : resolvedLines exampleEnv "cotiza 10 tarjetas" ≠ [] := by
    rw [show resolvedLines exampleEnv "cotiza 10 tarjetas" =
      [{ productId := 1, quantity := 10, unitPrice := 131 / 2, product := proxCard }] from rfl]
    simp
  have hnil : resolvedLines exampleEnv "cotiza 6000 tarjetas" = [] := rfl
  ⟨⟨hall1, hne,
     (handleQuoteRequest_createQuoteOrder_calls exampleEnv "u1" "cotiza 10 tarjetas"
       emptyWorld).1 hall1 hne⟩,
   ⟨hall2, hnil,
     (handleQuoteRequest_createQuoteOrder_calls exampleEnv "u1" "cotiza 6000 tarjetas"
       emptyWorld).2.1 hall2 hnil⟩⟩

/-- C6, counterexample: with a store that accepts the header row and rejects the
detail row, `createQuoteOrder` raises the error and the store is not as it was
before the call: it holds the header of the order and none of its lines. -/
theorem createQuoteOrder_not_atomic :
    rejectingEnv.sqlFailure emptyWorld.db
        (Statement.insertOrden "u1"
          (sumItems rejectingEnv [{ productId := 1, quantity := 10, unitPrice := 131 / 2 }])) = none ∧
    (createQuoteOrder rejectingEnv "u1" [{ productId := 1, quantity := 10, unitPrice := 131 / 2 }]
        emptyWorld).2 = Except.error "violates foreign key constraint" ∧
    (createQuoteOrder rejectingEnv "u1" [{ productId := 1, quantity := 10, unitPrice := 131 / 2 }]
        emptyWorld).1.db =
      { ordenes := [{ id := 1, usuario_id := "u1", monto_total := 655, estado := "cotizacion" }],
        detalles_orden := [] } ∧
    (createQuoteOrder rejectingEnv "u1" [{ productId := 1, quantity := 10, unitPrice := 131 / 2 }]
        emptyWorld).1.db ≠ emptyWorld.db := by
  refine ⟨rfl, rfl, ?_, ?_⟩
  · simp [createQuoteOrder, rejectingEnv, exampleEnv, insertDetalles, World.record, emptyWorld,
      sumItems]
    norm_num
    decide!
  · simp [createQuoteOrder, rejectingEnv, exampleEnv, insertDetalles, World.record, emptyWorld]

/-- C6 amended: `createQuoteOrder` sends the header and each detail row as
separate statements.  Once the header statement is accepted: if the call succeeds
the store holds the header and all the detail rows; if a detail statement fails
the call raises the error and the store keeps the header and the detail rows
written before the failure, fewer than the items; it is not restored. -/
theorem createQuoteOrder_partial_write (env : Env) (userId : String) (items : List OrderItem)
    (w : World) (_hne : items ≠ [])
    (hh : env.sqlFailure w.db (Statement.insertOrden userId (sumItems env items)) = none) :
    (∀ order, (createQuoteOrder env userId items w).2 = Except.ok order →
      (createQuoteOrder env userId items w).1.db =
        { ordenes := w.db.ordenes ++ [headerOf env w.db userId items],
          detalles_orden := w.db.detalles_orden ++
            items.map (detalleOf (env.freshOrderId w.db)) }) ∧
    (∀ msg, (createQuoteOrder env userId items w).2 = Except.error msg →
      (∃ k, k < items.length ∧
        (createQuoteOrder env userId items w).1.db =
          { ordenes := w.db.ordenes ++ [headerOf env w.db userId items],
            detalles_orden := w.db.detalles_orden ++
              (items.take k).map (detalleOf (env.freshOrderId w.db)) }) ∧
      (createQuoteOrder env userId items w).1.db ≠ w.db) := by
  refine ⟨fun order h => (createQuoteOrder_ok env userId items w order h).2.2, ?_⟩
  intro msg h
  obtain ⟨k, hk, hdb⟩ := createQuoteOrder_error env userId items w msg hh h
  refine ⟨⟨k, hk, hdb⟩, ?_⟩
  rw [hdb]
  intro heq
  have hlen := congrArg (fun db => db.ordenes.length) heq
  simp at hlen

/-- Witness of C6 amended: the rejecting store of the counterexample. -/
theorem createQuoteOrder_partial_write_witness :
    ([{ productId := 1, quantity := 10, unitPrice := 131 / 2 }] : List OrderItem) ≠ [] ∧
    rejectingEnv.sqlFailure emptyWorld.db
        (Statement.insertOrden "u1"
          (sumItems rejectingEnv [{ productId := 1, quantity := 10, unitPrice := 131 / 2 }])) = none ∧
    (createQuoteOrder rejectingEnv "u1" [{ productId := 1, quantity := 10, unitPrice := 131 / 2 }]
        emptyWorld).2 = Except.error "violates foreign key constraint" ∧
    (createQuoteOrder rejectingEnv "u1" [{ productId := 1, quantity := 10, unitPrice := 131 / 2 }]
        emptyWorld).1.db ≠ emptyWorld.db :=
  ⟨by simp, rfl, rfl,
    ((createQuoteOrder_partial_write rejectingEnv "u1"
      [{ productId := 1, quantity := 10, unitPrice := 131 / 2 }] emptyWorld (by simp) rfl).2
      "violates foreign key constraint" rfl).2⟩

/-! ## Literal patterns -/

theorem charMatches_singleton (p c : Char) :
    charMatches [p] c = true ↔ canonicalize c = canonicalize p := by
  simp only [charMatches, List.any_cons, List.any_nil, Bool.or_false, beq_iff_eq]
  exact eq_comm

/-- A character matched by `\d` under the `i` flag is a decimal digit. -/
theorem isDigit_of_charMatches (c : Char) (h : charMatches digitClass c = true) :
    isDigit c = true := by
  have hdig : ∀ a ∈ digitClass, 48 ≤ canonicalize a ∧ canonicalize a ≤ 57 := by decide
  simp only [charMatches, List.any_eq_true, beq_iff_eq] at h
  obtain ⟨a, ha, hac⟩ := h
  obtain ⟨h1, h2⟩ := hdig a ha
  rw [hac] at h1 h2
  simp only [isDigit, decide_eq_true_eq]
  unfold canonicalize at h1 h2
  split at h1
  · rename_i hrange
    rw [if_pos hrange] at h2
    omega
  · rename_i hrange
    rw [if_neg hrange] at h2
    exact ⟨h1, h2⟩

theorem reads_litChars (w : List Char) :
    ∀ s s', Reads (litChars w) s s' ↔ ∃ u, s = u ++ s' ∧ SameIgnoringCase u w := by
  induction w with
  | nil =>
      intro s s'
      simp only [litChars, Reads, SameIgnoringCase, List.forall₂_nil_right_iff]
      constructor
      · rintro rfl
        exact ⟨[], rfl, rfl⟩
      · rintro ⟨u, hs, rfl⟩
        simpa using hs.symm
  | cons p w ih =>
      intro s s'
      simp only [litChars, Reads, charMatches_singleton]
      constructor
      · rintro ⟨m, ⟨c, hs, hc⟩, hm⟩
        obtain ⟨u, hu, hsame⟩ := (ih m s').mp hm
        exact ⟨c :: u, by simp [hs, hu], List.Forall₂.cons hc hsame⟩
      · rintro ⟨u, hs, hsame⟩
        cases hsame with
        | cons hc hrest =>
            rename_i c u'
            exact ⟨u' ++ s', ⟨c, by simp [hs], hc⟩, (ih _ s').mpr ⟨u', rfl, hrest⟩⟩

theorem reads_alts (rs : List Regex) (hne : rs ≠ []) (s s' : List Char) :
    Reads (alts rs) s s' ↔ ∃ r ∈ rs, Reads r s s' := by
  induction rs with
  | nil => exact absurd rfl hne
  | cons a rest ih =>
      cases rest with
      | nil =>
          show Reads a s s' ↔ _
          constructor
          · intro h
            exact ⟨a, List.mem_singleton.mpr rfl, h⟩
          · rintro ⟨r, hr, h⟩
            rw [List.mem_singleton.mp hr] at h
            exact h
      | cons b rest =>
          show (Reads a s s' ∨ Reads (alts (b :: rest)) s s') ↔ _
          rw [ih (List.cons_ne_nil _ _)]
          constructor
          · rintro (h | ⟨r, hr, h⟩)
            · exact ⟨a, List.mem_cons_self _ _, h⟩
            · exact ⟨r, List.mem_cons_of_mem _ hr, h⟩
          · rintro ⟨r, hr, h⟩
            rcases List.mem_cons.mp hr with rfl | hr
            · exact Or.inl h
            · exact Or.inr ⟨r, hr, h⟩

theorem consumed_append (u s' : List Char) : consumed (u ++ s') s' = u := by
  simp [consumed]

/-- The fallback pattern reads at the start of a text exactly when the text
starts with a word of the vocabulary, whatever the case of its letters. -/
theorem reads_productPattern (t s' : List Char) :
    Reads productPattern t s' ↔
      ∃ hint, t = hint ++ s' ∧ ∃ w ∈ productWords, SameIgnoringCase hint w.data := by
  show Reads (alts (productWords.map lit)) t s' ↔ _
  rw [reads_alts _ (by simp [productWords])]
  constructor
  · rintro ⟨r, hr, hreads⟩
    obtain ⟨w, hw, rfl⟩ := List.mem_map.mp hr
    obtain ⟨u, hu, hsame⟩ := (reads_litChars w.data t s').mp hreads
    exact ⟨u, hu, w, hw, hsame⟩
  · rintro ⟨u, hu, w, hw, hsame⟩
    exact ⟨lit w, List.mem_map.mpr ⟨w, hw, rfl⟩, (reads_litChars w.data t s').mpr ⟨u, hu, hsame⟩⟩

theorem sameIgnoringCase_mem (u w : List Char) (hsame : SameIgnoringCase u w) (c : Char)
    (hc : c ∈ u) : ∃ p ∈ w, canonicalize c = canonicalize p := by
  unfold SameIgnoringCase at hsame
  induction hsame with
  | nil => exact absurd hc (List.not_mem_nil _)
  | cons hab _ ih =>
      rcases List.mem_cons.mp hc with rfl | hc
      · exact ⟨_, List.mem_cons_self _ _, hab⟩
      · obtain ⟨p, hp, hcp⟩ := ih hc
        exact ⟨p, List.mem_cons_of_mem _ hp, hcp⟩

/-- No white space character has the canonical form of a letter of the
vocabulary. -/
theorem vocabulary_not_space (hint : List Char) (w : String) (hw : w ∈ productWords)
    (hsame : SameIgnoringCase hint w.data) : ∀ c ∈ hint, isWhiteSpace c = false := by
  have hspace : ∀ c ∈ spaceClass, canonicalize c = c.toNat := by decide
  have hword : ∀ w ∈ productWords, ∀ p ∈ w.data, ∀ s ∈ spaceClass,
      canonicalize p ≠ s.toNat := by
    decide
  intro c hc
  obtain ⟨p, hp, hcp⟩ := sameIgnoringCase_mem hint w.data hsame c hc
  cases hws : isWhiteSpace c with
  | false => rfl
  | true =>
      exfalso
      have hmem : c ∈ spaceClass := by
        simpa [isWhiteSpace] using hws
      have h1 := hspace c hmem
      have h2 := hword w hw p hp c hmem
      rw [← hcp, h1] at h2
      exact absurd rfl h2

theorem vocabulary_length (hint : List Char) (w : String) (hw : w ∈ productWords)
    (hsame : SameIgnoringCase hint w.data) : hint.length > 2 := by
  have hlen : ∀ w ∈ productWords, w.data.length > 2 := by decide
  have := List.Forall₂.length_eq hsame
  rw [this]
  exact hlen w hw

theorem sameIgnoringCase_map (u w : List Char) (hsame : SameIgnoringCase u w) :
    u.map canonicalize = w.map canonicalize := by
  unfold SameIgnoringCase at hsame
  induction hsame with
  | nil => rfl
  | cons hab _ ih => simp [hab, ih]

/-- At one position of a text at most one text is an occurrence of a vocabulary
word: no word of the vocabulary starts another one. -/
theorem vocabularyAt_unique (text pre hint post hint' post' : List Char)
    (h : VocabularyAt text pre hint post) (h' : VocabularyAt text pre hint' post') :
    hint' = hint := by
  have hwords : ∀ w ∈ productWords, ∀ w' ∈ productWords,
      w.data.map canonicalize <+: w'.data.map canonicalize → w.data.length = w'.data.length := by
    decide
  obtain ⟨htext, w, hw, hsame⟩ := h
  obtain ⟨htext', w', hw', hsame'⟩ := h'
  have heq : hint ++ post = hint' ++ post' := by
    have := htext.symm.trans htext'
    simpa [List.append_assoc] using this
  have hp : hint.map canonicalize <+: (hint ++ post).map canonicalize :=
    List.IsPrefix.map _ (List.prefix_append _ _)
  have hp' : hint'.map canonicalize <+: (hint ++ post).map canonicalize := by
    rw [heq]
    exact List.IsPrefix.map _ (List.prefix_append _ _)
  rw [sameIgnoringCase_map _ _ hsame] at hp
  rw [sameIgnoringCase_map _ _ hsame'] at hp'
  have hlen : hint.length = hint'.length := by
    rw [List.Forall₂.length_eq hsame, List.Forall₂.length_eq hsame']
    rcases List.prefix_or_prefix_of_prefix hp hp' with h1 | h1
    · exact hwords w hw w' hw' h1
    · exact (hwords w' hw' w hw h1).symm
  exact ((List.append_inj heq hlen).1).symm

/-! ## The loops of extractQuoteInfo have fuel enough -/

theorem reads_length_le (r : Regex) :
    ∀ s s', Reads r s s' → s'.length ≤ s.length := by
  induction r with
  | eps => intro s s' h; simp only [Reads] at h; rw [h]
  | set cs =>
      intro s s' h
      obtain ⟨c, hs, _⟩ := h
      rw [hs]
      simp
  | eos =>
      intro s s' h
      obtain ⟨hs, hs'⟩ := h
      rw [hs, hs']
  | seq a b iha ihb =>
      intro s s' h
      obtain ⟨m, hm, hm'⟩ := h
      exact Nat.le_trans (ihb _ _ hm') (iha _ _ hm)
  | alt a b iha ihb =>
      intro s s' h
      rcases h with h | h
      · exact iha _ _ h
      · exact ihb _ _ h
  | opt a iha =>
      intro s s' h
      rcases h with h | h
      · exact iha _ _ h
      · rw [h]
  | star cs =>
      intro s s' h
      obtain ⟨pre, hs, _⟩ := h
      rw [hs]
      simp
  | plus cs =>
      intro s s' h
      obtain ⟨pre, _, hs, _⟩ := h
      rw [hs]
      simp
  | plusLazy cs =>
      intro s s' h
      obtain ⟨pre, _, hs, _⟩ := h
      rw [hs]
      simp
  | group i a iha =>
      intro s s' h
      exact iha _ _ h

theorem reads_suffix (r : Regex) :
    ∀ s s', Reads r s s' → ∃ u, s = u ++ s' := by
  induction r with
  | eps => intro s s' h; simp only [Reads] at h; exact ⟨[], by rw [h]; rfl⟩
  | set cs =>
      intro s s' h
      obtain ⟨c, hs, _⟩ := h
      exact ⟨[c], by rw [hs]; rfl⟩
  | eos =>
      intro s s' h
      obtain ⟨hs, hs'⟩ := h
      exact ⟨[], by rw [hs, hs']; rfl⟩
  | seq a b iha ihb =>
      intro s s' h
      obtain ⟨m, hm, hm'⟩ := h
      obtain ⟨u, hu⟩ := iha _ _ hm
      obtain ⟨v, hv⟩ := ihb _ _ hm'
      exact ⟨u ++ v, by rw [hu, hv, List.append_assoc]⟩
  | alt a b iha ihb =>
      intro s s' h
      rcases h with h | h
      · exact iha _ _ h
      · exact ihb _ _ h
  | opt a iha =>
      intro s s' h
      rcases h with h | h
      · exact iha _ _ h
      · exact ⟨[], by rw [h]; rfl⟩
  | star cs =>
      intro s s' h
      obtain ⟨pre, hs, _⟩ := h
      exact ⟨pre, hs⟩
  | plus cs =>
      intro s s' h
      obtain ⟨pre, _, hs, _⟩ := h
      exact ⟨pre, hs⟩
  | plusLazy cs =>
      intro s s' h
      obtain ⟨pre, _, hs, _⟩ := h
      exact ⟨pre, hs⟩
  | group i a iha =>
      intro s s' h
      exact iha _ _ h

/-- A match of `quantityPattern` reads at least one character. -/
theorem exec_quantityPattern_rest (input : List Char) (m : RegExpMatch)
    (h : exec quantityPattern input = some m) : m.rest.length < input.length := by
  obtain ⟨pre, t, hinput, hmatch, _⟩ := exec_some quantityPattern input m h
  obtain ⟨hreads, _⟩ := matchAt_some quantityPattern t m hmatch
  obtain ⟨mid, hdigits, hrest⟩ := hreads
  obtain ⟨ds, hne, ht, _⟩ := hdigits
  have h1 := reads_length_le _ _ _ hrest
  have h2 : mid.length < t.length := by
    rw [ht, List.length_append]
    have : 0 < ds.length := List.length_pos.mpr hne
    omega
  rw [hinput, List.length_append]
  omega

/-- The loop of the primary pass never uses up a fuel larger than the length of its
input: any two such fuels give the same result. -/
theorem scanQuantities_fuel :
    ∀ (fuel fuel' : Nat) (input : List Char) (items : List QuoteLineCandidate),
      input.length < fuel → input.length < fuel' →
        scanQuantities fuel input items = scanQuantities fuel' input items := by
  intro fuel
  induction fuel with
  | zero => intro fuel' input items h; exact absurd h (Nat.not_lt_zero _)
  | succ fuel ih =>
      intro fuel' input items h h'
      cases fuel' with
      | zero => exact absurd h' (Nat.not_lt_zero _)
      | succ fuel' =>
          simp only [scanQuantities]
          cases hexec : exec quantityPattern input with
          | none => rfl
          | some m =>
              have hlt := exec_quantityPattern_rest input m hexec
              have h1 : m.rest.length < fuel := by omega
              have h2 : m.rest.length < fuel' := by omega
              simp only
              cases parseInt (m.cap 1) with
              | none => exact ih fuel' m.rest items h1 h2
              | some quantity =>
                  simp only
                  split
                  · exact ih fuel' m.rest _ h1 h2
                  · exact ih fuel' m.rest _ h1 h2

/-- The input left by a match is what follows the text of the match, itself found
inside the input. -/
theorem exec_rest_length (r : Regex) (input : List Char) (m : RegExpMatch)
    (h : exec r input = some m) : m.text.length + m.rest.length ≤ input.length := by
  obtain ⟨pre, t, hinput, hmatch, _⟩ := exec_some r input m h
  obtain ⟨hreads, htext⟩ := matchAt_some r t m hmatch
  obtain ⟨u, hu⟩ := reads_suffix r _ _ hreads
  have hlen : t.length = u.length + m.rest.length := by
    rw [hu, List.length_append]
  have htext' : m.text = u := by rw [htext, hu, consumed_append]
  rw [htext', hinput, List.length_append]
  omega

/-- The loop of `match` never uses up a fuel larger than the length of its input:
any two such fuels give the same result. -/
theorem matchGlobal_fuel (r : Regex) :
    ∀ (fuel fuel' : Nat) (input : List Char),
      input.length < fuel → input.length < fuel' →
        matchGlobal r fuel input = matchGlobal r fuel' input := by
  intro fuel
  induction fuel with
  | zero => intro fuel' input h; exact absurd h (Nat.not_lt_zero _)
  | succ fuel ih =>
      intro fuel' input h h'
      cases fuel' with
      | zero => exact absurd h' (Nat.not_lt_zero _)
      | succ fuel' =>
          simp only [matchGlobal]
          cases hexec : exec r input with
          | none => rfl
          | some m =>
              have hlen := exec_rest_length r input m hexec
              simp only
              congr 1
              rcases htext : m.text with _ | ⟨a, text⟩
              · rcases hrest : m.rest with _ | ⟨b, rest⟩
                · rfl
                · rw [hrest] at hlen
                  simp only [List.length_cons] at hlen
                  exact ih fuel' rest (by omega) (by omega)
              · rw [htext] at hlen
                simp only [List.length_cons] at hlen
                exact ih fuel' m.rest (by omega) (by omega)

/-- The first element of the result of `match` is the text of the first match of
`exec`, whatever the fuel. -/
theorem matchGlobal_head (r : Regex) (fuel : Nat) (input : List Char) :
    (matchGlobal r (fuel + 1) input).head? = (exec r input).map (fun m => m.text) := by
  simp only [matchGlobal]
  cases exec r input with
  | none => rfl
  | some m => rfl

/-! ## extractQuoteInfo: the fallback pass -/

/-- When the primary pass accepts nothing, the result is decided by one call of
`exec` with the fallback pattern. -/
theorem extractQuoteInfo_of_primary_nil (message : String)
    (hprimary : scanQuantities (message.data.length + 1) message.data [] = []) :
    extractQuoteInfo message =
      match exec productPattern message.data with
      | none => []
      | some m => [{ productHint := String.mk m.text, quantity := Quantity.fin 1 }] := by
  unfold extractQuoteInfo
  simp only [hprimary, List.length_nil, if_true, List.nil_append]
  cases hexec : exec productPattern message.data with
  | none => simp only [matchGlobal, hexec]
  | some m => simp only [matchGlobal, hexec]

/-- C8: when the primary pass of `extractQuoteInfo` accepts no candidate, the
result is empty if the message holds no word of the fallback vocabulary (in any
case of letters), and otherwise it is exactly one candidate with quantity 1 whose
hint is the leftmost occurrence of a vocabulary word in the message. -/
theorem extractQuoteInfo_fallback (message : String)
    (hprimary : scanQuantities (message.data.length + 1) message.data [] = []) :
    ((¬ ∃ pre hint post, VocabularyAt message.data pre hint post) →
      extractQuoteInfo message = []) ∧
    ((∃ pre hint post, VocabularyAt message.data pre hint post) →
      ∃ pre hint post, VocabularyAt message.data pre hint post ∧
        (∀ pre' hint' post', VocabularyAt message.data pre' hint' post' →
          pre.length ≤ pre'.length ∧ (pre' = pre → hint' = hint)) ∧
        extractQuoteInfo message =
          [{ productHint := String.mk hint, quantity := Quantity.fin 1 }]) := by
  rw [extractQuoteInfo_of_primary_nil message hprimary]
  cases hexec : exec productPattern message.data with
  | none =>
      refine ⟨fun _ => rfl, ?_⟩
      rintro ⟨pre, hint, post, htext, w, hw, hsame⟩
      exfalso
      refine (exec_eq_none_iff productPattern _).mp hexec pre (hint ++ post) post ?_ ?_
      · rw [htext, List.append_assoc]
      · exact (reads_productPattern _ _).mpr ⟨hint, rfl, w, hw, hsame⟩
  | some m =>
      obtain ⟨pre, t, htext, hmatch, hleft⟩ := exec_some productPattern _ m hexec
      obtain ⟨hreads, hmtext⟩ := matchAt_some productPattern t m hmatch
      obtain ⟨hint, ht, w, hw, hsame⟩ := (reads_productPattern _ _).mp hreads
      have hhint : m.text = hint := by
        rw [hmtext, ht, consumed_append]
      have hvocab : VocabularyAt message.data pre hint m.rest :=
        ⟨by rw [htext, ht, List.append_assoc], w, hw, hsame⟩
      refine ⟨fun hno => absurd ⟨pre, hint, m.rest, hvocab⟩ hno, fun _ => ?_⟩
      refine ⟨pre, hint, m.rest, hvocab, ?_, by simp only [hhint]⟩
      intro pre' hint' post' hvocab'
      refine ⟨?_, ?_⟩
      · obtain ⟨htext', w', hw', hsame'⟩ := hvocab'
        by_contra hlt
        refine hleft pre' (hint' ++ post') post' ?_ (Nat.lt_of_not_le hlt) ?_
        · rw [htext', List.append_assoc]
        · exact (reads_productPattern _ _).mpr ⟨hint', rfl, w', hw', hsame'⟩
      · intro hpre
        subst hpre
        exact vocabularyAt_unique _ _ _ _ _ _ hvocab hvocab'

/-- A message without digits gives the primary pass nothing to accept. -/
theorem scanQuantities_no_digit (input : List Char) (hno : ∀ c ∈ input, isDigit c = false)
    (fuel : Nat) (items : List QuoteLineCandidate) :
    scanQuantities fuel input items = items := by
  have hexec : exec quantityPattern input = none := by
    rw [exec_eq_none_iff]
    rintro pre t s' hinput ⟨mid, ⟨ds, hne, ht, hall⟩, _⟩
    cases ds with
    | nil => exact absurd rfl hne
    | cons d ds =>
        have hd : isDigit d = true :=
          isDigit_of_charMatches d (hall d (List.mem_cons_self _ _))
        have hmem : d ∈ input := by
          rw [hinput, ht]
          simp
        rw [hno d hmem] at hd
        cases hd
  cases fuel with
  | zero => rfl
  | succ fuel => simp only [scanQuantities, hexec]

/-- The example with `impresora` in general: a message without digits in which a
vocabulary word occurs, and always as the text `impresora`, yields exactly one
candidate, of quantity 1 and hint `impresora`. -/
theorem extractQuoteInfo_impresora (message : String)
    (hno : ∀ c ∈ message.data, isDigit c = false)
    (hsome : ∃ pre hint post, VocabularyAt message.data pre hint post)
    (honly : ∀ pre hint post, VocabularyAt message.data pre hint post →
      hint = "impresora".data) :
    extractQuoteInfo message = [{ productHint := "impresora", quantity := Quantity.fin 1 }] := by
  have hprimary := scanQuantities_no_digit message.data hno (message.data.length + 1) []
  rw [extractQuoteInfo_of_primary_nil message hprimary]
  cases hexec : exec productPattern message.data with
  | none =>
      exfalso
      obtain ⟨pre, hint, post, htext, w, hw, hsame⟩ := hsome
      refine (exec_eq_none_iff productPattern _).mp hexec pre (hint ++ post) post ?_ ?_
      · rw [htext, List.append_assoc]
      · exact (reads_productPattern _ _).mpr ⟨hint, rfl, w, hw, hsame⟩
  | some m =>
      obtain ⟨pre, t, htext, hmatch, _⟩ := exec_some productPattern _ m hexec
      obtain ⟨hreads, hmtext⟩ := matchAt_some productPattern t m hmatch
      obtain ⟨hint, ht, w, hw, hsame⟩ := (reads_productPattern _ _).mp hreads
      have hhint : m.text = hint := by
        rw [hmtext, ht, consumed_append]
      have hvocab : VocabularyAt message.data pre hint m.rest :=
        ⟨by rw [htext, ht, List.append_assoc], w, hw, hsame⟩
      have := honly pre hint m.rest hvocab
      simp only [hhint, this]

/-- Witness of C8: a message without digits that holds two words of the
vocabulary; the hint is the leftmost one, `impresora`. -/
theorem extractQuoteInfo_fallback_witness :
    scanQuantities ("busco una impresora para credenciales".data.length + 1)
      "busco una impresora para credenciales".data [] = [] ∧
    VocabularyAt "busco una impresora para credenciales".data
      "busco una ".data "impresora".data " para credenciales".data ∧
    extractQuoteInfo "busco una impresora para credenciales" =
      [{ productHint := "impresora", quantity := Quantity.fin 1 }] ∧
    ∃ pre hint post,
      VocabularyAt "busco una impresora para credenciales".data pre hint post ∧
      (∀ pre' hint' post',
        VocabularyAt "busco una impresora para credenciales".data pre' hint' post' →
          pre.length ≤ pre'.length ∧ (pre' = pre → hint' = hint)) ∧
      extractQuoteInfo "busco una impresora para credenciales" =
        [{ productHint := String.mk hint, quantity := Quantity.fin 1 }] :=
  have hvocab : VocabularyAt "busco una impresora para credenciales".data
      "busco una ".data "impresora".data " para credenciales".data :=
    ⟨by decide, "impresora", by decide, by simp [SameIgnoringCase]⟩
  ⟨by decide, hvocab, by decide,
    (extractQuoteInfo_fallback "busco una impresora para credenciales" (by decide)).2
      ⟨_, _, _, hvocab⟩⟩

/-! ## The captures of quantityPattern -/

/-- The terminator of `quantityPattern` makes no capture. -/
theorem quantityTerminator_caps (st st' : MState) (h : st' ∈ matchAll quantityTerminator st) :
    st'.caps = st.caps := by
  obtain ⟨rest, caps⟩ := st
  simp only [quantityTerminator, alts, lit, litChars, matchAll, List.mem_append,
    List.mem_flatMap] at h
  rcases h with h | h | h | h
  · cases rest with
    | nil => simp at h
    | cons c s =>
        by_cases hc : charMatches spaceClass c = true
        · simp only [hc, if_true, List.mem_singleton] at h
          rw [h]
        · simp [hc] at h
  · cases rest with
    | nil =>
        simp only [List.mem_singleton] at h
        rw [h]
    | cons c s => simp at h
  · obtain ⟨a, ha, hst⟩ := h
    simp only [List.mem_singleton] at hst
    rw [hst]
    cases rest with
    | nil => simp at ha
    | cons c s =>
        by_cases hc : charMatches [','] c = true
        · simp only [hc, if_true, List.mem_singleton] at ha
          rw [ha]
        · simp [hc] at ha
  · obtain ⟨a, ha, hst⟩ := h
    simp only [List.mem_singleton] at hst
    rw [hst]
    cases rest with
    | nil => simp at ha
    | cons c s =>
        by_cases hc : charMatches ['.'] c = true
        · simp only [hc, if_true, List.mem_singleton] at ha
          rw [ha]
        · simp [hc] at ha

theorem mem_matchAll_quantityShape (term : Regex) (t : List Char) (st : MState)
    (h : st ∈ matchAll
      (Regex.seq (Regex.group 1 (Regex.plus digitClass))
        (Regex.seq (Regex.plus spaceClass)
          (Regex.seq (Regex.group 2 (Regex.plusLazy wordClass)) term)))
      { rest := t, caps := [] }) :
    ∃ ds ws g s3,
      t = ds ++ (ws ++ (g ++ s3)) ∧
      ds ≠ [] ∧ (∀ c ∈ ds, charMatches digitClass c = true) ∧
      ws ≠ [] ∧ (∀ c ∈ ws, charMatches spaceClass c = true) ∧
      g ≠ [] ∧ (∀ c ∈ g, charMatches wordClass c = true) ∧
      st ∈ matchAll term { rest := s3, caps := [(2, g), (1, ds)] } := by
  simp only [matchAll, List.mem_flatMap, List.mem_map, List.mem_reverse,
    mem_classRuns1] at h
  obtain ⟨st1, ⟨st1', ⟨s1, ⟨ds, hds, ht, hdsall⟩, rfl⟩, rfl⟩,
    st2, ⟨s2, ⟨ws, hws, hs1, hwsall⟩, rfl⟩,
    st3, ⟨st3', ⟨s3, ⟨g, hg, hs2, hgall⟩, rfl⟩, rfl⟩, hterm⟩ := h
  simp only at hs1 hs2 hterm ht
  refine ⟨ds, ws, g, s3, ?_, hds, hdsall, hws, hwsall, hg, hgall, ?_⟩
  · rw [ht, hs1, hs2]
  · have h1 : consumed t s1 = ds := by rw [ht, consumed_append]
    have h2 : consumed s2 s3 = g := by rw [hs2, consumed_append]
    rw [h1, h2] at hterm
    exact hterm

/-- The shape of a match of `quantityPattern`: a run of digits, capture 1; a run
of white space; a run of characters of the word class, capture 2; the
terminator. -/
theorem matchAt_quantityPattern (t : List Char) (m : RegExpMatch)
    (h : matchAt quantityPattern t = some m) :
    ∃ ds ws g s3,
      t = ds ++ (ws ++ (g ++ s3)) ∧
      ds ≠ [] ∧ (∀ c ∈ ds, charMatches digitClass c = true) ∧
      ws ≠ [] ∧ (∀ c ∈ ws, charMatches spaceClass c = true) ∧
      g ≠ [] ∧ (∀ c ∈ g, charMatches wordClass c = true) ∧
      m.cap 1 = ds ∧ m.cap 2 = g ∧
      Reads quantityTerminator s3 m.rest := by
  unfold matchAt at h
  cases hm : matchAll quantityPattern { rest := t, caps := [] } with
  | nil => rw [hm] at h; cases h
  | cons st l =>
      rw [hm] at h
      simp only [Option.some.injEq] at h
      subst h
      have hmem : st ∈ matchAll quantityPattern { rest := t, caps := [] } := by
        rw [hm]; exact List.mem_cons_self _ _
      obtain ⟨ds, ws, g, s3, ht, hds, hdsall, hws, hwsall, hg, hgall, hterm⟩ :=
        mem_matchAll_quantityShape quantityTerminator t st hmem
      have hcaps := quantityTerminator_caps _ _ hterm
      have hreads := reads_of_mem_matchAll _ _ _ hterm
      simp only at hcaps hreads
      refine ⟨ds, ws, g, s3, ht, hds, hdsall, hws, hwsall, hg, hgall, ?_, ?_, hreads⟩
      · simp only [RegExpMatch.cap, hcaps]
        simp [List.lookup]
      · simp only [RegExpMatch.cap, hcaps]
        simp [List.lookup]

/-! ## parseInt -/

theorem parseInt_digits (ds : List Char) (hne : ds ≠ [])
    (hall : ∀ c ∈ ds, charMatches digitClass c = true) :
    parseInt ds = some (toNumber (decimalValue ds) (4 * ds.length)) := by
  have htake : ds.takeWhile isDigit = ds :=
    List.takeWhile_eq_self_iff.mpr (fun c hc => isDigit_of_charMatches c (hall c hc))
  unfold parseInt
  rw [htake]
  cases ds with
  | nil => exact absurd rfl hne
  | cons d ds => rfl

theorem droppedBits_spec (n : Nat) :
    ∀ bound, droppedBits n bound = 0 ∨ 2 ^ 52 ≤ n >>> droppedBits n bound := by
  intro bound
  induction bound with
  | zero => exact Or.inl rfl
  | succ e ih =>
      simp only [droppedBits]
      by_cases h : 2 ^ 52 ≤ n >>> (e + 1)
      · rw [if_pos h]
        exact Or.inr h
      · rw [if_neg h]
        exact ih

/-- The search for the dropped bits does not depend on its bound once the integer
has at most `bound + 53` bits. -/
theorem droppedBits_stable (n bound : Nat) (hn : n < 2 ^ (bound + 53)) :
    ∀ k, droppedBits n (bound + k) = droppedBits n bound := by
  intro k
  induction k with
  | zero => rfl
  | succ k ih =>
      have hlt : ¬ 2 ^ 52 ≤ n >>> (bound + k + 1) := by
        rw [Nat.not_le, Nat.shiftRight_eq_div_pow, Nat.div_lt_iff_lt_mul (Nat.two_pow_pos _),
          ← Nat.pow_add]
        refine Nat.lt_of_lt_of_le hn (Nat.pow_le_pow_right (by decide) ?_)
        omega
      show droppedBits n (bound + k + 1) = droppedBits n bound
      simp only [droppedBits, hlt, if_false]
      exact ih

theorem decimalValue_foldl_lt (ds : List Char) (hall : ∀ d ∈ ds, isDigit d = true) :
    ∀ acc : Nat,
      ds.foldl (fun acc d => 10 * acc + (d.toNat - 48)) acc < (acc + 1) * 10 ^ ds.length := by
  induction ds with
  | nil => intro acc; simp
  | cons d ds ih =>
      intro acc
      have hd : d.toNat - 48 ≤ 9 := by
        have := hall d (List.mem_cons_self _ _)
        simp only [isDigit, decide_eq_true_eq] at this
        omega
      have h1 := ih (fun x hx => hall x (List.mem_cons_of_mem _ hx)) (10 * acc + (d.toNat - 48))
      simp only [List.foldl_cons, List.length_cons]
      refine Nat.lt_of_lt_of_le h1 ?_
      rw [Nat.pow_succ, Nat.mul_comm (10 ^ ds.length) 10, ← Nat.mul_assoc]
      exact Nat.mul_le_mul_right _ (by omega)

/-- A run of `k` decimal digits writes an integer below `2 ^ (4 * k)`. -/
theorem decimalValue_lt (ds : List Char) (hall : ∀ d ∈ ds, isDigit d = true) :
    decimalValue ds < 2 ^ (4 * ds.length) := by
  have h1 := decimalValue_foldl_lt ds hall 0
  simp only [Nat.zero_add, Nat.one_mul] at h1
  have h2 : 10 ^ ds.length ≤ 2 ^ (4 * ds.length) := by
    rw [Nat.pow_mul]
    exact Nat.pow_le_pow_left (by decide) _
  exact Nat.lt_of_lt_of_le h1 h2

/-- The bound that `parseInt` passes to `toNumber` is large enough: a larger one
gives the same Number. -/
theorem toNumber_bound (ds : List Char) (hall : ∀ d ∈ ds, isDigit d = true) (k : Nat) :
    toNumber (decimalValue ds) (4 * ds.length + k) = toNumber (decimalValue ds) (4 * ds.length) := by
  have hlt : decimalValue ds < 2 ^ (4 * ds.length + 53) :=
    Nat.lt_of_lt_of_le (decimalValue_lt ds hall) (Nat.pow_le_pow_right (by decide) (by omega))
  unfold toNumber
  rw [droppedBits_stable _ _ hlt k]

theorem roundedSignificand_le (n e : Nat) : roundedSignificand n e ≤ n >>> e + 1 := by
  unfold roundedSignificand
  simp only
  split <;> omega

theorem roundedSignificand_zero (n : Nat) : roundedSignificand n 0 = n := by
  unfold roundedSignificand
  simp only [Nat.shiftRight_zero, Nat.shiftLeft_zero, Nat.sub_self, Nat.zero_sub]
  have hfalse : ¬ ((1 : Nat) < 0 ∨ ((0 : Nat) = 1 ∧ n % 2 = 1)) := by omega
  rw [if_neg hfalse]

/-- A Number is `Infinity` only for an integer of at least `2 ^ 1023`. -/
theorem toNumber_infinity (n bound : Nat) (h : toNumber n bound = Quantity.infinity) :
    2 ^ 1023 ≤ n := by
  rw [← Nat.one_shiftLeft]
  unfold toNumber at h
  by_cases hsmall : n < 2 ^ 53
  · rw [if_pos hsmall] at h
    cases h
  · rw [if_neg hsmall] at h
    simp only at h
    by_cases hbig : roundedSignificand n (droppedBits n bound) <<< droppedBits n bound <
        1 <<< 1024
    · rw [if_pos hbig] at h
      cases h
    · clear h
      have hpow : 1 <<< 1024 = 2 * (1 <<< 1023) := by decide
      rw [Nat.not_lt, hpow, Nat.shiftLeft_eq _ (droppedBits n bound)] at hbig
      generalize 1 <<< 1023 = limit at hbig ⊢
      have hq : (n >>> droppedBits n bound) * 2 ^ droppedBits n bound ≤ n := by
        rw [Nat.shiftRight_eq_div_pow]
        exact Nat.div_mul_le_self n _
      rcases droppedBits_spec n bound with h0 | h52
      · -- nothing is dropped: the value is the integer itself
        rw [h0, roundedSignificand_zero] at hbig
        omega
      · -- the significand has 53 bits: rounding up at most doubles the value
        have hle := roundedSignificand_le n (droppedBits n bound)
        generalize droppedBits n bound = e at hbig hq h52 hle
        generalize roundedSignificand n e = q' at hbig hle
        generalize n >>> e = q at hq h52 hle
        have hq1 : 1 ≤ q := Nat.le_trans (Nat.one_le_two_pow) h52
        have hle' : q' ≤ q + q := by omega
        have hmul := Nat.mul_le_mul_right (2 ^ e) hle'
        have : (q + q) * 2 ^ e = 2 * (q * 2 ^ e) := by ring
        rw [this] at hmul
        omega

/-! ## extractQuoteInfo: what every candidate satisfies -/

theorem getLast?_dropWhile_of_ne_nil (p : Char → Bool) :
    ∀ l : List Char, l.dropWhile p ≠ [] → (l.dropWhile p).getLast? = l.getLast? := by
  intro l
  induction l with
  | nil => intro h; exact absurd rfl h
  | cons x l ih =>
      intro h
      by_cases hx : p x = true
      · rw [List.dropWhile_cons_of_pos hx] at h ⊢
        rw [ih h]
        cases l with
        | nil => exact absurd rfl h
        | cons y l => rw [List.getLast?_cons_cons]
      · rw [List.dropWhile_cons_of_neg hx]

/-- The result of `trim` has no white space at its start and none at its end. -/
theorem trim_trimmed (s : List Char) : Trimmed (trim s) := by
  unfold Trimmed trim
  constructor
  · intro c hc
    rw [List.head?_reverse] at hc
    have hne : (s.dropWhile isWhiteSpace).reverse.dropWhile isWhiteSpace ≠ [] := by
      intro h0
      rw [h0] at hc
      cases hc
    rw [getLast?_dropWhile_of_ne_nil _ _ hne, List.getLast?_reverse] at hc
    have := List.head?_dropWhile_not isWhiteSpace s
    rw [hc] at this
    exact this
  · intro c hc
    rw [List.getLast?_reverse] at hc
    have := List.head?_dropWhile_not isWhiteSpace (s.dropWhile isWhiteSpace).reverse
    rw [hc] at this
    exact this

/-- Every candidate added by the loop of the primary pass went through the guard
`quantity > 0 && productHint.length > 2`, its hint being the result of `trim` and
its quantity the value that `parseInt` gives to a run of digits of the input. -/
theorem scanQuantities_mem :
    ∀ (fuel : Nat) (input : List Char) (items : List QuoteLineCandidate)
      (c : QuoteLineCandidate),
      c ∈ scanQuantities fuel input items →
        c ∈ items ∨
          (c.quantity.isPositive = true ∧
            (∃ t, c.productHint = String.mk (trim t) ∧ (trim t).length > 2) ∧
            ∃ pre ds post, input = pre ++ ds ++ post ∧ ds ≠ [] ∧
              (∀ d ∈ ds, isDigit d = true) ∧ parseInt ds = some c.quantity) := by
  intro fuel
  induction fuel with
  | zero =>
      intro input items c h
      exact Or.inl h
  | succ fuel ih =>
      intro input items c h
      simp only [scanQuantities] at h
      cases hexec : exec quantityPattern input with
      | none =>
          rw [hexec] at h
          exact Or.inl h
      | some m =>
          rw [hexec] at h
          simp only at h
          obtain ⟨pre0, t, hinput, hmatch, _⟩ := exec_some quantityPattern input m hexec
          obtain ⟨ds, ws, g, s3, ht, hds, hdsall, _, _, _, _, hcap1, _, hterm⟩ :=
            matchAt_quantityPattern t m hmatch
          obtain ⟨u, hu⟩ := reads_suffix _ _ _ hterm
          -- a run of digits found in the rest of the input is a run of the input
          have hlift : ∀ c' : QuoteLineCandidate,
              (∃ pre ds' post, m.rest = pre ++ ds' ++ post ∧ ds' ≠ [] ∧
                (∀ d ∈ ds', isDigit d = true) ∧ parseInt ds' = some c'.quantity) →
              ∃ pre ds' post, input = pre ++ ds' ++ post ∧ ds' ≠ [] ∧
                (∀ d ∈ ds', isDigit d = true) ∧ parseInt ds' = some c'.quantity := by
            rintro c' ⟨pre1, ds1, post1, hrest, h1, h2, h3⟩
            refine ⟨pre0 ++ ds ++ ws ++ g ++ u ++ pre1, ds1, post1, ?_, h1, h2, h3⟩
            rw [hinput, ht, hu, hrest]
            simp only [List.append_assoc]
          have hrec : ∀ items', c ∈ scanQuantities fuel m.rest items' →
              c ∈ items' ∨
                (c.quantity.isPositive = true ∧
                  (∃ t, c.productHint = String.mk (trim t) ∧ (trim t).length > 2) ∧
                  ∃ pre ds' post, input = pre ++ ds' ++ post ∧ ds' ≠ [] ∧
                    (∀ d ∈ ds', isDigit d = true) ∧ parseInt ds' = some c.quantity) := by
            intro items' h'
            rcases ih _ _ _ h' with h1 | ⟨h1, h2, h3⟩
            · exact Or.inl h1
            · exact Or.inr ⟨h1, h2, hlift c h3⟩
          cases hparse : parseInt (m.cap 1) with
          | none =>
              rw [hparse] at h
              exact hrec _ h
          | some quantity =>
              rw [hparse] at h
              simp only at h
              by_cases hguard :
                  (quantity.isPositive && decide ((trim (m.cap 2)).length > 2)) = true
              · rw [if_pos hguard] at h
                rcases hrec _ h with h1 | h1
                · rcases List.mem_append.mp h1 with h2 | h2
                  · exact Or.inl h2
                  · right
                    rw [List.mem_singleton.mp h2]
                    simp only [Bool.and_eq_true, decide_eq_true_eq] at hguard
                    refine ⟨hguard.1, ⟨m.cap 2, rfl, hguard.2⟩, pre0, ds, ws ++ (g ++ s3), ?_, hds,
                      fun d hd => isDigit_of_charMatches d (hdsall d hd), ?_⟩
                    · rw [hinput, ht]
                      simp only [List.append_assoc]
                    · rw [← hcap1]
                      exact hparse
                · exact Or.inr h1
              · rw [if_neg hguard] at h
                exact hrec _ h

theorem isPositive_cases (q : Quantity) (h : q.isPositive = true) :
    q = Quantity.infinity ∨ ∃ n, 1 ≤ n ∧ q = Quantity.fin n := by
  cases q with
  | infinity => exact Or.inl rfl
  | fin n =>
      right
      simp only [Quantity.isPositive, decide_eq_true_eq] at h
      exact ⟨n, h, rfl⟩

set_option maxRecDepth 1000000 in
/-- C9, counterexample: a quantity written with 310 digits is read by `parseInt`
as `Infinity`, which passes the guard `quantity > 0`; the candidate has no integer
quantity. -/
theorem extractQuoteInfo_infinite_quantity :
    extractQuoteInfo hugeQuantityMessage =
      [{ productHint := "tarjetas", quantity := Quantity.infinity }] ∧
    ¬ (∀ c ∈ extractQuoteInfo hugeQuantityMessage, ∃ n, 1 ≤ n ∧ c.quantity = Quantity.fin n) := by
  have h : extractQuoteInfo hugeQuantityMessage =
      [{ productHint := "tarjetas", quantity := Quantity.infinity }] := by decide
  refine ⟨h, ?_⟩
  rw [h]
  intro hall
  obtain ⟨n, _, hn⟩ := hall _ (List.mem_singleton.mpr rfl)
  cases hn

/-- C9 amended: every candidate returned by `extractQuoteInfo` has a quantity that
is an integer of at least 1 or is `Infinity`, the latter only when the message
holds a run of digits that writes a number of at least `2 ^ 1023`, and a hint
without white space at its start or end and longer than 2. -/
theorem extractQuoteInfo_candidates (message : String) (c : QuoteLineCandidate)
    (hc : c ∈ extractQuoteInfo message) :
    (c.quantity = Quantity.infinity ∨ ∃ n, 1 ≤ n ∧ c.quantity = Quantity.fin n) ∧
    (c.quantity = Quantity.infinity →
      ∃ pre ds post, message.data = pre ++ ds ++ post ∧ ds ≠ [] ∧
        (∀ d ∈ ds, isDigit d = true) ∧ 2 ^ 1023 ≤ decimalValue ds) ∧
    Trimmed c.productHint.data ∧
    c.productHint.length > 2 := by
  by_cases hprimary : scanQuantities (message.data.length + 1) message.data [] = []
  · -- the candidate comes from the fallback pass
    rw [extractQuoteInfo_of_primary_nil message hprimary] at hc
    cases hexec : exec productPattern message.data with
    | none =>
        rw [hexec] at hc
        exact absurd hc (List.not_mem_nil _)
    | some m =>
        rw [hexec] at hc
        simp only [List.mem_singleton] at hc
        subst hc
        obtain ⟨pre, t, _, hmatch, _⟩ := exec_some productPattern _ m hexec
        obtain ⟨hreads, hmtext⟩ := matchAt_some productPattern t m hmatch
        obtain ⟨hint, ht, w, hw, hsame⟩ := (reads_productPattern _ _).mp hreads
        have hhint : m.text = hint := by
          rw [hmtext, ht, consumed_append]
        have hns := vocabulary_not_space hint w hw hsame
        refine ⟨Or.inr ⟨1, Nat.le_refl 1, rfl⟩, ?_, ⟨?_, ?_⟩, ?_⟩
        · intro h
          cases h
        · intro c hc
          rw [hhint] at hc
          exact hns c (List.mem_of_mem_head? hc)
        · intro c hc
          rw [hhint] at hc
          exact hns c (List.mem_of_mem_getLast? hc)
        · show (String.mk m.text).length > 2
          rw [String.length_mk, hhint]
          exact vocabulary_length hint w hw hsame
  · -- the candidate comes from the primary pass
    have hitems : extractQuoteInfo message =
        scanQuantities (message.data.length + 1) message.data [] := by
      unfold extractQuoteInfo
      have hlen : (scanQuantities (message.data.length + 1) message.data []).length ≠ 0 := by
        intro h0
        exact hprimary (List.length_eq_zero.mp h0)
      simp only [hlen, if_false]
    rw [hitems] at hc
    rcases scanQuantities_mem _ _ _ _ hc with
      h | ⟨hpos, ⟨t, hhint, hlen⟩, pre, ds, post, hmsg, hds, hdigits, hparse⟩
    · exact absurd h (List.not_mem_nil _)
    · refine ⟨isPositive_cases _ hpos, ?_, ?_, ?_⟩
      · intro hinf
        refine ⟨pre, ds, post, hmsg, hds, hdigits, ?_⟩
        have htake : ds.takeWhile isDigit = ds := List.takeWhile_eq_self_iff.mpr hdigits
        have hval : parseInt ds = some (toNumber (decimalValue ds) (4 * ds.length)) := by
          unfold parseInt
          rw [htake]
          cases ds with
          | nil => exact absurd rfl hds
          | cons d ds => rfl
        rw [hval, hinf] at hparse
        simp only [Option.some.injEq] at hparse
        exact toNumber_infinity _ _ hparse
      · rw [hhint]
        exact trim_trimmed t
      · rw [hhint, String.length_mk]
        exact hlen

/-- Witness of C9 amended: the second candidate of a request with two
quantities. -/
theorem extractQuoteInfo_candidates_witness :
    ({ productHint := "lectores", quantity := Quantity.fin 5 } : QuoteLineCandidate) ∈
      extractQuoteInfo "10 tarjetas HID, 5 lectores biométricos" ∧
    ((Quantity.fin 5 = Quantity.infinity ∨ ∃ n, 1 ≤ n ∧ Quantity.fin 5 = Quantity.fin n) ∧
      (Quantity.fin 5 = Quantity.infinity →
        ∃ pre ds post, "10 tarjetas HID, 5 lectores biométricos".data = pre ++ ds ++ post ∧
          ds ≠ [] ∧ (∀ d ∈ ds, isDigit d = true) ∧ 2 ^ 1023 ≤ decimalValue ds) ∧
      Trimmed "lectores".data ∧ "lectores".length > 2) :=
  ⟨by decide,
    extractQuoteInfo_candidates "10 tarjetas HID, 5 lectores biométricos"
      { productHint := "lectores", quantity := Quantity.fin 5 } (by decide)⟩

/-! ## The quote path at the end-to-end example -/

/-- Had the message of the end-to-end example reached `handleQuoteRequest`, the
quote of the example would result: one line of 10 units at 65.50, subtotal and
total 655, and one call of `createQuoteOrder` with that line. -/
theorem handleQuoteRequest_cotizame :
    extractQuoteInfo "Cotízame 10 tarjetas HID ProxCard II" =
      [{ productHint := "tarjetas", quantity := Quantity.fin 10 }] ∧
    ∃ result q,
      (handleQuoteRequest exampleEnv "u1" "Cotízame 10 tarjetas HID ProxCard II" emptyWorld).2 =
        Except.ok result ∧
      result.quote = some q ∧
      q.items = [{ sku := "HID-1326-LMSMV", nombre := "HID ProxCard II", cantidad := 10,
                   precioUnitario := 131 / 2, subtotal := 655 }] ∧
      q.total = 655 ∧
      createQuoteOrderCalls
          (handleQuoteRequest exampleEnv "u1" "Cotízame 10 tarjetas HID ProxCard II"
            emptyWorld).1.calls =
        [("u1", [{ productId := 1, quantity := 10, unitPrice := 131 / 2 }])] := by
  have hlines : resolvedLines exampleEnv "Cotízame 10 tarjetas HID ProxCard II" =
      [{ productId := 1, quantity := 10, unitPrice := 131 / 2, product := proxCard }] := rfl
  obtain ⟨hitems, htotal⟩ := handleQuoteRequest_ok exampleEnv "u1"
    "Cotízame 10 tarjetas HID ProxCard II" emptyWorld _ rfl
  have htotal' := htotal _ rfl
  rw [hlines] at hitems htotal'
  refine ⟨by decide, _, _, rfl, rfl, ?_, ?_, rfl⟩
  · have hq : quoteLines _ = _ := hitems
    simp only [quoteLines] at hq
    rw [hq]
    decide!
  · rw [htotal']
    decide!

/-! ## The decision table of the intents -/

/-- C11: `analyzeIntent` is the ordered decision table quote (0.9), technical
(0.85), product search (0.8) with the default general query (0.5).  On every
message its result is that of the first family with a matching pattern: a quote
pattern gives `quote_request`; a technical pattern and no quote pattern gives
`technical_query`, whether or not a product-search pattern matches; a product-search
pattern alone gives `product_search`; no pattern gives `general_query`.  The
confidence is the one attached to the returned intent and lies in (0, 1]. -/
theorem analyzeIntent_decision_table (message : String) :
    analyzeIntent message =
      firstMatchingRule intentTable { intent := Intent.general_query, confidence := 5 / 10 }
        message ∧
    ((∃ p ∈ QUOTE_PATTERNS, Matches p message) →
      (analyzeIntent message).intent = Intent.quote_request) ∧
    ((¬ ∃ p ∈ QUOTE_PATTERNS, Matches p message) →
      (∃ p ∈ TECHNICAL_PATTERNS, Matches p message) →
      (analyzeIntent message).intent = Intent.technical_query) ∧
    ((¬ ∃ p ∈ QUOTE_PATTERNS, Matches p message) →
      (¬ ∃ p ∈ TECHNICAL_PATTERNS, Matches p message) →
      (∃ p ∈ PRODUCT_SEARCH_PATTERNS, Matches p message) →
      (analyzeIntent message).intent = Intent.product_search) ∧
    ((¬ ∃ p ∈ QUOTE_PATTERNS, Matches p message) →
      (¬ ∃ p ∈ TECHNICAL_PATTERNS, Matches p message) →
      (¬ ∃ p ∈ PRODUCT_SEARCH_PATTERNS, Matches p message) →
      (analyzeIntent message).intent = Intent.general_query) ∧
    (analyzeIntent message).confidence = confidenceOf (analyzeIntent message).intent ∧
    0 < (analyzeIntent message).confidence ∧ (analyzeIntent message).confidence ≤ 1 := by
  have hq := any_test_eq_true_iff QUOTE_PATTERNS message
  have ht := any_test_eq_true_iff TECHNICAL_PATTERNS message
  have hs := any_test_eq_true_iff PRODUCT_SEARCH_PATTERNS message
  rw [← hq, ← ht, ← hs]
  cases hqb : QUOTE_PATTERNS.any (fun pattern => test pattern message) <;>
  cases htb : TECHNICAL_PATTERNS.any (fun pattern => test pattern message) <;>
  cases hsb : PRODUCT_SEARCH_PATTERNS.any (fun pattern => test pattern message) <;>
  simp only [analyzeIntent, firstMatchingRule, intentTable, List.find?, hqb, htb, hsb,
    confidenceOf] <;>
  norm_num

/-- Witness of C11: "especificaciones del lector" matches a technical pattern and a
product-search pattern but no quote pattern, and is a technical query. -/
theorem analyzeIntent_decision_table_witness :
    (¬ ∃ p ∈ QUOTE_PATTERNS, Matches p "especificaciones del lector") ∧
    (∃ p ∈ TECHNICAL_PATTERNS, Matches p "especificaciones del lector") ∧
    (∃ p ∈ PRODUCT_SEARCH_PATTERNS, Matches p "especificaciones del lector") ∧
    (analyzeIntent "especificaciones del lector").intent = Intent.technical_query :=
  have hq : ¬ ∃ p ∈ QUOTE_PATTERNS, Matches p "especificaciones del lector" := by
    rw [← any_test_eq_true_iff]; decide
  have ht : ∃ p ∈ TECHNICAL_PATTERNS, Matches p "especificaciones del lector" := by
    rw [← any_test_eq_true_iff]; decide
  have hs : ∃ p ∈ PRODUCT_SEARCH_PATTERNS, Matches p "especificaciones del lector" := by
    rw [← any_test_eq_true_iff]; decide
  ⟨hq, ht, hs, (analyzeIntent_decision_table "especificaciones del lector").2.2.1 hq ht⟩

/-! ## Quantity phrases and the quote patterns -/

theorem charMatches_of_isDigit (c : Char) (h : isDigit c = true) :
    charMatches digitClass c = true := by
  simp only [isDigit, decide_eq_true_eq] at h
  have hc : canonicalize c = c.toNat := by
    unfold canonicalize
    rw [if_neg]
    omega
  have hall : ∀ n < 58, 48 ≤ n → ∃ a ∈ digitClass, canonicalize a = n := by decide
  obtain ⟨a, ha, hn⟩ := hall c.toNat (by omega) h.1
  simp only [charMatches, List.any_eq_true, beq_iff_eq]
  exact ⟨a, ha, by rw [hn, hc]⟩

theorem charMatches_of_isWhiteSpace (c : Char) (h : isWhiteSpace c = true) :
    charMatches spaceClass c = true := by
  simp only [isWhiteSpace, List.contains_iff_exists_mem_beq, beq_iff_eq] at h
  obtain ⟨a, ha, hca⟩ := h
  simp only [charMatches, List.any_eq_true, beq_iff_eq]
  exact ⟨a, ha, by rw [hca]⟩

theorem sameIgnoringCase_refl (u : List Char) : SameIgnoringCase u u :=
  List.forall₂_same.mpr (fun _ _ => rfl)

theorem analyzeIntent_of_quote (message : String)
    (hq : ∃ p ∈ QUOTE_PATTERNS, Matches p message) :
    (analyzeIntent message).intent = Intent.quote_request := by
  have h : QUOTE_PATTERNS.any (fun pattern => test pattern message) = true :=
    (any_test_eq_true_iff _ _).mpr hq
  simp only [analyzeIntent, h, if_true]

/-- A text that contains a quantity phrase of the quote patterns matches one of
`/necesito \d+/i`, `/dame \d+/i` and `/\d+\s*(piezas|unidades|licencias)/i`. -/
theorem matches_of_quotedQuantity (message : String) (pre phrase post : List Char)
    (hmsg : message.data = pre ++ phrase ++ post) (hphrase : QuotedQuantity phrase) :
    ∃ p ∈ QUOTE_PATTERNS, Matches p message := by
  rcases hphrase with ⟨verb, d, hverb, hd, rfl⟩ | ⟨ds, ws, word, hne, hds, hws, ⟨w, hw, hsame⟩, rfl⟩
  · have hdigit : Reads (Regex.plus digitClass) ([d] ++ post) post :=
      ⟨[d], by simp, rfl, by
        intro c hc
        rw [List.mem_singleton.mp hc]
        exact charMatches_of_isDigit d hd⟩
    rcases hverb with hverb | hverb
    · refine ⟨Regex.seq (lit "necesito ") (Regex.plus digitClass), by simp [QUOTE_PATTERNS],
        pre, verb ++ [d] ++ post, post, by simp [hmsg], [d] ++ post, ?_, hdigit⟩
      exact (reads_litChars _ _ _).mpr ⟨verb, by simp, hverb⟩
    · refine ⟨Regex.seq (lit "dame ") (Regex.plus digitClass), by simp [QUOTE_PATTERNS],
        pre, verb ++ [d] ++ post, post, by simp [hmsg], [d] ++ post, ?_, hdigit⟩
      exact (reads_litChars _ _ _).mpr ⟨verb, by simp, hverb⟩
  · refine ⟨Regex.seq (Regex.plus digitClass) (Regex.seq (Regex.star spaceClass)
        (Regex.group 1 (alts [lit "piezas", lit "unidades", lit "licencias"]))),
      by simp [QUOTE_PATTERNS], pre, ds ++ ws ++ word ++ post, post, by simp [hmsg],
      ws ++ word ++ post, ?_, word ++ post, ?_, ?_⟩
    · exact ⟨ds, hne, by simp, fun c hc => charMatches_of_isDigit c (hds c hc)⟩
    · exact ⟨ws, by simp, fun c hc => charMatches_of_isWhiteSpace c (hws c hc)⟩
    · show Reads (alts [lit "piezas", lit "unidades", lit "licencias"]) (word ++ post) post
      rw [reads_alts _ (by simp)]
      refine ⟨lit w, ?_, (reads_litChars _ _ _).mpr ⟨word, rfl, hsame⟩⟩
      simp only [unitWords, List.mem_cons, List.mem_singleton, List.not_mem_nil, or_false] at hw
      rcases hw with rfl | rfl | rfl <;> simp

/-- C12, counterexample: the primary pass of `extractQuoteInfo` yields the candidate
(5, "lectores") from "5 lectores compatibles", the message matches the technical
pattern `/compatib(le|ilidad)/i`, and `analyzeIntent` returns `technical_query`,
not `quote_request`. -/
theorem analyzeIntent_bare_quantity :
    scanQuantities ("5 lectores compatibles".data.length + 1) "5 lectores compatibles".data [] =
      [{ productHint := "lectores", quantity := Quantity.fin 5 }] ∧
    (∃ p ∈ TECHNICAL_PATTERNS, Matches p "5 lectores compatibles") ∧
    (analyzeIntent "5 lectores compatibles").intent = Intent.technical_query ∧
    (analyzeIntent "5 lectores compatibles").intent ≠ Intent.quote_request := by
  refine ⟨by decide, ?_, by decide, by decide⟩
  rw [← any_test_eq_true_iff]
  decide

/-- C12 amended: a message that contains a quantity phrase of the quote patterns
(`necesito` or `dame` followed by a blank and a digit, or digits followed by
optional white space and `piezas`, `unidades` or `licencias`, in any letter case)
and that also matches a technical-query pattern is classified `quote_request`, not
`technical_query`. -/
theorem analyzeIntent_quoted_quantity (message : String) (pre phrase post : List Char)
    (hmsg : message.data = pre ++ phrase ++ post) (hphrase : QuotedQuantity phrase)
    (_ht : ∃ p ∈ TECHNICAL_PATTERNS, Matches p message) :
    (analyzeIntent message).intent = Intent.quote_request ∧
      (analyzeIntent message).intent ≠ Intent.technical_query := by
  rw [analyzeIntent_of_quote message (matches_of_quotedQuantity message pre phrase post hmsg hphrase)]
  exact ⟨rfl, by decide⟩

/-- Witness of C12 amended: "5 unidades de lectores compatibles" holds the quantity
phrase `5 unidades` and matches the technical pattern `/compatib(le|ilidad)/i`. -/
theorem analyzeIntent_quoted_quantity_witness :
    "5 unidades de lectores compatibles".data =
      [] ++ "5 unidades".data ++ " de lectores compatibles".data ∧
    QuotedQuantity "5 unidades".data ∧
    (∃ p ∈ TECHNICAL_PATTERNS, Matches p "5 unidades de lectores compatibles") ∧
    (analyzeIntent "5 unidades de lectores compatibles").intent = Intent.quote_request ∧
    (analyzeIntent "5 unidades de lectores compatibles").intent ≠ Intent.technical_query :=
  have hphrase : QuotedQuantity "5 unidades".data :=
    Or.inr ⟨"5".data, " ".data, "unidades".data, by decide, by decide, by decide,
      ⟨"unidades", by decide, sameIgnoringCase_refl _⟩, rfl⟩
  have ht : ∃ p ∈ TECHNICAL_PATTERNS, Matches p "5 unidades de lectores compatibles" := by
    rw [← any_test_eq_true_iff]; decide
  ⟨rfl, hphrase, ht,
    analyzeIntent_quoted_quantity "5 unidades de lectores compatibles" []
      "5 unidades".data " de lectores compatibles".data rfl hphrase ht⟩

/-! ## The guard of `generateEmbedding` -/

/-- C13: `generateEmbedding` returns a vector exactly when the provider delivered
an embedding that has a list of values, and then returns that list whatever its
length; in the other cases (provider failure, embedding absent, values absent) it
raises an error.  With the provider result `{ embedding: { values: [] } }` it
returns the empty vector `[]` and raises nothing. -/
theorem generateEmbedding_empty_values (env : Env) (text : String) (w : World) :
    (∀ values, (generateEmbedding env text w).2 = Except.ok values ↔
      ∃ result embedding, env.embedContent text = Except.ok result ∧
        result.embedding = some embedding ∧ embedding.values = some values) ∧
    ((∀ values, (generateEmbedding env text w).2 ≠ Except.ok values) ↔
      ∃ msg, (generateEmbedding env text w).2 = Except.error msg) ∧
    emptyVectorEnv.embedContent text = Except.ok { embedding := some { values := some [] } } ∧
    (generateEmbedding emptyVectorEnv text w).2 = Except.ok [] := by
  refine ⟨?_, ?_, rfl, rfl⟩
  · intro values
    unfold generateEmbedding
    cases hcall : env.embedContent text with
    | error msg => simp
    | ok result =>
        obtain ⟨embedding⟩ := result
        cases embedding with
        | none => simp
        | some embedding =>
            obtain ⟨vals⟩ := embedding
            cases vals with
            | none => simp
            | some vals => simp
  · cases h : (generateEmbedding env text w).2 with
    | error msg => simp
    | ok values => simp

/-! ## Failures of the providers in the quote path -/

/-- The top-1 search of a hint fails when its embedding call fails and when, the
embedding obtained, its similarity search fails (from whatever states the two calls
start). -/
theorem searchTop1_error_of_failure (env : Env) (hint : String) (w0 w1 : World)
    (hfail : (∃ msg, (generateEmbedding env hint w0).2 = Except.error msg) ∨
      (∃ embedding msg, (generateEmbedding env hint w0).2 = Except.ok embedding ∧
        (searchProductsBySimilarity env embedding 1 w1).2 = Except.error msg)) :
    ∃ msg, searchTop1 env hint = Except.error msg := by
  rcases hfail with ⟨msg, h⟩ | ⟨embedding, msg, h, hs⟩
  · rw [generateEmbedding_snd env hint w0 emptyWorld] at h
    exact ⟨msg, by simp only [searchTop1, h]⟩
  · rw [generateEmbedding_snd env hint w0 emptyWorld] at h
    rw [searchProductsBySimilarity_snd env embedding 1 w1 emptyWorld] at hs
    exact ⟨msg, by simp only [searchTop1, h, hs]⟩

theorem processMessage_of_quote (env : Env) (userId message : String) (w : World)
    (hintent : (analyzeIntent message).intent = Intent.quote_request) :
    processMessage env userId message w = handleQuoteRequest env userId message w := by
  simp only [processMessage, hintent, if_true]

theorem processMessage_of_not_quote (env : Env) (userId message : String) (w : World)
    (hintent : (analyzeIntent message).intent ≠ Intent.quote_request) :
    processMessage env userId message w = handleRAGQuery env userId message w := by
  simp only [processMessage, hintent, if_false]

/-- C14: in the quote path, when the embedding call or the similarity search fails
for some candidate of the message, whatever its position among the candidates,
`processMessage` raises an error and returns no result (so no partial quote),
`createQuoteOrder` is not called and the store is left as it was. -/
theorem processMessage_search_failure (env : Env) (userId message : String) (w w0 w1 : World)
    (c : QuoteLineCandidate)
    (hintent : (analyzeIntent message).intent = Intent.quote_request)
    (hc : c ∈ extractQuoteInfo message)
    (hfail : (∃ msg, (generateEmbedding env c.productHint w0).2 = Except.error msg) ∨
      (∃ embedding msg, (generateEmbedding env c.productHint w0).2 = Except.ok embedding ∧
        (searchProductsBySimilarity env embedding 1 w1).2 = Except.error msg)) :
    (∃ msg, (processMessage env userId message w).2 = Except.error msg) ∧
    (∀ result, (processMessage env userId message w).2 ≠ Except.ok result) ∧
    createQuoteOrderCalls (processMessage env userId message w).1.calls =
      createQuoteOrderCalls w.calls ∧
    (processMessage env userId message w).1.db = w.db := by
  obtain ⟨msg, hmsg⟩ := searchTop1_error_of_failure env c.productHint w0 w1 hfail
  have hnot : ¬ AllSearched env message := by
    intro hall
    obtain ⟨r, hr⟩ := hall c hc
    rw [hmsg] at hr
    cases hr
  rw [processMessage_of_quote env userId message w hintent]
  obtain ⟨hquiet, err, herr⟩ := (handleQuoteRequest_spec env userId message w).1 hnot
  refine ⟨⟨err, herr⟩, ?_, hquiet.2, hquiet.1⟩
  intro result hres
  rw [herr] at hres
  cases hres

/-- Witness of C14: with a provider that fails on "lectores", the message
"cotiza 10 tarjetas, 5 lectores" has the candidates (10, "tarjetas"), which resolves
to a line, and (5, "lectores"), whose embedding call fails; `processMessage` raises
the error of that call and the store stays empty. -/
theorem processMessage_search_failure_witness :
    (analyzeIntent "cotiza 10 tarjetas, 5 lectores").intent = Intent.quote_request ∧
    extractQuoteInfo "cotiza 10 tarjetas, 5 lectores" =
      [{ productHint := "tarjetas", quantity := Quantity.fin 10 },
       { productHint := "lectores", quantity := Quantity.fin 5 }] ∧
    (candidateLine failingEnv { productHint := "tarjetas", quantity := Quantity.fin 10 }).isSome =
      true ∧
    (processMessage failingEnv "u1" "cotiza 10 tarjetas, 5 lectores" emptyWorld).2 =
      Except.error "Error en Gemini API (embedding): 503 Service Unavailable" ∧
    ((∃ msg, (processMessage failingEnv "u1" "cotiza 10 tarjetas, 5 lectores" emptyWorld).2 =
        Except.error msg) ∧
      (∀ result, (processMessage failingEnv "u1" "cotiza 10 tarjetas, 5 lectores" emptyWorld).2 ≠
        Except.ok result) ∧
      createQuoteOrderCalls
          (processMessage failingEnv "u1" "cotiza 10 tarjetas, 5 lectores" emptyWorld).1.calls =
        createQuoteOrderCalls emptyWorld.calls ∧
      (processMessage failingEnv "u1" "cotiza 10 tarjetas, 5 lectores" emptyWorld).1.db =
        emptyWorld.db) :=
  ⟨by decide, by decide, rfl, rfl,
    processMessage_search_failure failingEnv "u1" "cotiza 10 tarjetas, 5 lectores" emptyWorld
      emptyWorld emptyWorld { productHint := "lectores", quantity := Quantity.fin 5 }
      (by decide) (by decide) (Or.inl ⟨_, rfl⟩)⟩

/-! ## Quote requests without candidates -/

/-- C15: for a message classified `quote_request` from which `extractQuoteInfo`
returns no candidate, `processMessage` returns, without raising, the fixed
clarification text alone (no products, no quote) and leaves the state as it was:
no call of a provider or of the store is recorded. -/
theorem processMessage_clarification (env : Env) (userId message : String) (w : World)
    (hintent : (analyzeIntent message).intent = Intent.quote_request)
    (hnone : extractQuoteInfo message = []) :
    processMessage env userId message w =
      (w, Except.ok
        { response := "No pude identificar qué productos deseas cotizar. Por favor, especifica el producto y la cantidad. Ejemplo: \"Cotízame 10 tarjetas HID ProxCard II\"",
          products := none, quote := none }) ∧
    (processMessage env userId message w).1.calls = w.calls ∧
    (processMessage env userId message w).1.db = w.db := by
  have key : processMessage env userId message w =
      (w, Except.ok
        { response := "No pude identificar qué productos deseas cotizar. Por favor, especifica el producto y la cantidad. Ejemplo: \"Cotízame 10 tarjetas HID ProxCard II\"",
          products := none, quote := none }) := by
    rw [processMessage_of_quote env userId message w hintent]
    simp only [handleQuoteRequest, hnone, List.length_nil, if_true]
  rw [key]
  exact ⟨rfl, rfl, rfl⟩

/-- Witness of C15: "quiero comprar algo" is a quote request without a quantity
phrase and without a word of the fallback vocabulary. -/
theorem processMessage_clarification_witness :
    (analyzeIntent "quiero comprar algo").intent = Intent.quote_request ∧
    extractQuoteInfo "quiero comprar algo" = [] ∧
    processMessage failingEnv "u1" "quiero comprar algo" emptyWorld =
      (emptyWorld, Except.ok
        { response := "No pude identificar qué productos deseas cotizar. Por favor, especifica el producto y la cantidad. Ejemplo: \"Cotízame 10 tarjetas HID ProxCard II\"",
          products := none, quote := none }) ∧
    (processMessage failingEnv "u1" "quiero comprar algo" emptyWorld).1.calls =
      emptyWorld.calls ∧
    (processMessage failingEnv "u1" "quiero comprar algo" emptyWorld).1.db = emptyWorld.db :=
  ⟨by decide, by decide,
    processMessage_clarification failingEnv "u1" "quiero comprar algo" emptyWorld
      (by decide) (by decide)⟩

/-! ## The fields of a result -/

theorem handleRAGQuery_ok (env : Env) (userId message : String) (w : World)
    (result : ChatResult) (h : (handleRAGQuery env userId message w).2 = Except.ok result) :
    ∃ embedding retrieved response,
      (generateEmbedding env message w).2 = Except.ok embedding ∧
      (searchProductsBySimilarity env embedding env.maxResults
        (generateEmbedding env message w).1).2 = Except.ok retrieved ∧
      result = { response := response, products := some (retrieved.map summaryOf),
                 quote := none } := by
  unfold handleRAGQuery at h
  rcases hge : generateEmbedding env message w with ⟨w1, msg | queryEmbedding⟩
  · rw [hge] at h
    cases h
  · rw [hge] at h
    simp only at h
    rcases hs : searchProductsBySimilarity env queryEmbedding env.maxResults w1 with
      ⟨w2, msg | similarProducts⟩
    · rw [hs] at h
      cases h
    · rw [hs] at h
      simp only at h
      rcases hr : generateResponse env SYSTEM_PROMPT (buildContext env similarProducts) message
          w2 with ⟨w3, msg | response⟩
      · rw [hr] at h
        cases h
      · rw [hr] at h
        simp only [Except.ok.injEq] at h
        refine ⟨queryEmbedding, similarProducts, response, rfl, ?_, ?_⟩
        · rw [hs]
        · rw [← h]
          rfl

theorem createQuoteOrderCalls_ne_append (xs : List Call) (y : String × List OrderItem) :
    createQuoteOrderCalls xs ≠ createQuoteOrderCalls xs ++ [y] := by
  intro h
  have hlen := congrArg List.length h
  simp at hlen

/-- C16: on every message on which `processMessage` succeeds, the result has the
field `products` exactly when the intent is not `quote_request`, and the field
`quote` exactly when `createQuoteOrder` was called; in that case the call succeeded
and built the order whose identifier the quote carries, and otherwise the store is
left as it was.  When `products` is present it holds one element per product
returned by the similarity search for the embedding of the message, in the same
order. -/
theorem processMessage_result_fields (env : Env) (userId message : String) (w : World)
    (result : ChatResult)
    (h : (processMessage env userId message w).2 = Except.ok result) :
    (result.products.isSome = true ↔ (analyzeIntent message).intent ≠ Intent.quote_request) ∧
    (result.quote.isSome = true ↔
      ∃ items, createQuoteOrderCalls (processMessage env userId message w).1.calls =
        createQuoteOrderCalls w.calls ++ [(userId, items)]) ∧
    (∀ q, result.quote = some q →
      OrderBuilt env userId w (processMessage env userId message w).1 q.orderId) ∧
    (result.quote = none →
      createQuoteOrderCalls (processMessage env userId message w).1.calls =
        createQuoteOrderCalls w.calls ∧
      (processMessage env userId message w).1.db = w.db) ∧
    (∀ products, result.products = some products →
      ∃ embedding retrieved,
        (generateEmbedding env message w).2 = Except.ok embedding ∧
        (searchProductsBySimilarity env embedding env.maxResults
          (generateEmbedding env message w).1).2 = Except.ok retrieved ∧
        products = retrieved.map summaryOf ∧
        products.length = retrieved.length) := by
  by_cases hintent : (analyzeIntent message).intent = Intent.quote_request
  · rw [processMessage_of_quote env userId message w hintent] at h ⊢
    obtain ⟨hfail, hempty, hlines⟩ := handleQuoteRequest_spec env userId message w
    by_cases hall : AllSearched env message
    · by_cases hl : resolvedLines env message = []
      · obtain ⟨hquiet, response, hres⟩ := hempty hall hl
        rw [hres] at h
        simp only [Except.ok.injEq] at h
        subst h
        refine ⟨by simp [hintent], ?_, (by intro q hq; cases hq), fun _ => ⟨hquiet.2, hquiet.1⟩,
          (by intro products hp; cases hp)⟩
        simp only [Option.isSome_none, Bool.false_eq_true, false_iff, not_exists]
        intro items hcalls
        rw [hquiet.2] at hcalls
        exact createQuoteOrderCalls_ne_append _ _ hcalls
      · obtain ⟨w1, hquiet, hworld, herr, hok⟩ := hlines hall hl
        cases hco : (createQuoteOrder env userId ((resolvedLines env message).map orderItemOf)
            w1).2 with
        | error msg =>
            rw [herr msg hco] at h
            cases h
        | ok order =>
            obtain ⟨response, hres⟩ := hok order hco
            rw [hres] at h
            simp only [Except.ok.injEq] at h
            subst h
            have hcalls : createQuoteOrderCalls (handleQuoteRequest env userId message w).1.calls =
                createQuoteOrderCalls w.calls ++
                  [(userId, (resolvedLines env message).map orderItemOf)] := by
              rw [hworld, createQuoteOrder_calls, createQuoteOrderCalls_append, hquiet.2]
              rfl
            refine ⟨by simp [hintent], ⟨fun _ => ⟨_, hcalls⟩, fun _ => rfl⟩, ?_, ?_,
              (by intro products hp; cases hp)⟩
            · intro q hq
              simp only [Option.some.injEq] at hq
              subst hq
              refine ⟨w1, (resolvedLines env message).map orderItemOf, order, hquiet, ?_, rfl⟩
              rw [hworld, ← hco]
            · intro hq
              cases hq
    · obtain ⟨_, msg, hmsg⟩ := hfail hall
      rw [hmsg] at h
      cases h
  · rw [processMessage_of_not_quote env userId message w hintent] at h ⊢
    obtain ⟨hquiet, hnone⟩ := handleRAGQuery_no_quote env userId message w
    obtain ⟨embedding, retrieved, response, hemb, hsearch, hres⟩ :=
      handleRAGQuery_ok env userId message w result h
    subst hres
    refine ⟨by simp [hintent], ?_, (by intro q hq; cases hq), fun _ => ⟨hquiet.2, hquiet.1⟩, ?_⟩
    · simp only [Option.isSome_none, Bool.false_eq_true, false_iff, not_exists]
      intro items hcalls
      rw [hquiet.2] at hcalls
      exact createQuoteOrderCalls_ne_append _ _ hcalls
    · intro products hp
      simp only [Option.some.injEq] at hp
      subst hp
      exact ⟨embedding, retrieved, hemb, hsearch, rfl, by simp⟩

/-- Witness of C16: "cotiza 10 tarjetas" takes the quote path and succeeds with a
quote and no products; "busco un lector" takes the retrieval path and succeeds with
the products of the search and no quote. -/
theorem processMessage_result_fields_witness :
    (∃ result,
      (processMessage exampleEnv "u1" "cotiza 10 tarjetas" emptyWorld).2 = Except.ok result ∧
      result.products = none ∧ result.quote.isSome = true ∧
      (result.products.isSome = true ↔
        (analyzeIntent "cotiza 10 tarjetas").intent ≠ Intent.quote_request) ∧
      (result.quote.isSome = true ↔
        ∃ items,
          createQuoteOrderCalls
              (processMessage exampleEnv "u1" "cotiza 10 tarjetas" emptyWorld).1.calls =
            createQuoteOrderCalls emptyWorld.calls ++ [("u1", items)])) ∧
    (∃ result,
      (processMessage exampleEnv "u1" "busco un lector" emptyWorld).2 = Except.ok result ∧
      result.products = some [summaryOf proxCard] ∧ result.quote = none ∧
      (result.products.isSome = true ↔
        (analyzeIntent "busco un lector").intent ≠ Intent.quote_request) ∧
      (result.quote.isSome = true ↔
        ∃ items,
          createQuoteOrderCalls
              (processMessage exampleEnv "u1" "busco un lector" emptyWorld).1.calls =
            createQuoteOrderCalls emptyWorld.calls ++ [("u1", items)])) :=
  ⟨⟨_, rfl, rfl, rfl,
      (processMessage_result_fields exampleEnv "u1" "cotiza 10 tarjetas" emptyWorld _ rfl).1,
      (processMessage_result_fields exampleEnv "u1" "cotiza 10 tarjetas" emptyWorld _ rfl).2.1⟩,
    ⟨_, rfl, rfl, rfl,
      (processMessage_result_fields exampleEnv "u1" "busco un lector" emptyWorld _ rfl).1,
      (processMessage_result_fields exampleEnv "u1" "busco un lector" emptyWorld _ rfl).2.1⟩⟩

/-! ## The ranking of the similarity query -/

theorem similaritySelect_spec (catalog : Catalog) (query : List ℚ) (limit : Nat) :
    (similaritySelect catalog query limit).length ≤ limit ∧
    (∀ p ∈ similaritySelect catalog query limit,
      ∃ row ∈ catalog.productos, row.es_activo = true ∧ 0 < row.stock_actual ∧
        p = selectRow catalog query row) ∧
    (similaritySelect catalog query limit).Pairwise (fun a b => a.distancia ≤ b.distancia) := by
  haveI : IsTotal Product (fun a b => a.distancia ≤ b.distancia) :=
    ⟨fun a b => le_total a.distancia b.distancia⟩
  haveI : IsTrans Product (fun a b => a.distancia ≤ b.distancia) :=
    ⟨fun _ _ _ hab hbc => le_trans hab hbc⟩
  refine ⟨?_, ?_, ?_⟩
  · unfold similaritySelect
    rw [List.length_take]
    exact Nat.min_le_left _ _
  · intro p hp
    have hmem := (List.mem_insertionSort _).mp (List.mem_of_mem_take hp)
    obtain ⟨row, hrow, rfl⟩ := List.mem_map.mp hmem
    obtain ⟨hin, hcond⟩ := List.mem_filter.mp hrow
    simp only [isRetrievable, Bool.and_eq_true, decide_eq_true_eq] at hcond
    exact ⟨row, hin, hcond.1, hcond.2, rfl⟩
  · exact List.Pairwise.sublist (List.take_sublist _ _)
      (List.sorted_insertionSort (fun a b : Product => a.distancia ≤ b.distancia) _)

/-- C17: when the store runs the statement of `searchProductsBySimilarity` on its
catalog, the function returns, for every query vector and every limit `k` (so for
every `k ≥ 1`), at most `k` products, each of them a row of the table that is active
and has stock above 0, in an order in which the distance to the query never
decreases. -/
theorem searchProductsBySimilarity_ranked (env : Env) (catalog : Catalog)
    (embedding : List ℚ) (k : Nat) (w : World)
    (hstore : env.similarityQuery embedding k =
      Except.ok (similaritySelect catalog embedding k)) :
    ∃ products,
      (searchProductsBySimilarity env embedding k w).2 = Except.ok products ∧
      products.length ≤ k ∧
      (∀ p ∈ products,
        ∃ row ∈ catalog.productos, row.es_activo = true ∧ 0 < row.stock_actual ∧
          p = selectRow catalog embedding row) ∧
      (∀ p ∈ products, 0 < p.stock_actual) ∧
      products.Pairwise (fun a b => a.distancia ≤ b.distancia) ∧
      (∀ i j (hi : i < products.length) (hj : j < products.length), i ≤ j →
        (products.get ⟨i, hi⟩).distancia ≤ (products.get ⟨j, hj⟩).distancia) := by
  obtain ⟨hlen, hrows, hsorted⟩ := similaritySelect_spec catalog embedding k
  refine ⟨similaritySelect catalog embedding k, ?_, hlen, hrows, ?_, hsorted, ?_⟩
  · simp only [searchProductsBySimilarity, hstore]
  · intro p hp
    obtain ⟨row, _, _, hstock, rfl⟩ := hrows p hp
    exact hstock
  · intro i j hi hj hij
    rcases Nat.lt_or_eq_of_le hij with hlt | rfl
    · exact List.pairwise_iff_get.mp hsorted ⟨i, hi⟩ ⟨j, hj⟩ hlt
    · exact le_refl _

/-- Witness of C17: on the catalog of the examples, whose rows 2 and 3 are inactive
or out of stock, the two nearest products of the query `[3]` are the rows 4 and 5, at
the distances 1 and 3. -/
theorem searchProductsBySimilarity_ranked_witness :
    (catalogEnv exampleCatalog).similarityQuery [3] 2 =
      Except.ok (similaritySelect exampleCatalog [3] 2) ∧
    (similaritySelect exampleCatalog [3] 2).map (fun p => (p.id, p.distancia)) =
      [(4, 1), (5, 3)] ∧
    ∃ products,
      (searchProductsBySimilarity (catalogEnv exampleCatalog) [3] 2 emptyWorld).2 =
        Except.ok products ∧
      products.length ≤ 2 ∧
      (∀ p ∈ products, 0 < p.stock_actual) ∧
      products.Pairwise (fun a b => a.distancia ≤ b.distancia) := by
  obtain ⟨products, hok, hlen, _, hstock, hsorted, _⟩ :=
    searchProductsBySimilarity_ranked (catalogEnv exampleCatalog) exampleCatalog [3] 2
      emptyWorld rfl
  refine ⟨rfl, ?_, products, hok, hlen, hstock, hsorted⟩
  simp [similaritySelect, exampleCatalog, isRetrievable, selectRow, List.insertionSort,
    List.orderedInsert]
  norm_num

/-! ## The context text -/

theorem occurs_append_left (part whole a : String) (h : Occurs part whole) :
    Occurs part (a ++ whole) := by
  obtain ⟨pre, post, rfl⟩ := h
  exact ⟨a ++ pre, post, by rw [String.append_assoc]⟩

theorem occurs_at_start (x y z rest : String) :
    Occurs (x ++ (y ++ z)) (x ++ (y ++ (z ++ rest))) :=
  ⟨"", rest, by simp only [String.empty_append, String.append_assoc]⟩

theorem startsWith_of_append (x y z rest : String) :
    StartsWith (x ++ (y ++ (z ++ rest))) (x ++ (y ++ z)) :=
  ⟨rest, by simp only [String.append_assoc]⟩

theorem intercalate_go_data (sep : String) :
    ∀ (l : List String) (acc : String),
      (String.intercalate.go acc sep l).data =
        acc.data ++ l.flatMap (fun a => sep.data ++ a.data) := by
  intro l
  induction l with
  | nil => intro acc; simp [String.intercalate.go]
  | cons a l ih =>
      intro acc
      simp [String.intercalate.go, ih, String.data_append, List.append_assoc]

theorem contextBlocks_length (env : Env) :
    ∀ (products : List Product) (index : Nat),
      (contextBlocks env index products).length = products.length := by
  intro products
  induction products with
  | nil => intro index; rfl
  | cons p rest ih => intro index; simp [contextBlocks, ih]

theorem contextBlocks_get (env : Env) :
    ∀ (products : List Product) (index i : Nat) (hi : i < products.length)
      (hb : i < (contextBlocks env index products).length),
      (contextBlocks env index products).get ⟨i, hb⟩ =
        contextBlock env (index + i) (products.get ⟨i, hi⟩) := by
  intro products
  induction products with
  | nil => intro index i hi; exact absurd hi (Nat.not_lt_zero _)
  | cons p rest ih =>
      intro index i hi hb
      cases i with
      | zero => rfl
      | succ i =>
          have := ih (index + 1) i (Nat.lt_of_succ_lt_succ hi)
            (by simpa [contextBlocks] using hb)
          simp only [contextBlocks, List.get_cons_succ] at this ⊢
          rw [this]
          congr 1
          omega

theorem contextBlock_fields (env : Env) (index : Nat) (p : Product) :
    StartsWith (contextBlock env index p) ("\nPRODUCTO " ++ toString (index + 1) ++ ":\n") ∧
    Occurs ("- SKU: " ++ p.sku ++ "\n") (contextBlock env index p) ∧
    Occurs ("- Nombre: " ++ p.nombre ++ "\n") (contextBlock env index p) ∧
    Occurs ("- Marca: " ++ p.marca ++ "\n") (contextBlock env index p) ∧
    Occurs ("- Descripción: " ++ p.descripcion ++ "\n") (contextBlock env index p) ∧
    Occurs ("- Precio: $" ++ env.showNumber p.precio_lista ++ "\n") (contextBlock env index p) ∧
    Occurs ("- Stock: " ++ toString p.stock_actual ++ " unidades\n")
      (contextBlock env index p) := by
  simp only [contextBlock, String.append_assoc]
  refine ⟨startsWith_of_append _ _ _ _, ?_, ?_, ?_, ?_, ?_, ?_⟩ <;>
  repeat (first | exact occurs_at_start _ _ _ _ | apply occurs_append_left)

theorem contextBlock_head (env : Env) (index : Nat) (p : Product) :
    (contextBlock env index p).data.head? = some '\n' := by
  obtain ⟨rest, hrest⟩ : StartsWith (contextBlock env index p) "\nPRODUCTO " := by
    simp only [contextBlock, String.append_assoc]
    exact ⟨_, rfl⟩
  rw [hrest, String.data_append]
  rfl

theorem buildContext_ne_sentinel (env : Env) (p : Product) (rest : List Product) :
    buildContext env (p :: rest) ≠ "No se encontraron productos relevantes en el catálogo." := by
  intro h
  have hdata := congrArg (fun s => s.data.head?) h
  simp only [buildContext, List.length_cons, Nat.succ_ne_zero, if_false, contextBlocks,
    String.intercalate, intercalate_go_data, List.head?_append] at hdata
  rw [contextBlock_head] at hdata
  simp at hdata

/-- C18: `buildContext` returns the sentinel text exactly when the sequence of
products is empty.  For `n ≥ 1` products it returns `n` blocks joined by the
separator line `---`; the block at position `i` (from 0) starts with the heading
`PRODUCTO i+1:` and holds the lines of the SKU, name, brand, description, price and
stock of the product at position `i`, whether or not the product has a
specification map; without one the list of specifications of the block is empty. -/
theorem buildContext_blocks (env : Env) (products : List Product) :
    (buildContext env products = "No se encontraron productos relevantes en el catálogo." ↔
      products = []) ∧
    ∃ blocks : List String,
      blocks.length = products.length ∧
      (products ≠ [] → buildContext env products = String.intercalate "\n---\n" blocks) ∧
      ∀ i (hi : i < products.length) (hb : i < blocks.length),
        StartsWith (blocks.get ⟨i, hb⟩) ("\nPRODUCTO " ++ toString (i + 1) ++ ":\n") ∧
        Occurs ("- SKU: " ++ (products.get ⟨i, hi⟩).sku ++ "\n") (blocks.get ⟨i, hb⟩) ∧
        Occurs ("- Nombre: " ++ (products.get ⟨i, hi⟩).nombre ++ "\n") (blocks.get ⟨i, hb⟩) ∧
        Occurs ("- Marca: " ++ (products.get ⟨i, hi⟩).marca ++ "\n") (blocks.get ⟨i, hb⟩) ∧
        Occurs ("- Descripción: " ++ (products.get ⟨i, hi⟩).descripcion ++ "\n")
          (blocks.get ⟨i, hb⟩) ∧
        Occurs ("- Precio: $" ++ env.showNumber (products.get ⟨i, hi⟩).precio_lista ++ "\n")
          (blocks.get ⟨i, hb⟩) ∧
        Occurs ("- Stock: " ++ toString (products.get ⟨i, hi⟩).stock_actual ++ " unidades\n")
          (blocks.get ⟨i, hb⟩) ∧
        ((products.get ⟨i, hi⟩).especificaciones_tecnicas = none →
          Occurs "- Especificaciones:\n\n- Relevancia: " (blocks.get ⟨i, hb⟩)) := by
  refine ⟨?_, contextBlocks env 0 products, contextBlocks_length env products 0, ?_, ?_⟩
  · constructor
    · intro h
      cases products with
      | nil => rfl
      | cons p rest => exact absurd h (buildContext_ne_sentinel env p rest)
    · rintro rfl
      rfl
  · intro hne
    have hlen : products.length ≠ 0 := fun h => hne (List.length_eq_zero.mp h)
    simp only [buildContext, hlen, if_false]
  · intro i hi hb
    rw [contextBlocks_get env products 0 i hi hb, Nat.zero_add]
    obtain ⟨h0, h1, h2, h3, h4, h5, h6⟩ := contextBlock_fields env i (products.get ⟨i, hi⟩)
    refine ⟨h0, h1, h2, h3, h4, h5, h6, ?_⟩
    intro hnone
    have hpart : "- Especificaciones:\n\n- Relevancia: " =
        "- Especificaciones:\n" ++ ("\n" ++ "- Relevancia: ") := by decide
    rw [hpart]
    simp only [contextBlock, hnone, Option.getD_none, List.map_nil, String.intercalate,
      String.empty_append, String.append_assoc]
    repeat (first | exact occurs_at_start _ _ _ _ | apply occurs_append_left)

/-- Witness of C18: two products without a specification map give two blocks,
headed `PRODUCTO 1:` and `PRODUCTO 2:`, and not the sentinel text. -/
theorem buildContext_blocks_witness :
    ([proxCard, proxCard] : List Product) ≠ [] ∧
    buildContext exampleEnv [proxCard, proxCard] ≠
      "No se encontraron productos relevantes en el catálogo." ∧
    ∃ blocks : List String,
      blocks.length = 2 ∧
      buildContext exampleEnv [proxCard, proxCard] = String.intercalate "\n---\n" blocks ∧
      ∀ i (_hi : i < 2) (hb : i < blocks.length),
        StartsWith (blocks.get ⟨i, hb⟩) ("\nPRODUCTO " ++ toString (i + 1) ++ ":\n") ∧
        Occurs "- SKU: HID-1326-LMSMV\n" (blocks.get ⟨i, hb⟩) ∧
        Occurs "- Especificaciones:\n\n- Relevancia: " (blocks.get ⟨i, hb⟩) := by
  obtain ⟨hiff, blocks, hlen, hjoin, hblocks⟩ :=
    buildContext_blocks exampleEnv [proxCard, proxCard]
  refine ⟨by simp, fun h => by simpa using hiff.mp h, blocks, hlen, hjoin (by simp), ?_⟩
  intro i hi hb
  obtain ⟨h0, h1, _, _, _, _, _, h7⟩ := hblocks i hi hb
  have hp : ([proxCard, proxCard] : List Product).get ⟨i, hi⟩ = proxCard := by
    match i, hi with
    | 0, _ => rfl
    | 1, _ => rfl
  rw [hp] at h1 h7
  exact ⟨h0, h1, h7 rfl⟩

/-! ## The lines of a built order -/

theorem candidateLine_some (env : Env) (c : QuoteLineCandidate) (line : QuoteItem)
    (h : candidateLine env c = some line) :
    ∃ product n, searchTop1 env c.productHint = Except.ok (some product) ∧
      c.quantity = Quantity.fin n ∧ (n : Int) ≤ product.stock_actual ∧
      line = { productId := product.id, quantity := n, unitPrice := product.precio_lista,
               product := product } := by
  unfold candidateLine at h
  split at h
  · next product n hsearch hquantity =>
      split at h
      · next hstock =>
          simp only [Option.some.injEq] at h
          exact ⟨product, n, hsearch, hquantity, hstock, h.symm⟩
      · cases h
  · cases h

theorem candidateLine_none_of_rejected (env : Env) (c : QuoteLineCandidate)
    (h : searchTop1 env c.productHint = Except.ok none ∨
      ∃ product, searchTop1 env c.productHint = Except.ok (some product) ∧
        ¬ stockCovers product.stock_actual c.quantity) :
    candidateLine env c = none := by
  cases hline : candidateLine env c with
  | none => rfl
  | some line =>
      obtain ⟨product, n, hsearch, hquantity, hstock, _⟩ := candidateLine_some env c line hline
      rcases h with h | ⟨product', h, hnot⟩
      · rw [hsearch] at h
        cases h
      · rw [hsearch] at h
        simp only [Except.ok.injEq, Option.some.injEq] at h
        subst h
        rw [hquantity] at hnot
        exact absurd hstock hnot

/-- C19: when `handleQuoteRequest` builds an order, the items passed to
`createQuoteOrder` and the lines of `quote.items` are those of the candidates that
resolved ok (a product found whose stock covers the quantity), in the order of the
candidates, each with the quantity of its candidate and the price of its product.
A candidate that is not found or lacks stock contributes no line and leaves the
lines of the candidates before and after it as they are. -/
theorem handleQuoteRequest_order_lines (env : Env) (userId message : String) (w : World)
    (result : ChatResult) (q : Quote)
    (h : (handleQuoteRequest env userId message w).2 = Except.ok result)
    (hq : result.quote = some q) :
    q.items = ((extractQuoteInfo message).filterMap (candidateLine env)).map (quoteLineOf env) ∧
    createQuoteOrderCalls (handleQuoteRequest env userId message w).1.calls =
      createQuoteOrderCalls w.calls ++
        [(userId, ((extractQuoteInfo message).filterMap (candidateLine env)).map orderItemOf)] ∧
    (∀ c, (candidateLine env c).isSome = true ↔
      ∃ product, searchTop1 env c.productHint = Except.ok (some product) ∧
        stockCovers product.stock_actual c.quantity) ∧
    (∀ c line, candidateLine env c = some line →
      ∃ product n, searchTop1 env c.productHint = Except.ok (some product) ∧
        c.quantity = Quantity.fin n ∧
        orderItemOf line =
          { productId := product.id, quantity := n, unitPrice := product.precio_lista } ∧
        quoteLineOf env line =
          { sku := product.sku, nombre := product.nombre, cantidad := n,
            precioUnitario := product.precio_lista,
            subtotal := env.mul (n : ℚ) product.precio_lista }) ∧
    (∀ pre c post, extractQuoteInfo message = pre ++ c :: post →
      (searchTop1 env c.productHint = Except.ok none ∨
        ∃ product, searchTop1 env c.productHint = Except.ok (some product) ∧
          ¬ stockCovers product.stock_actual c.quantity) →
      q.items = (pre.filterMap (candidateLine env)).map (quoteLineOf env) ++
        (post.filterMap (candidateLine env)).map (quoteLineOf env) ∧
      createQuoteOrderCalls (handleQuoteRequest env userId message w).1.calls =
        createQuoteOrderCalls w.calls ++
          [(userId, (pre.filterMap (candidateLine env)).map orderItemOf ++
            (post.filterMap (candidateLine env)).map orderItemOf)]) := by
  obtain ⟨hfail, hempty, hlines⟩ := handleQuoteRequest_spec env userId message w
  have hall : AllSearched env message := by
    by_contra hnot
    obtain ⟨_, msg, hmsg⟩ := hfail hnot
    rw [hmsg] at h
    cases h
  have hne : resolvedLines env message ≠ [] := by
    intro hl
    obtain ⟨_, response, hres⟩ := hempty hall hl
    rw [hres] at h
    simp only [Except.ok.injEq] at h
    rw [← h] at hq
    cases hq
  obtain ⟨w1, hquiet, hworld, herr, hok⟩ := hlines hall hne
  have hitems : q.items = (resolvedLines env message).map (quoteLineOf env) ∧
      createQuoteOrderCalls (handleQuoteRequest env userId message w).1.calls =
        createQuoteOrderCalls w.calls ++
          [(userId, (resolvedLines env message).map orderItemOf)] := by
    cases hco : (createQuoteOrder env userId ((resolvedLines env message).map orderItemOf)
        w1).2 with
    | error msg =>
        rw [herr msg hco] at h
        cases h
    | ok order =>
        obtain ⟨response, hres⟩ := hok order hco
        rw [hres] at h
        simp only [Except.ok.injEq] at h
        rw [← h] at hq
        simp only [Option.some.injEq] at hq
        refine ⟨by rw [← hq], ?_⟩
        rw [hworld, createQuoteOrder_calls, createQuoteOrderCalls_append, hquiet.2]
        rfl
  refine ⟨hitems.1, hitems.2, candidateLine_isSome_iff env, ?_, ?_⟩
  · intro c line hline
    obtain ⟨product, n, hsearch, hquantity, _, rfl⟩ := candidateLine_some env c line hline
    exact ⟨product, n, hsearch, hquantity, rfl, rfl⟩
  · intro pre c post hsplit hrejected
    have hnone := candidateLine_none_of_rejected env c hrejected
    have hsame : resolvedLines env message =
        pre.filterMap (candidateLine env) ++ post.filterMap (candidateLine env) := by
      simp only [resolvedLines, hsplit, List.filterMap_append, List.filterMap_cons, hnone]
    rw [hitems.1, hitems.2, hsame, List.map_append, List.map_append]
    exact ⟨rfl, rfl⟩

/-- Witness of C19: of the candidates of "cotiza 10 tarjetas, 5 lectores, 6000
impresoras, 20 credenciales" the second is not found and the third lacks stock; the
order has the lines of the first and the fourth, 10 and 20 units at 65.50. -/
theorem handleQuoteRequest_order_lines_witness :
    ∃ result q,
      (handleQuoteRequest selectiveEnv "u1"
        "cotiza 10 tarjetas, 5 lectores, 6000 impresoras, 20 credenciales" emptyWorld).2 =
          Except.ok result ∧
      result.quote = some q ∧
      extractQuoteInfo "cotiza 10 tarjetas, 5 lectores, 6000 impresoras, 20 credenciales" =
        [{ productHint := "tarjetas", quantity := Quantity.fin 10 },
         { productHint := "lectores", quantity := Quantity.fin 5 },
         { productHint := "impresoras", quantity := Quantity.fin 6000 },
         { productHint := "credenciales", quantity := Quantity.fin 20 }] ∧
      searchTop1 selectiveEnv "lectores" = Except.ok none ∧
      searchTop1 selectiveEnv "impresoras" = Except.ok (some proxCard) ∧
      q.items =
        ((extractQuoteInfo
          "cotiza 10 tarjetas, 5 lectores, 6000 impresoras, 20 credenciales").filterMap
            (candidateLine selectiveEnv)).map (quoteLineOf selectiveEnv) ∧
      createQuoteOrderCalls
          (handleQuoteRequest selectiveEnv "u1"
            "cotiza 10 tarjetas, 5 lectores, 6000 impresoras, 20 credenciales"
            emptyWorld).1.calls =
        [("u1", [{ productId := 1, quantity := 10, unitPrice := 131 / 2 },
                 { productId := 1, quantity := 20, unitPrice := 131 / 2 }])] :=
  ⟨_, _, rfl, rfl, by decide, rfl, rfl,
    (handleQuoteRequest_order_lines selectiveEnv "u1"
      "cotiza 10 tarjetas, 5 lectores, 6000 impresoras, 20 credenciales" emptyWorld _ _
      rfl rfl).1,
    rfl⟩

/-! ## The scan of a message with two quantity phrases -/

/-- A run of characters of one kind at the start of a text is no longer than any
part of the text that is followed by a character of another kind. -/
theorem run_length_le (P : Char → Prop) (a b c d : List Char) (h : a ++ b = c ++ d)
    (ha : ∀ x ∈ a, P x) (hd : ∀ x, d.head? = some x → ¬ P x) : a.length ≤ c.length := by
  rcases List.append_eq_append_iff.mp h with ⟨a', hc, _⟩ | ⟨c', ha', hd'⟩
  · rw [hc, List.length_append]
    exact Nat.le_add_right _ _
  · cases c' with
    | nil => simp [ha']
    | cons x c' =>
        exfalso
        refine hd x (by simp [hd']) (ha x ?_)
        rw [ha']
        simp

theorem letter_facts :
    ∀ c ∈ letterClass, charMatches spaceClass c = false ∧ charMatches [','] c = false ∧
      charMatches ['.'] c = false ∧ charMatches wordClass c = true ∧
      charMatches digitClass c = false ∧ isWhiteSpace c = false := by
  decide

theorem not_digit_of_space (c : Char) (h : charMatches spaceClass c = true) :
    charMatches digitClass c = false := by
  cases hd : charMatches digitClass c with
  | false => rfl
  | true =>
      exfalso
      have hdig := isDigit_of_charMatches c hd
      simp only [isDigit, decide_eq_true_eq] at hdig
      have hc : canonicalize c = c.toNat := by
        unfold canonicalize
        rw [if_neg]
        omega
      have hall : ∀ a ∈ spaceClass, ¬ (48 ≤ canonicalize a ∧ canonicalize a ≤ 57) := by decide
      simp only [charMatches, List.any_eq_true, beq_iff_eq] at h
      obtain ⟨a, ha, hac⟩ := h
      apply hall a ha
      rw [hac, hc]
      exact hdig

/-- What the terminator `(?:\s|$|,|\.)` reads. -/
theorem reads_quantityTerminator (s rest : List Char) :
    Reads quantityTerminator s rest ↔
      (s = [] ∧ rest = []) ∨
      ∃ c, s = c :: rest ∧ (charMatches spaceClass c = true ∨ charMatches [','] c = true ∨
        charMatches ['.'] c = true) := by
  unfold quantityTerminator
  rw [reads_alts _ (by simp)]
  constructor
  · rintro ⟨r, hr, hreads⟩
    simp only [List.mem_cons, List.mem_singleton, List.not_mem_nil, or_false] at hr
    rcases hr with rfl | rfl | rfl | rfl
    · obtain ⟨c, hs, hc⟩ := hreads
      exact Or.inr ⟨c, hs, Or.inl hc⟩
    · exact Or.inl hreads
    · obtain ⟨m, ⟨c, hs, hc⟩, hm⟩ := hreads
      have hm' : rest = m := hm
      exact Or.inr ⟨c, by rw [hm']; exact hs, Or.inr (Or.inl hc)⟩
    · obtain ⟨m, ⟨c, hs, hc⟩, hm⟩ := hreads
      have hm' : rest = m := hm
      exact Or.inr ⟨c, by rw [hm']; exact hs, Or.inr (Or.inr hc)⟩
  · rintro (⟨hs, hrest⟩ | ⟨c, hs, hc | hc | hc⟩)
    · exact ⟨Regex.eos, by simp, hs, hrest⟩
    · exact ⟨Regex.set spaceClass, by simp, c, hs, hc⟩
    · exact ⟨lit ",", by simp, rest, ⟨c, hs, hc⟩, rfl⟩
    · exact ⟨lit ".", by simp, rest, ⟨c, hs, hc⟩, rfl⟩

/-- The match of `quantityPattern` at the start of `<q> <w>` followed by the end of
the text or by a comma: group 1 is the numeral, group 2 the word, and the match ends
after the comma. -/
theorem matchAt_phrase (q w tail rest : List Char) (hq : IsNumeral q) (hw : IsWord w)
    (htail : (tail = [] ∧ rest = []) ∨ tail = ',' :: rest) :
    ∃ m, matchAt quantityPattern (q ++ ' ' :: (w ++ tail)) = some m ∧
      m.cap 1 = q ∧ m.cap 2 = w ∧ m.rest = rest := by
  have hterm : Reads quantityTerminator tail rest := by
    rw [reads_quantityTerminator]
    rcases htail with ⟨h1, h2⟩ | h
    · exact Or.inl ⟨h1, h2⟩
    · exact Or.inr ⟨',', h, Or.inr (Or.inl (by decide))⟩
  have hreads : Reads quantityPattern (q ++ ' ' :: (w ++ tail)) rest := by
    show ∃ m1, (∃ pre, pre ≠ [] ∧ q ++ ' ' :: (w ++ tail) = pre ++ m1 ∧
        ∀ c ∈ pre, charMatches digitClass c = true) ∧
      ∃ m2, (∃ pre, pre ≠ [] ∧ m1 = pre ++ m2 ∧ ∀ c ∈ pre, charMatches spaceClass c = true) ∧
      ∃ m3, (∃ pre, pre ≠ [] ∧ m2 = pre ++ m3 ∧ ∀ c ∈ pre, charMatches wordClass c = true) ∧
        Reads quantityTerminator m3 rest
    refine ⟨' ' :: (w ++ tail), ⟨q, hq.1, rfl, fun c hc => charMatches_of_isDigit c (hq.2 c hc)⟩,
      w ++ tail, ⟨[' '], by simp, rfl, ?_⟩, tail,
      ⟨w, hw.1, rfl, fun c hc => (letter_facts c (hw.2 c hc)).2.2.2.1⟩, hterm⟩
    intro c hc
    rw [List.mem_singleton.mp hc]
    decide
  cases hm : matchAt quantityPattern (q ++ ' ' :: (w ++ tail)) with
  | none => exact absurd hreads ((matchAt_eq_none_iff _ _).mp hm rest)
  | some m =>
      refine ⟨m, rfl, ?_⟩
      obtain ⟨ds, ws, g, s3, hsplit, hds, hdsall, hws, hwsall, hg, hgall, hcap1, hcap2, hend⟩ :=
        matchAt_quantityPattern _ m hm
      -- the digits
      have hqall : ∀ c ∈ q, charMatches digitClass c = true :=
        fun c hc => charMatches_of_isDigit c (hq.2 c hc)
      have hlen1 : ds.length ≤ q.length :=
        run_length_le (fun c => charMatches digitClass c = true) ds _ q _ hsplit.symm hdsall
          (by
            intro x hx
            simp only [List.head?_cons, Option.some.injEq] at hx
            rw [← hx]
            decide)
      have hlen2 : q.length ≤ ds.length :=
        run_length_le (fun c => charMatches digitClass c = true) q _ ds _ hsplit hqall
          (by
            intro x hx
            cases ws with
            | nil => exact absurd rfl hws
            | cons y ws =>
                simp only [List.cons_append, List.head?_cons, Option.some.injEq] at hx
                rw [← hx]
                show ¬ charMatches digitClass y = true
                rw [not_digit_of_space y (hwsall y (List.mem_cons_self _ _))]
                simp)
      obtain ⟨hdsq, hrest1⟩ := List.append_inj hsplit.symm (Nat.le_antisymm hlen1 hlen2)
      -- the white space
      have hlen3 : ws.length ≤ [' '].length :=
        run_length_le (fun c => charMatches spaceClass c = true) ws _ [' '] (w ++ tail)
          (by simpa using hrest1) hwsall
          (by
            intro x hx
            cases w with
            | nil => exact absurd rfl hw.1
            | cons y w =>
                simp only [List.cons_append, List.head?_cons, Option.some.injEq] at hx
                rw [← hx]
                show ¬ charMatches spaceClass y = true
                rw [(letter_facts y (hw.2 y (List.mem_cons_self _ _))).1]
                simp)
      have hlen4 : ws.length = [' '].length := by
        cases ws with
        | nil => exact absurd rfl hws
        | cons y ws =>
            simp only [List.length_cons, List.length_nil] at hlen3 ⊢
            omega
      obtain ⟨_, hrest2⟩ := List.append_inj (show ws ++ (g ++ s3) = [' '] ++ (w ++ tail) by
        simpa using hrest1) hlen4
      -- the word
      have htailhead : ∀ x, tail.head? = some x → ¬ charMatches wordClass x = true := by
        intro x hx
        rcases htail with ⟨h1, _⟩ | h
        · rw [h1] at hx
          cases hx
        · rw [h] at hx
          simp only [List.head?_cons, Option.some.injEq] at hx
          rw [← hx]
          decide
      have hlen5 : g.length ≤ w.length :=
        run_length_le (fun c => charMatches wordClass c = true) g _ w _ hrest2 hgall htailhead
      have hlen6 : w.length ≤ g.length := by
        by_contra hlt
        rcases List.append_eq_append_iff.mp hrest2 with ⟨a', hwa, hs3⟩ | ⟨c', hgc, _⟩
        · cases a' with
          | nil => simp [hwa] at hlt
          | cons y a' =>
              have hy : y ∈ letterClass := hw.2 y (by rw [hwa]; simp)
              obtain ⟨hy1, hy2, hy3, _⟩ := letter_facts y hy
              rw [hs3, reads_quantityTerminator] at hend
              rcases hend with ⟨h1, _⟩ | ⟨c, hc, hcs⟩
              · cases h1
              · simp only [List.cons_append, List.cons.injEq] at hc
                rw [← hc.1, hy1, hy2, hy3] at hcs
                simp at hcs
        · rw [hgc, List.length_append] at hlt
          omega
      obtain ⟨hgw, hs3⟩ := List.append_inj hrest2 (Nat.le_antisymm hlen5 hlen6)
      refine ⟨by rw [hcap1, hdsq], by rw [hcap2, hgw], ?_⟩
      rw [hs3, reads_quantityTerminator] at hend
      rcases htail with ⟨h1, h2⟩ | h
      · rw [h1] at hend
        rcases hend with ⟨_, h3⟩ | ⟨c, hc, _⟩
        · rw [h3, h2]
        · cases hc
      · rw [h] at hend
        rcases hend with ⟨h3, _⟩ | ⟨c, hc, _⟩
        · cases h3
        · simp only [List.cons.injEq] at hc
          exact hc.2.symm

theorem exec_of_matchAt (r : Regex) (s : List Char) (m : RegExpMatch)
    (h : matchAt r s = some m) : exec r s = some m := by
  cases s with
  | nil => exact h
  | cons c s => simp only [exec, h]

theorem exec_cons_of_none (r : Regex) (c : Char) (s : List Char)
    (h : matchAt r (c :: s) = none) : exec r (c :: s) = exec r s := by
  simp only [exec, h]

/-- No match of `quantityPattern` starts at a character that is not a digit, or at
the end of the text. -/
theorem matchAt_quantityPattern_none (t : List Char)
    (h : ∀ c, t.head? = some c → charMatches digitClass c = false) :
    matchAt quantityPattern t = none := by
  cases hm : matchAt quantityPattern t with
  | none => rfl
  | some m =>
      exfalso
      obtain ⟨ds, ws, g, s3, hsplit, hds, hdsall, _⟩ := matchAt_quantityPattern t m hm
      cases ds with
      | nil => exact hds rfl
      | cons d ds =>
          have hd := h d (by rw [hsplit]; rfl)
          rw [hdsall d (List.mem_cons_self _ _)] at hd
          cases hd

theorem trim_word (w : List Char) (hw : IsWord w) : trim w = w := by
  have hnot : ∀ c ∈ w, isWhiteSpace c = false :=
    fun c hc => (letter_facts c (hw.2 c hc)).2.2.2.2.2
  have hdrop : ∀ l : List Char, (∀ c ∈ l, isWhiteSpace c = false) →
      l.dropWhile isWhiteSpace = l := by
    intro l hl
    cases l with
    | nil => rfl
    | cons c l => simp [List.dropWhile, hl c (List.mem_cons_self _ _)]
  unfold trim
  rw [hdrop w hnot, hdrop w.reverse (fun c hc => hnot c (List.mem_reverse.mp hc)),
    List.reverse_reverse]

theorem parseInt_numeral (q : List Char) (hq : IsNumeral q) :
    parseInt q = some (toNumber (decimalValue q) (4 * q.length)) :=
  parseInt_digits q hq.1 (fun c hc => charMatches_of_isDigit c (hq.2 c hc))

theorem toNumber_isPositive (n bound : Nat) :
    (toNumber n bound).isPositive = decide (0 < n) := by
  unfold toNumber
  split
  · rfl
  · next hbig =>
      have hn : 0 < n := by
        have : 0 < 2 ^ 53 := by decide
        omega
      simp only
      split
      · simp only [Quantity.isPositive, decide_eq_decide]
        refine ⟨fun _ => hn, fun _ => ?_⟩
        have hrs : 0 < roundedSignificand n (droppedBits n bound) := by
          rcases droppedBits_spec n bound with h0 | h52
          · rw [h0, roundedSignificand_zero]
            exact hn
          · have hle : n >>> droppedBits n bound ≤
                roundedSignificand n (droppedBits n bound) := by
              unfold roundedSignificand
              simp only
              split <;> omega
            have : 0 < 2 ^ 52 := by decide
            omega
        rw [Nat.shiftLeft_eq]
        exact Nat.mul_pos hrs (Nat.pow_pos (by decide))
      · simp [Quantity.isPositive, hn]

/-- One round of the scan at the start of a quantity phrase `<q> <w>` that is
followed by the end of the text or by a comma. -/
theorem scanQuantities_phrase (fuel : Nat) (q w tail rest : List Char)
    (items : List QuoteLineCandidate) (hq : IsNumeral q) (hw : IsWord w)
    (htail : (tail = [] ∧ rest = []) ∨ tail = ',' :: rest) :
    scanQuantities (fuel + 1) (q ++ ' ' :: (w ++ tail)) items =
      if 0 < decimalValue q ∧ 2 < w.length then
        scanQuantities fuel rest
          (items ++ [{ productHint := String.mk w,
                       quantity := toNumber (decimalValue q) (4 * q.length) }])
      else scanQuantities fuel rest items := by
  obtain ⟨m, hm, hcap1, hcap2, hrest⟩ := matchAt_phrase q w tail rest hq hw htail
  simp only [scanQuantities, exec_of_matchAt _ _ m hm, hcap1, hcap2, hrest, trim_word w hw,
    parseInt_numeral q hq, toNumber_isPositive]
  by_cases hcond : 0 < decimalValue q ∧ 2 < w.length
  · simp [hcond]
  · rw [if_neg hcond]
    simp only [not_and_or, not_lt] at hcond
    rcases hcond with h | h
    · simp [h]
    · have : ¬ w.length > 2 := by omega
      simp [this]

theorem scanQuantities_skip (fuel : Nat) (c : Char) (s : List Char)
    (items : List QuoteLineCandidate) (hc : charMatches digitClass c = false) :
    scanQuantities (fuel + 1) (c :: s) items = scanQuantities (fuel + 1) s items := by
  have hnone : matchAt quantityPattern (c :: s) = none :=
    matchAt_quantityPattern_none _ (by
      intro x hx
      simp only [List.head?_cons, Option.some.injEq] at hx
      rw [← hx]
      exact hc)
  simp only [scanQuantities, exec_cons_of_none _ _ _ hnone]

theorem scanQuantities_nil (fuel : Nat) (items : List QuoteLineCandidate) :
    scanQuantities fuel [] items = items := by
  cases fuel with
  | zero => rfl
  | succ fuel =>
      have hnone : matchAt quantityPattern [] = none :=
        matchAt_quantityPattern_none _ (by intro x hx; cases hx)
      have hexec : exec quantityPattern [] = none := hnone
      simp only [scanQuantities, hexec]

/-- C20: a rejected match does not end the primary scan of `extractQuoteInfo`.  On
every message `<q1> <w1>, <q2> <w2>`, with `q1` and `q2` numerals and `w1` and `w2`
single lowercase words, whose first pair is rejected (`q1` writes 0, or `w1` has at
most 2 letters) and whose second pair is acceptable (`q2` writes a number above 0 and
`w2` has more than 2 letters), the result is the one candidate with the hint `w2` and
the quantity that `parseInt` reads from `q2`, which is the number written by `q2`
when that is below 2 ^ 53. -/
theorem extractQuoteInfo_rejected_first (q1 w1 q2 w2 : List Char)
    (hq1 : IsNumeral q1) (hw1 : IsWord w1) (hq2 : IsNumeral q2) (hw2 : IsWord w2)
    (hrejected : decimalValue q1 = 0 ∨ w1.length ≤ 2)
    (hpositive : 0 < decimalValue q2) (hlong : 2 < w2.length) :
    (∃ quantity, parseInt q2 = some quantity ∧
      extractQuoteInfo (twoPhrases q1 w1 q2 w2) =
        [{ productHint := String.mk w2, quantity := quantity }]) ∧
    (decimalValue q2 < 2 ^ 53 →
      extractQuoteInfo (twoPhrases q1 w1 q2 w2) =
        [{ productHint := String.mk w2, quantity := Quantity.fin (decimalValue q2) }]) := by
  have hscan : ∀ k, scanQuantities (k + 3)
      (q1 ++ ' ' :: (w1 ++ ',' :: ' ' :: (q2 ++ ' ' :: w2))) [] =
      [{ productHint := String.mk w2,
         quantity := toNumber (decimalValue q2) (4 * q2.length) }] := by
    intro k
    have hnot : ¬ (0 < decimalValue q1 ∧ 2 < w1.length) := by
      rcases hrejected with h | h
      · omega
      · omega
    rw [scanQuantities_phrase (k + 2) q1 w1 (',' :: ' ' :: (q2 ++ ' ' :: w2))
        (' ' :: (q2 ++ ' ' :: w2)) [] hq1 hw1 (Or.inr rfl), if_neg hnot,
      scanQuantities_skip (k + 1) ' ' _ [] (by decide)]
    have hform : q2 ++ ' ' :: w2 = q2 ++ ' ' :: (w2 ++ []) := by rw [List.append_nil]
    rw [hform, scanQuantities_phrase (k + 1) q2 w2 [] [] [] hq2 hw2 (Or.inl ⟨rfl, rfl⟩),
      if_pos ⟨hpositive, hlong⟩, scanQuantities_nil]
    rfl
  have hlen : ∃ k, (twoPhrases q1 w1 q2 w2).data.length + 1 = k + 3 := by
    refine ⟨q1.length + w1.length + q2.length + w2.length + 2, ?_⟩
    simp only [twoPhrases, List.length_append, List.length_cons]
    omega
  obtain ⟨k, hk⟩ := hlen
  have hresult : extractQuoteInfo (twoPhrases q1 w1 q2 w2) =
      [{ productHint := String.mk w2,
         quantity := toNumber (decimalValue q2) (4 * q2.length) }] := by
    unfold extractQuoteInfo
    rw [hk]
    have hdata : (twoPhrases q1 w1 q2 w2).data =
        q1 ++ ' ' :: (w1 ++ ',' :: ' ' :: (q2 ++ ' ' :: w2)) := rfl
    rw [hdata, hscan k]
    rfl
  refine ⟨⟨_, parseInt_numeral q2 hq2, hresult⟩, ?_⟩
  intro hsmall
  rw [hresult]
  simp only [toNumber, hsmall, if_true]

/-- Witness of C20: "0 tarjetas, 5 lectores" yields the one candidate
(5, "lectores"). -/
theorem extractQuoteInfo_rejected_first_witness :
    twoPhrases "0".data "tarjetas".data "5".data "lectores".data = "0 tarjetas, 5 lectores" ∧
    IsNumeral "0".data ∧ IsWord "tarjetas".data ∧ IsNumeral "5".data ∧ IsWord "lectores".data ∧
    (decimalValue "0".data = 0 ∨ "tarjetas".data.length ≤ 2) ∧
    0 < decimalValue "5".data ∧ 2 < "lectores".data.length ∧
    extractQuoteInfo "0 tarjetas, 5 lectores" =
      [{ productHint := "lectores", quantity := Quantity.fin 5 }] :=
  have hq1 : IsNumeral "0".data := ⟨by decide, by decide⟩
  have hw1 : IsWord "tarjetas".data := ⟨by decide, by decide⟩
  have hq2 : IsNumeral "5".data := ⟨by decide, by decide⟩
  have hw2 : IsWord "lectores".data := ⟨by decide, by decide⟩
  ⟨rfl, hq1, hw1, hq2, hw2, Or.inl (by decide), by decide, by decide,
    (extractQuoteInfo_rejected_first "0".data "tarjetas".data "5".data "lectores".data
      hq1 hw1 hq2 hw2 (Or.inl (by decide)) (by decide) (by decide)).2 (by decide)⟩

/-! ## The hints of the primary pass are single words -/

/-- A character that has no other case is matched, under the `i` flag, by itself
alone. -/
theorem eq_of_canonicalize_eq (a x : Char) (ha : canonicalize a = a.toNat)
    (hrange : ¬ ((65 ≤ a.toNat ∧ a.toNat ≤ 90) ∨
      (192 ≤ a.toNat ∧ a.toNat ≤ 222 ∧ a.toNat ≠ 215)))
    (h : canonicalize a = canonicalize x) : x = a := by
  rw [ha] at h
  have hx : x.toNat = a.toNat := by
    unfold canonicalize at h
    split at h
    · omega
    · exact h.symm
  rw [← Char.ofNat_toNat x, ← Char.ofNat_toNat a, hx]

theorem isWhiteSpace_of_charMatches (x : Char) (h : charMatches spaceClass x = true) :
    isWhiteSpace x = true := by
  have hall : ∀ a ∈ spaceClass, canonicalize a = a.toNat ∧
      ¬ ((65 ≤ a.toNat ∧ a.toNat ≤ 90) ∨ (192 ≤ a.toNat ∧ a.toNat ≤ 222 ∧ a.toNat ≠ 215)) := by
    decide
  simp only [charMatches, List.any_eq_true, beq_iff_eq] at h
  obtain ⟨a, ha, hax⟩ := h
  rw [eq_of_canonicalize_eq a x (hall a ha).1 (hall a ha).2 hax]
  simp only [isWhiteSpace, List.contains_iff_exists_mem_beq, beq_iff_eq]
  exact ⟨a, ha, rfl⟩

theorem eq_comma_of_charMatches (x : Char) (h : charMatches [','] x = true) : x = ',' := by
  rw [charMatches_singleton] at h
  exact eq_of_canonicalize_eq ',' x (by decide) (by decide) h.symm

theorem eq_stop_of_charMatches (x : Char) (h : charMatches ['.'] x = true) : x = '.' := by
  rw [charMatches_singleton] at h
  exact eq_of_canonicalize_eq '.' x (by decide) (by decide) h.symm

/-- The characters that the class `[a-záéíóúñ]` matches under the `i` flag are its
letters and their upper-case forms. -/
theorem isClassLetter_of_charMatches (x : Char) (h : charMatches letterClass x = true) :
    IsClassLetter x := by
  have hall : ∀ a ∈ letterClass, canonicalize a + 32 = a.toNat ∧ 97 ≤ a.toNat ∧
      Char.ofNat (a.toNat - 32) ∈ upperLetterClass := by
    decide
  simp only [charMatches, List.any_eq_true, beq_iff_eq] at h
  obtain ⟨a, ha, hax⟩ := h
  obtain ⟨hcan, hlow, hupper⟩ := hall a ha
  have hca : canonicalize a = a.toNat - 32 := by omega
  rw [hca] at hax
  unfold canonicalize at hax
  split at hax
  · left
    have hx : x.toNat = a.toNat := by omega
    have hxa : x = a := by rw [← Char.ofNat_toNat x, ← Char.ofNat_toNat a, hx]
    rw [hxa]
    exact ha
  · right
    rw [← Char.ofNat_toNat x, ← hax]
    exact hupper

theorem isClassLetter_of_word_char (x : Char) (h : charMatches wordClass x = true)
    (hnot : isWhiteSpace x = false) : IsClassLetter x := by
  have hsplit : charMatches wordClass x =
      (charMatches letterClass x || charMatches spaceClass x) := by
    simp only [charMatches, wordClass, letterClass, List.any_append]
  rw [hsplit, Bool.or_eq_true] at h
  rcases h with h | h
  · exact isClassLetter_of_charMatches x h
  · rw [isWhiteSpace_of_charMatches x h] at hnot
    cases hnot

theorem head?_flatMap_some {α β : Type} (f : α → List β) :
    ∀ (l : List α) (y : β), (l.flatMap f).head? = some y →
      ∃ x ∈ l, (f x).head? = some y := by
  intro l
  induction l with
  | nil => intro y h; cases h
  | cons a l ih =>
      intro y h
      rw [List.flatMap_cons, List.head?_append] at h
      cases hf : (f a).head? with
      | some z =>
          rw [hf] at h
          exact ⟨a, List.mem_cons_self _ _, by rw [hf]; exact h⟩
      | none =>
          rw [hf] at h
          obtain ⟨x, hx, hy⟩ := ih y h
          exact ⟨x, List.mem_cons_of_mem _ hx, hy⟩

/-- The first success of a lazy run: among the positions reached by reading more and
more characters of a class, the first one at which the rest of the pattern succeeds
comes after positions at which it fails. -/
theorem classRuns_first (cs : List Char) {β : Type} (f : List Char → List β) :
    ∀ (s : List Char) (y : β), ((classRuns cs s).flatMap f).head? = some y →
      ∃ pre s', s = pre ++ s' ∧ (f s').head? = some y ∧
        ∀ pre1 pre2, pre = pre1 ++ pre2 → pre2 ≠ [] → f (pre2 ++ s') = [] := by
  intro s
  induction s with
  | nil =>
      intro y h
      simp only [classRuns, List.flatMap_cons, List.flatMap_nil, List.append_nil] at h
      refine ⟨[], [], rfl, h, ?_⟩
      intro pre1 pre2 hsplit hne
      have := List.append_eq_nil.mp hsplit.symm
      exact absurd this.2 hne
  | cons c s ih =>
      intro y h
      simp only [classRuns, List.flatMap_cons, List.head?_append] at h
      cases hf : f (c :: s) with
      | cons z zs =>
          rw [hf] at h
          refine ⟨[], c :: s, rfl, by rw [hf]; exact h, ?_⟩
          intro pre1 pre2 hsplit hne
          have := List.append_eq_nil.mp hsplit.symm
          exact absurd this.2 hne
      | nil =>
          rw [hf] at h
          simp only [List.head?_nil, Option.none_or] at h
          by_cases hc : charMatches cs c = true
          · rw [if_pos hc] at h
            obtain ⟨pre, s', hs, hy, hmin⟩ := ih y h
            refine ⟨c :: pre, s', by rw [hs]; rfl, hy, ?_⟩
            intro pre1 pre2 hsplit hne
            cases pre1 with
            | nil =>
                simp only [List.nil_append] at hsplit
                rw [← hsplit, List.cons_append, ← hs]
                exact hf
            | cons d pre1 =>
                simp only [List.cons_append, List.cons.injEq] at hsplit
                exact hmin pre1 pre2 hsplit.2 hne
          · rw [if_neg hc] at h
            cases h

theorem head_matchAll_quantityShape (term : Regex) (t : List Char) (st : MState)
    (h : (matchAll
      (Regex.seq (Regex.group 1 (Regex.plus digitClass))
        (Regex.seq (Regex.plus spaceClass)
          (Regex.seq (Regex.group 2 (Regex.plusLazy wordClass)) term)))
      { rest := t, caps := [] }).head? = some st) :
    ∃ caps c pre s',
      st ∈ matchAll term { rest := s', caps := (2, c :: pre) :: caps } ∧
      ∀ pre1 pre2, pre = pre1 ++ pre2 → pre2 ≠ [] →
        ∃ caps', matchAll term { rest := pre2 ++ s', caps := caps' } = [] := by
  simp only [matchAll] at h
  obtain ⟨st1, _, hhead1⟩ := head?_flatMap_some _ _ _ h
  obtain ⟨st2, _, hhead2⟩ := head?_flatMap_some _ _ _ hhead1
  rw [List.map_map, List.flatMap_map] at hhead2
  obtain ⟨s2, caps2⟩ := st2
  simp only [Function.comp] at hhead2
  cases s2 with
  | nil => simp [classRuns1] at hhead2
  | cons c s =>
      by_cases hc : charMatches wordClass c = true
      · simp only [classRuns1, hc, if_true] at hhead2
        obtain ⟨pre, s', hs, hy, hmin⟩ := classRuns_first wordClass
          (fun a => matchAll term { rest := a, caps := (2, consumed (c :: s) a) :: caps2 })
          s st hhead2
        refine ⟨caps2, c, pre, s', ?_, ?_⟩
        · have hmem := List.mem_of_mem_head? hy
          have hcons : consumed (c :: s) s' = c :: pre := by
            rw [hs, ← List.cons_append, consumed_append]
          simp only [hcons] at hmem
          exact hmem
        · intro pre1 pre2 hsplit hne
          exact ⟨_, hmin pre1 pre2 hsplit hne⟩
      · simp [classRuns1, hc] at hhead2

/-- Capture 2 of the first match of `quantityPattern`: after its first character
it holds no white space, because the lazy run ends at the first position where the
terminator can be read. -/
theorem matchAt_quantityPattern_lazy (t : List Char) (m : RegExpMatch)
    (h : matchAt quantityPattern t = some m) :
    ∃ c L, m.cap 2 = c :: L ∧ ∀ x ∈ L, isWhiteSpace x = false := by
  unfold matchAt at h
  cases hm : matchAll quantityPattern { rest := t, caps := [] } with
  | nil => rw [hm] at h; cases h
  | cons st l =>
      rw [hm] at h
      simp only [Option.some.injEq] at h
      subst h
      have hhead : (matchAll quantityPattern { rest := t, caps := [] }).head? = some st := by
        rw [hm]
        rfl
      obtain ⟨caps, c, pre, s', hmem, hmin⟩ :=
        head_matchAll_quantityShape quantityTerminator t st hhead
      have hcaps := quantityTerminator_caps _ _ hmem
      refine ⟨c, pre, ?_, ?_⟩
      · simp only [RegExpMatch.cap, hcaps]
        simp [List.lookup]
      · intro x hx
        cases hws : isWhiteSpace x with
        | false => rfl
        | true =>
            exfalso
            obtain ⟨pre1, pre2, hsplit⟩ := List.append_of_mem hx
            obtain ⟨caps', hnil⟩ := hmin pre1 (x :: pre2) hsplit (List.cons_ne_nil _ _)
            have hreads : Reads quantityTerminator ((x :: pre2) ++ s') (pre2 ++ s') :=
              (reads_quantityTerminator _ _).mpr
                (Or.inr ⟨x, rfl, Or.inl (charMatches_of_isWhiteSpace x hws)⟩)
            obtain ⟨st', hst', _⟩ := mem_matchAll_of_reads quantityTerminator
              { rest := (x :: pre2) ++ s', caps := caps' } _ hreads
            rw [hnil] at hst'
            cases hst'

theorem trim_eq_self (l : List Char) (h : ∀ x ∈ l, isWhiteSpace x = false) : trim l = l := by
  have hdrop : ∀ l : List Char, (∀ c ∈ l, isWhiteSpace c = false) →
      l.dropWhile isWhiteSpace = l := by
    intro l hl
    cases l with
    | nil => rfl
    | cons c l => simp [List.dropWhile, hl c (List.mem_cons_self _ _)]
  unfold trim
  rw [hdrop l h, hdrop l.reverse (fun c hc => h c (List.mem_reverse.mp hc)),
    List.reverse_reverse]

theorem trim_cons_space (c : Char) (l : List Char) (hc : isWhiteSpace c = true) :
    trim (c :: l) = trim l := by
  simp only [trim, List.dropWhile, hc]

theorem endsWord_of_reads (s3 rest : List Char) (h : Reads quantityTerminator s3 rest) :
    EndsWord s3 := by
  rcases (reads_quantityTerminator s3 rest).mp h with ⟨h1, _⟩ | ⟨y, hy, hspace | hcomma | hstop⟩
  · exact Or.inl h1
  · exact Or.inr ⟨y, rest, hy, Or.inl (isWhiteSpace_of_charMatches y hspace)⟩
  · exact Or.inr ⟨y, rest, hy, Or.inr (Or.inl (eq_comma_of_charMatches y hcomma))⟩
  · exact Or.inr ⟨y, rest, hy, Or.inr (Or.inr (eq_stop_of_charMatches y hstop))⟩

/-- The hint of a match of `quantityPattern`, when it is not empty: a single word
that stands in the text after the digits and some white space, and before the end
of the text, a white space, a comma or a full stop. -/
theorem matchAt_quantityPattern_hint (t : List Char) (m : RegExpMatch)
    (h : matchAt quantityPattern t = some m) (hlen : trim (m.cap 2) ≠ []) :
    SingleWord (trim (m.cap 2)) ∧
    ∃ ws u, t = m.cap 1 ++ ws ++ trim (m.cap 2) ++ (u ++ m.rest) ∧
      IsNumeral (m.cap 1) ∧ ws ≠ [] ∧ (∀ s ∈ ws, isWhiteSpace s = true) ∧
      EndsWord (u ++ m.rest) := by
  obtain ⟨ds, ws, g, s3, ht, hds, hdsall, hws, hwsall, _, hgall, hcap1, hcap2, hterm⟩ :=
    matchAt_quantityPattern t m h
  obtain ⟨c, L, hcL, hL⟩ := matchAt_quantityPattern_lazy t m h
  obtain ⟨u, hu⟩ := reads_suffix _ _ _ hterm
  have hend : EndsWord (u ++ m.rest) := by
    rw [← hu]
    exact endsWord_of_reads s3 m.rest hterm
  have hnum : IsNumeral (m.cap 1) := by
    rw [hcap1]
    exact ⟨hds, fun d hd => isDigit_of_charMatches d (hdsall d hd)⟩
  have hspaces : ∀ s ∈ ws, isWhiteSpace s = true :=
    fun s hs => isWhiteSpace_of_charMatches s (hwsall s hs)
  have hg : g = c :: L := by rw [← hcap2, hcL]
  have hLword : ∀ x ∈ L, isWhiteSpace x = false ∧ IsClassLetter x := by
    intro x hx
    refine ⟨hL x hx, isClassLetter_of_word_char x (hgall x ?_) (hL x hx)⟩
    rw [hg]
    exact List.mem_cons_of_mem _ hx
  cases hc : isWhiteSpace c with
  | true =>
      have htrim : trim (m.cap 2) = L := by
        rw [hcL, trim_cons_space c L hc, trim_eq_self L hL]
      rw [htrim] at hlen ⊢
      refine ⟨⟨hlen, hLword⟩, ws ++ [c], u, ?_, hnum, by simp, ?_, hend⟩
      · rw [ht, hcap1, hu, hg]
        simp only [List.append_assoc, List.cons_append, List.nil_append]
      · intro s hs
        rcases List.mem_append.mp hs with h1 | h1
        · exact hspaces s h1
        · rw [List.mem_singleton.mp h1]
          exact hc
  | false =>
      have hall : ∀ x ∈ c :: L, isWhiteSpace x = false := by
        intro x hx
        rcases List.mem_cons.mp hx with rfl | hx
        · exact hc
        · exact hL x hx
      have htrim : trim (m.cap 2) = c :: L := by
        rw [hcL, trim_eq_self _ hall]
      rw [htrim]
      refine ⟨⟨List.cons_ne_nil _ _, ?_⟩, ws, u, ?_, hnum, hws, hspaces, hend⟩
      · intro x hx
        rcases List.mem_cons.mp hx with rfl | hx'
        · exact ⟨hc, isClassLetter_of_word_char x
            (hgall x (by rw [hg]; exact List.mem_cons_self _ _)) hc⟩
        · exact hLword x hx'
      · rw [ht, hcap1, hu, hg]
        simp only [List.append_assoc, List.cons_append, List.nil_append]

/-- Every candidate added by the loop of the primary pass has a hint that is a
single word, found in the input after a numeral and white space and before the end
of the input, a white space, a comma or a full stop. -/
theorem scanQuantities_hint :
    ∀ (fuel : Nat) (input : List Char) (items : List QuoteLineCandidate)
      (c : QuoteLineCandidate),
      c ∈ scanQuantities fuel input items →
        c ∈ items ∨
          (SingleWord c.productHint.data ∧
            ∃ before ds ws post,
              input = before ++ ds ++ ws ++ c.productHint.data ++ post ∧
              IsNumeral ds ∧ parseInt ds = some c.quantity ∧
              ws ≠ [] ∧ (∀ s ∈ ws, isWhiteSpace s = true) ∧ EndsWord post) := by
  intro fuel
  induction fuel with
  | zero =>
      intro input items c h
      exact Or.inl h
  | succ fuel ih =>
      intro input items c h
      simp only [scanQuantities] at h
      cases hexec : exec quantityPattern input with
      | none =>
          rw [hexec] at h
          exact Or.inl h
      | some m =>
          rw [hexec] at h
          simp only at h
          obtain ⟨pre0, t, hinput, hmatch, _⟩ := exec_some quantityPattern input m hexec
          obtain ⟨v, hv⟩ := reads_suffix _ _ _ (matchAt_some quantityPattern t m hmatch).1
          have hrec : ∀ items', c ∈ scanQuantities fuel m.rest items' →
              c ∈ items' ∨
                (SingleWord c.productHint.data ∧
                  ∃ before ds ws post,
                    input = before ++ ds ++ ws ++ c.productHint.data ++ post ∧
                    IsNumeral ds ∧ parseInt ds = some c.quantity ∧
                    ws ≠ [] ∧ (∀ s ∈ ws, isWhiteSpace s = true) ∧ EndsWord post) := by
            intro items' h'
            rcases ih _ _ _ h' with h1 | ⟨h1, before, ds, ws, post, hrest, h2⟩
            · exact Or.inl h1
            · refine Or.inr ⟨h1, pre0 ++ v ++ before, ds, ws, post, ?_, h2⟩
              rw [hinput, hv, hrest]
              simp only [List.append_assoc]
          cases hparse : parseInt (m.cap 1) with
          | none =>
              rw [hparse] at h
              exact hrec _ h
          | some quantity =>
              rw [hparse] at h
              simp only at h
              by_cases hguard :
                  (quantity.isPositive && decide ((trim (m.cap 2)).length > 2)) = true
              · rw [if_pos hguard] at h
                rcases hrec _ h with h1 | h1
                · rcases List.mem_append.mp h1 with h2 | h2
                  · exact Or.inl h2
                  · right
                    rw [List.mem_singleton.mp h2]
                    simp only [Bool.and_eq_true, decide_eq_true_eq] at hguard
                    have hne : trim (m.cap 2) ≠ [] := by
                      intro h0
                      rw [h0] at hguard
                      simp at hguard
                    obtain ⟨hword, ws, u, ht, hnum, hws, hspaces, hend⟩ :=
                      matchAt_quantityPattern_hint t m hmatch hne
                    refine ⟨hword, pre0, m.cap 1, ws, u ++ m.rest, ?_, hnum, hparse, hws,
                      hspaces, hend⟩
                    rw [hinput, ht]
                    simp only [List.append_assoc]
                · exact Or.inr h1
              · rw [if_neg hguard] at h
                exact hrec _ h

/-- C21: on every message, every candidate produced by the primary pass of
`extractQuoteInfo` is a candidate of the result and its hint is a single word: it is
not empty, holds no white space and is made only of letters of the class
`[a-záéíóúñ]`, in either case.  The hint stands in the message after the numeral
that gives the quantity and some white space, and ends at the end of the message or
before a white space, a comma or a full stop. -/
theorem extractQuoteInfo_hint_single_word (message : String) (c : QuoteLineCandidate)
    (hc : c ∈ scanQuantities (message.data.length + 1) message.data []) :
    c ∈ extractQuoteInfo message ∧
    c.productHint.data ≠ [] ∧
    (∀ x ∈ c.productHint.data, isWhiteSpace x = false) ∧
    (∀ x ∈ c.productHint.data, x ∈ letterClass ∨ x ∈ upperLetterClass) ∧
    ∃ before ds ws post,
      message.data = before ++ ds ++ ws ++ c.productHint.data ++ post ∧
      IsNumeral ds ∧ parseInt ds = some c.quantity ∧
      ws ≠ [] ∧ (∀ s ∈ ws, isWhiteSpace s = true) ∧ EndsWord post := by
  have hresult : c ∈ extractQuoteInfo message := by
    unfold extractQuoteInfo
    have hne : (scanQuantities (message.data.length + 1) message.data []).length ≠ 0 := by
      intro h0
      rw [List.length_eq_zero.mp h0] at hc
      cases hc
    simp only [hne, if_false]
    exact hc
  rcases scanQuantities_hint _ _ _ c hc with h | ⟨⟨hne, hword⟩, hplace⟩
  · cases h
  · exact ⟨hresult, hne, fun x hx => (hword x hx).1, fun x hx => (hword x hx).2, hplace⟩

/-- Witness of C21: the candidate (5, "lectores") of the primary pass on
"10 tarjetas HID, 5 lectores biométricos". -/
theorem extractQuoteInfo_hint_single_word_witness :
    ({ productHint := "lectores", quantity := Quantity.fin 5 } : QuoteLineCandidate) ∈
      scanQuantities ("10 tarjetas HID, 5 lectores biométricos".data.length + 1)
        "10 tarjetas HID, 5 lectores biométricos".data [] ∧
    "lectores".data ≠ [] ∧
    (∀ x ∈ "lectores".data, isWhiteSpace x = false) ∧
    (∀ x ∈ "lectores".data, x ∈ letterClass ∨ x ∈ upperLetterClass) :=
  have hc : ({ productHint := "lectores", quantity := Quantity.fin 5 } : QuoteLineCandidate) ∈
      scanQuantities ("10 tarjetas HID, 5 lectores biométricos".data.length + 1)
        "10 tarjetas HID, 5 lectores biométricos".data [] := by decide
  have h := extractQuoteInfo_hint_single_word "10 tarjetas HID, 5 lectores biométricos"
    { productHint := "lectores", quantity := Quantity.fin 5 } hc
  ⟨hc, h.2.1, h.2.2.1, h.2.2.2.1⟩

end Agente
